import Mathlib

/-!
# ESP32-S3 audio streaming: ring buffer, stream flusher and UDP fan-out

A shallow embedding of `main/audio/audio_processor.cpp`,
`main/network/udp_server.cpp` and the receive loop of the reference client
`scripts/udp_client.cpp`.

* C++ objects are structures; member functions take the object first and
  return the updated object (explicit state passing).
* `size_t` is a 32-bit unsigned integer on the ESP32-S3: additions and
  subtractions of `size_t` values are taken modulo `2^32`.
* Raw memory accesses (`memcpy`, vector indexing) are bounds-checked: an access
  outside the allocation yields `Fault.out_of_bounds` instead of a value.
* The `while` loop of `SendData` is driven by a fuel counter; running out of
  fuel yields `Fault.out_of_fuel`.
* The lwIP `sendto` system call is an oracle: a stream of outcomes, one for
  each call, together with a log of the datagrams handed to it.
* Calls are atomic: the capture context (`WriteData`), the flush context
  (`SendData`) and the receive task interleave at call granularity.
* The capacity `ring_buffer_size_` is a field of the processor, so that the
  theorems hold for every capacity `0 < N ≤ 2^31`, the 64000 of the header
  included, and small capacities can be evaluated.
-/

namespace AudioStream

/-! ## Machine model -/

/-- Ways in which a run of the embedded code can fail to produce a value. -/
inductive Fault where
  | out_of_bounds
  | out_of_fuel
deriving DecidableEq, Repr

/-- A mono PCM sample (`int16_t`). Samples are only copied, never computed on. -/
abbrev int16_t := Int

/-- A byte (`uint8_t`). -/
abbrev uint8_t := Nat

/-- Reduction of a natural number to a `size_t` (32 bits on the ESP32-S3). -/
def size_t (x : Nat) : Nat := x % 4294967296

/-- Subtraction `a - b` of two `size_t` values, wrapping below zero. -/
def size_sub (a b : Nat) : Nat := (a + 4294967296 - b % 4294967296) % 4294967296

/-- `memcpy(dst + dstOff, src + srcOff, n)` counted in elements: the result is
the destination block after the copy; the copy faults when it leaves either
block. -/
def memcpy {α : Type} (dst : List α) (dstOff : Nat) (src : List α) (srcOff n : Nat) :
    Except Fault (List α) :=
  if dstOff + n ≤ dst.length ∧ srcOff + n ≤ src.length then
    .ok (dst.take dstOff ++ (src.drop srcOff).take n ++ dst.drop (dstOff + n))
  else
    .error .out_of_bounds

/-- The two bytes of an `int16_t` in the native (little-endian) order. -/
def int16_bytes (x : int16_t) : List uint8_t :=
  [(Int.emod x 256).toNat, (Int.emod (Int.ediv x 256) 256).toNat]

/-- The byte view `reinterpret_cast<const uint8_t*>(buf.data())` of a sample vector. -/
def reinterpret_bytes : List int16_t → List uint8_t
  | [] => []
  | x :: xs => int16_bytes x ++ reinterpret_bytes xs

/-! ## `udp_server.h` / `udp_server.cpp` -/

/-- An IPv4 socket address: the two fields the server compares,
`sin_addr.s_addr` and `sin_port`. -/
structure sockaddr_in where
  sin_addr : Nat
  sin_port : Nat
deriving DecidableEq, Repr

/-- Wire value of `enum class MessageType : uint8_t`. -/
inductive MessageType where
  | DATA
  | DISCONNECT
deriving DecidableEq, Repr

/-- The `uint8_t` behind a `MessageType`. -/
def MessageType.toByte : MessageType → uint8_t
  | .DATA => 0
  | .DISCONNECT => 1

/-- Size of `struct MessageHeader` (`type` plus `reserved[3]`). -/
def sizeof_MessageHeader : Nat := 4

/-- One entry of the client registry. -/
structure ClientInfo where
  addr : sockaddr_in
deriving DecidableEq, Repr

/-- The data members of `class UDPServer`. `data_callback_` records whether
the `std::function` holds a callable (it is empty until `SetReceiveCallback`). -/
structure UDPServer where
  socket_fd_ : Int
  port_ : Nat
  should_stop_ : Bool
  clients_ : List ClientInfo
  data_callback_ : Bool := false
deriving DecidableEq, Repr

/-- One call of `sendto`: destination, bytes handed over, and whether the call
reported success (`sent >= 0`). -/
structure Datagram where
  dest : sockaddr_in
  bytes : List uint8_t
  sent : Bool
deriving DecidableEq, Repr

/-- The socket layer as `SendTo` sees it: `sendto_ok k` is the outcome of the
`k`-th `sendto` call (counted from 0), `wire` logs the calls made so far. -/
structure Net where
  sendto_ok : Nat → Bool
  wire : List Datagram

/-- `UDPServer::HasClients`. -/
def UDPServer.HasClients (self : UDPServer) : Bool := !self.clients_.isEmpty

/-- `UDPServer::SendTo`. -/
def UDPServer.SendTo (self : UDPServer) (net : Net) (data : Option (List uint8_t)) (len : Nat)
    (dest_addr : sockaddr_in) : Except Fault (Bool × Net) :=
  match data with
  | none => .ok (false, net)
  | some d =>
    if self.socket_fd_ < 0 ∨ len = 0 then .ok (false, net)
    else if len ≤ d.length then
      let sent := net.sendto_ok net.wire.length
      .ok (sent, { net with wire := net.wire ++ [{ dest := dest_addr, bytes := d.take len, sent := sent }] })
    else .error .out_of_bounds

/-- The loop of `UDPServer::RemoveClient`: erase the first entry with the same
address and port. -/
def RemoveClient_erase : List ClientInfo → sockaddr_in → List ClientInfo
  | [], _ => []
  | c :: cs, addr =>
    if c.addr.sin_addr = addr.sin_addr ∧ c.addr.sin_port = addr.sin_port then cs
    else c :: RemoveClient_erase cs addr

/-- `UDPServer::RemoveClient`. -/
def UDPServer.RemoveClient (self : UDPServer) (addr : sockaddr_in) : UDPServer :=
  { self with clients_ := RemoveClient_erase self.clients_ addr }

/-- The `for (const auto& client : clients_)` loop of `SendToAllClients`,
carrying `success`, `failed_clients` and the socket layer. -/
def SendToAllClients_loop (self : UDPServer) (buffer : List uint8_t) (total_len : Nat) :
    List ClientInfo → Bool → List sockaddr_in → Net → Except Fault (Bool × List sockaddr_in × Net)
  | [], success, failed_clients, net => .ok (success, failed_clients, net)
  | client :: rest, success, failed_clients, net =>
    match self.SendTo net (some buffer) total_len client.addr with
    | .error e => .error e
    | .ok (sent, net1) =>
      if !sent then
        SendToAllClients_loop self buffer total_len rest false (failed_clients ++ [client.addr]) net1
      else
        SendToAllClients_loop self buffer total_len rest success failed_clients net1

/-- `UDPServer::SendToAllClients`: returns the result together with the updated
server and socket layer. -/
def UDPServer.SendToAllClients (self : UDPServer) (net : Net) (data : Option (List uint8_t))
    (len : Nat) : Except Fault (Bool × UDPServer × Net) :=
  match data with
  | none => .ok (false, self, net)
  | some d =>
    if len = 0 then .ok (false, self, net)
    else
      let total_len := size_t (sizeof_MessageHeader + len)
      let buffer0 : List uint8_t := List.replicate total_len 0
      if 0 < buffer0.length then
        let buffer1 := buffer0.set 0 MessageType.DATA.toByte
        match memcpy buffer1 sizeof_MessageHeader d 0 len with
        | .error e => .error e
        | .ok buffer =>
          match SendToAllClients_loop self buffer total_len self.clients_ true [] net with
          | .error e => .error e
          | .ok (success, failed_clients, net1) =>
            .ok (success, failed_clients.foldl UDPServer.RemoveClient self, net1)
      else .error .out_of_bounds

/-- One invocation of `data_callback_`: the payload handed over, its length
and the sender. -/
structure DataCall where
  payload : List uint8_t
  payload_len : Nat
  client_addr : sockaddr_in
deriving DecidableEq, Repr

/-- `UDPServer::HandleMessage` on the receive buffer `data` holding a datagram
of `len` bytes: returns the updated server and the callback invocations made. -/
def UDPServer.HandleMessage (self : UDPServer) (data : List uint8_t) (len : Nat)
    (client_addr : sockaddr_in) : Except Fault (UDPServer × List DataCall) :=
  if len < sizeof_MessageHeader then .ok (self, [])
  else
    match data[0]? with
    | none => .error .out_of_bounds
    | some type =>
      let payload_len := size_sub len sizeof_MessageHeader
      if type = MessageType.DISCONNECT.toByte then
        .ok (self.RemoveClient client_addr, [])
      else if type = MessageType.DATA.toByte then
        if payload_len > 0 ∧ self.data_callback_ = true then
          .ok (self, [{ payload := (data.drop sizeof_MessageHeader).take payload_len,
                        payload_len := payload_len, client_addr := client_addr }])
        else .ok (self, [])
      else .ok (self, [])

/-- The scan of `HandleUDPTask` that decides `is_new_client`: false as soon
as an entry with the same address and port is found. -/
def is_new_client : List ClientInfo → sockaddr_in → Bool
  | [], _ => true
  | client :: rest, client_addr =>
    if client.addr.sin_addr = client_addr.sin_addr ∧ client.addr.sin_port = client_addr.sin_port
    then false
    else is_new_client rest client_addr

/-- `BUFFER_SIZE` of `HandleUDPTask`. -/
def BUFFER_SIZE : Nat := 1024

/-- One iteration of the loop of `UDPServer::HandleUDPTask`, given what
`recvfrom` returned: the length `len` (negative on failure), the receive
buffer `rx_buffer` and the sender `client_addr`. -/
def UDPServer.HandleUDPTask_body (self : UDPServer) (len : Int) (rx_buffer : List uint8_t)
    (client_addr : sockaddr_in) : Except Fault (UDPServer × List DataCall) :=
  if len < 0 then .ok (self, [])
  else
    let self1 : UDPServer :=
      if is_new_client self.clients_ client_addr = true then
        { self with clients_ := self.clients_ ++ [{ addr := client_addr }] }
      else self
    self1.HandleMessage rx_buffer len.toNat client_addr

/-! ## `audio_processor.h` / `audio_processor.cpp` -/

/-- The part of `I2SCodec` that `AudioProcessor::Initialize` reads. -/
structure I2SCodec where
  audio_read_duration_ms_ : Nat
deriving DecidableEq, Repr

/-- The data members of `class AudioProcessor`. `ring_buffer_ = none` is the
null pointer; `ring_buffer_size_` is the compile-time capacity, kept as a field
so that small capacities can be traced. -/
structure AudioProcessor where
  codec_ : Option I2SCodec
  udp_server_ : UDPServer
  ring_buffer_ : Option (List int16_t)
  ring_buffer_size_ : Nat
  write_pos_ : Nat
  read_pos_ : Nat
  last_send_pos_ : Nat
deriving DecidableEq, Repr

/-- The capacity fixed in `audio_processor.h`. -/
def ring_buffer_size_ : Nat := 16000 * 4

/-- `AudioProcessor::Initialize`. `psram` is what `heap_caps_malloc` returns:
`none` when the allocation fails, otherwise the (uninitialised) block. -/
def AudioProcessor.Initialize (self : AudioProcessor) (codec : Option I2SCodec)
    (psram : Option (List int16_t)) : Bool × AudioProcessor :=
  match codec with
  | none => (false, self)
  | some c =>
    match psram with
    | none => (false, { self with ring_buffer_ := none })
    | some block =>
      (true, { self with ring_buffer_ := some block, codec_ := some c,
                         write_pos_ := 0, last_send_pos_ := 0 })

/-- The copy into the ring made by `WriteData`: one `memcpy` when the batch
fits before the end of the ring, two when it wraps. -/
def ring_write (ring : List int16_t) (ring_size write_pos : Nat) (data : List int16_t)
    (samples : Nat) : Except Fault (List int16_t) :=
  if size_t (write_pos + samples) ≤ ring_size then
    memcpy ring write_pos data 0 samples
  else
    let first_part := size_sub ring_size write_pos
    match memcpy ring write_pos data 0 first_part with
    | .error e => .error e
    | .ok ring1 => memcpy ring1 0 data first_part (size_sub samples first_part)

/-- `AudioProcessor::WriteData`. -/
def AudioProcessor.WriteData (self : AudioProcessor) (data : Option (List int16_t))
    (samples : Nat) : Except Fault AudioProcessor :=
  match data, self.ring_buffer_ with
  | none, _ => .ok self
  | some _, none => .ok self
  | some d, some ring =>
    if samples = 0 then .ok self
    else
      match ring_write ring self.ring_buffer_size_ self.write_pos_ d samples with
      | .error e => .error e
      | .ok ring2 =>
        .ok { self with ring_buffer_ := some ring2,
                        write_pos_ := size_t (self.write_pos_ + samples) % self.ring_buffer_size_ }

/-- The available-data computation at the head of `SendData`
(`valid_data_samples`, from the send position to the write position). -/
def AudioProcessor.valid_data_samples (self : AudioProcessor) : Nat :=
  if self.write_pos_ ≥ self.last_send_pos_ then
    size_sub self.write_pos_ self.last_send_pos_
  else
    size_t (size_sub self.ring_buffer_size_ self.last_send_pos_ + self.write_pos_)

/-- `MAX_SAMPLES_PER_PACKET` of `SendData`. -/
def MAX_SAMPLES_PER_PACKET : Nat := 480

/-- `MAX_FAILED_PACKETS` of `SendData`. -/
def MAX_FAILED_PACKETS : Nat := 3

/-- The read of one slice in the loop of `SendData`: computes `read_pos` and
fills a fresh `send_buffer` of `samples_to_send` samples from the ring. -/
def read_slice (ring : List int16_t) (ring_size current_send_pos samples_sent samples_to_send : Nat) :
    Except Fault (Nat × List int16_t) :=
  let send_buffer : List int16_t := List.replicate samples_to_send 0
  let read_pos := size_t (current_send_pos + samples_sent) % ring_size
  if size_t (read_pos + samples_to_send) ≤ ring_size then
    match memcpy send_buffer 0 ring read_pos samples_to_send with
    | .error e => .error e
    | .ok buf => .ok (read_pos, buf)
  else
    let first_part := size_sub ring_size read_pos
    match memcpy send_buffer 0 ring read_pos first_part with
    | .error e => .error e
    | .ok buf1 =>
      match memcpy buf1 first_part ring 0 (size_sub samples_to_send first_part) with
      | .error e => .error e
      | .ok buf => .ok (read_pos, buf)

/-- Record of one iteration of the loop of `SendData`: the offset
(`samples_sent`) and ring position the slice was read at, the slice handed to
`SendToAllClients`, what that call returned, and `failed_packets` at the end of
the iteration. -/
structure Broadcast where
  offset : Nat
  read_pos : Nat
  send_buffer : List int16_t
  result : Bool
  failed_packets : Nat
deriving DecidableEq, Repr

/-- The local variables of the loop of `SendData`, the server and socket layer
it acts on, and the record of the broadcasts made so far. -/
structure SendLoop where
  samples_sent : Nat
  failed_packets : Nat
  total_packets_sent : Nat
  udp_server_ : UDPServer
  net : Net
  broadcasts : List Broadcast

/-- One iteration of `while (samples_sent < valid_data_samples)`. -/
def SendData_body (ring : List int16_t) (ring_size valid_data_samples current_send_pos : Nat)
    (st : SendLoop) : Except Fault SendLoop :=
  let samples_to_send := min MAX_SAMPLES_PER_PACKET (size_sub valid_data_samples st.samples_sent)
  match read_slice ring ring_size current_send_pos st.samples_sent samples_to_send with
  | .error e => .error e
  | .ok (read_pos, send_buffer) =>
    match st.udp_server_.SendToAllClients st.net (some (reinterpret_bytes send_buffer))
        (size_t (samples_to_send * 2)) with
    | .error e => .error e
    | .ok (sent, udp, net1) =>
      if !sent then
        let failed_packets := size_t (st.failed_packets + 1)
        let call : Broadcast :=
          { offset := st.samples_sent, read_pos := read_pos, send_buffer := send_buffer,
            result := false, failed_packets := failed_packets }
        if failed_packets ≥ MAX_FAILED_PACKETS then
          .ok { st with samples_sent := size_t (st.samples_sent + samples_to_send),
                        failed_packets := failed_packets,
                        udp_server_ := udp, net := net1,
                        broadcasts := st.broadcasts ++ [call] }
        else
          .ok { st with failed_packets := failed_packets,
                        udp_server_ := udp, net := net1,
                        broadcasts := st.broadcasts ++ [call] }
      else
        let call : Broadcast :=
          { offset := st.samples_sent, read_pos := read_pos, send_buffer := send_buffer,
            result := true, failed_packets := 0 }
        .ok { st with failed_packets := 0,
                      samples_sent := size_t (st.samples_sent + samples_to_send),
                      total_packets_sent := size_t (st.total_packets_sent + 1),
                      udp_server_ := udp, net := net1,
                      broadcasts := st.broadcasts ++ [call] }

/-- The loop `while (samples_sent < valid_data_samples)` of `SendData`, with
at most `fuel` iterations. -/
def SendData_loop (ring : List int16_t) (ring_size valid_data_samples current_send_pos : Nat) :
    Nat → SendLoop → Except Fault SendLoop
  | fuel, st =>
    if st.samples_sent < valid_data_samples then
      match fuel with
      | 0 => .error .out_of_fuel
      | fuel1 + 1 =>
        match SendData_body ring ring_size valid_data_samples current_send_pos st with
        | .error e => .error e
        | .ok st1 => SendData_loop ring ring_size valid_data_samples current_send_pos fuel1 st1
    else .ok st

/-- What one invocation of `SendData` leaves behind: the processor, the socket
layer, and the broadcasts it made, in call order. -/
structure Flush where
  self : AudioProcessor
  net : Net
  broadcasts : List Broadcast

/-- The send-position update after the loop of `SendData`
(`last_send_pos_ = (current_send_pos + samples_sent) % ring_buffer_size_`,
guarded by `samples_sent > 0`). -/
def AudioProcessor.update_send_position (self : AudioProcessor) (current_send_pos samples_sent : Nat) :
    AudioProcessor :=
  if samples_sent > 0 then
    { self with last_send_pos_ := size_t (current_send_pos + samples_sent) % self.ring_buffer_size_ }
  else self

/-- `AudioProcessor::SendData`, the loop running on `fuel`. -/
def AudioProcessor.SendData (fuel : Nat) (self : AudioProcessor) (net : Net) : Except Fault Flush :=
  match self.ring_buffer_ with
  | none => .ok { self := self, net := net, broadcasts := [] }
  | some ring =>
    let valid_data_samples := self.valid_data_samples
    if valid_data_samples > 0 ∧ self.udp_server_.HasClients = true then
      let current_send_pos := self.last_send_pos_
      match SendData_loop ring self.ring_buffer_size_ valid_data_samples current_send_pos fuel
          { samples_sent := 0, failed_packets := 0, total_packets_sent := 0,
            udp_server_ := self.udp_server_, net := net, broadcasts := [] } with
      | .error e => .error e
      | .ok st =>
        .ok { self := ({ self with udp_server_ := st.udp_server_ }).update_send_position
                        current_send_pos st.samples_sent,
              net := st.net, broadcasts := st.broadcasts }
    else .ok { self := self, net := net, broadcasts := [] }

/-- A freshly constructed `AudioProcessor` (member initialisers of the class),
for capacity `N` and bound to the server `udp`. -/
def AudioProcessor.new (N : Nat) (udp : UDPServer) : AudioProcessor :=
  { codec_ := none, udp_server_ := udp, ring_buffer_ := none, ring_buffer_size_ := N,
    write_pos_ := 0, read_pos_ := 0, last_send_pos_ := 0 }

/-- States of a processor of capacity `N` reachable from `Initialize` by
`WriteData` calls of at most `N` samples each, `SendData` invocations, and
changes of the client registry made by the receive task in between. -/
inductive Reachable (N : Nat) : AudioProcessor → Prop where
  | init (udp : UDPServer) (codec : Option I2SCodec) (psram : Option (List int16_t)) :
      (∀ block, psram = some block → block.length = N) →
      Reachable N ((AudioProcessor.new N udp).Initialize codec psram).2
  | write (s t : AudioProcessor) (data : Option (List int16_t)) (samples : Nat) :
      Reachable N s → samples ≤ N → s.WriteData data samples = .ok t → Reachable N t
  | send (s : AudioProcessor) (fuel : Nat) (net : Net) (f : Flush) :
      Reachable N s → s.SendData fuel net = .ok f → Reachable N f.self
  | registry (s : AudioProcessor) (udp : UDPServer) :
      Reachable N s → Reachable N { s with udp_server_ := udp }

/-- A run of `WriteData` calls, one for each batch in turn (each batch is
passed as a non-null pointer together with its length). -/
def WriteData_seq (s : AudioProcessor) : List (List int16_t) → Except Fault AudioProcessor
  | [] => .ok s
  | batch :: rest =>
    match s.WriteData (some batch) batch.length with
    | .error e => .error e
    | .ok t => WriteData_seq t rest

/-- The unsent window of a processor: what the slice read of `SendData`
returns when asked, at the send cursor, for all `valid_data_samples` at once. -/
def AudioProcessor.unsent_window (self : AudioProcessor) : Except Fault (List int16_t) :=
  match self.ring_buffer_ with
  | none => .ok []
  | some ring =>
    match read_slice ring self.ring_buffer_size_ self.last_send_pos_ 0 self.valid_data_samples with
    | .error e => .error e
    | .ok (_, send_buffer) => .ok send_buffer

/-- Specification of a circular read: the `n` slots of `ring` (capacity `N`)
at positions `pos, pos + 1, ...` taken modulo `N`. -/
def ring_window (ring : List int16_t) (N pos n : Nat) : List int16_t :=
  (List.range n).map (fun i => (ring[(pos + i) % N]?).getD 0)

/-- A server with an open socket and the given registry. -/
def demo_server (clients : List ClientInfo) : UDPServer :=
  { socket_fd_ := 3, port_ := 8000, should_stop_ := false, clients_ := clients }

/-- An initialised processor of capacity 8 with a zero-filled ring, streaming
to the given registry. -/
def demo_processor (clients : List ClientInfo) : AudioProcessor :=
  ((AudioProcessor.new 8 (demo_server clients)).Initialize
    (some { audio_read_duration_ms_ := 10 }) (some (List.replicate 8 0))).2

/-- A broadcast accounts for its slice when `samples_sent` was advanced past
it: the slice was sent (`SendToAllClients` returned true) or skipped
(`failed_packets` had reached `MAX_FAILED_PACKETS`). -/
def Broadcast.accounted (b : Broadcast) : Bool :=
  b.result || decide (MAX_FAILED_PACKETS ≤ b.failed_packets)

/-- The value of `samples_sent` at the end of the iteration a broadcast was made in. -/
def Broadcast.next_offset (b : Broadcast) : Nat :=
  if b.accounted = true then b.offset + b.send_buffer.length else b.offset

/-- The slices of an invocation that were sent or skipped, in call order. -/
def accounted_slices (bs : List Broadcast) : List (List int16_t) :=
  (bs.filter Broadcast.accounted).map Broadcast.send_buffer

/-- Total number of samples in the slices that were sent or skipped. -/
def accounted_samples (bs : List Broadcast) : Nat :=
  (accounted_slices bs).flatten.length

/-- Number of consecutive failed broadcasts at the end of a sequence of broadcasts. -/
def consecutive_failures (bs : List Broadcast) : Nat :=
  (bs.reverse.takeWhile (fun b => !b.result)).length

/-- The state after one iteration of the loop of `SendData`, given what
`SendToAllClients` returned for the slice `send_buffer` of `n` samples read at
ring position `read_pos`. -/
def SendLoop.advance (st : SendLoop) (read_pos n : Nat) (send_buffer : List int16_t)
    (sent : Bool) (udp : UDPServer) (net1 : Net) : SendLoop :=
  { samples_sent :=
      if sent = true ∨ MAX_FAILED_PACKETS ≤ st.failed_packets + 1 then st.samples_sent + n
      else st.samples_sent,
    failed_packets := if sent = true then 0 else st.failed_packets + 1,
    total_packets_sent :=
      if sent = true then size_t (st.total_packets_sent + 1) else st.total_packets_sent,
    udp_server_ := udp,
    net := net1,
    broadcasts := st.broadcasts ++
      [{ offset := st.samples_sent, read_pos := read_pos, send_buffer := send_buffer,
         result := sent,
         failed_packets := if sent = true then 0 else st.failed_packets + 1 }] }

/-- Bound on the number of iterations the loop of `SendData` still makes:
three for every slice not yet accounted for, less the failures already
counted towards the first of them. -/
def SendLoop.measure (valid : Nat) (st : SendLoop) : Nat :=
  3 * ((valid - st.samples_sent + (MAX_SAMPLES_PER_PACKET - 1)) / MAX_SAMPLES_PER_PACKET)
    - min st.failed_packets 2

/-- Invariant of the loop of `SendData` over the unsent window `W` (the
`valid` samples of the ring from `cur` on): bounds on the locals, and what the
record of broadcasts made so far looks like. -/
structure LoopInv (W : List int16_t) (N cur valid : Nat) (st : SendLoop) : Prop where
  sent_le : st.samples_sent ≤ valid
  failed_le : st.failed_packets ≤ st.samples_sent + 2
  failed_eq : st.failed_packets = consecutive_failures st.broadcasts
  slices : ∀ b ∈ st.broadcasts, b.offset < valid ∧ b.read_pos = (cur + b.offset) % N ∧
    b.send_buffer = (W.drop b.offset).take (min MAX_SAMPLES_PER_PACKET (valid - b.offset))
  accounted : (accounted_slices st.broadcasts).flatten = W.take st.samples_sent
  chain : ∀ i b, st.broadcasts[i]? = some b →
    ((st.broadcasts[i + 1]?).map Broadcast.offset).getD st.samples_sent = b.next_offset
  mono : ∀ b ∈ st.broadcasts, b.next_offset ≤ st.samples_sent
  ordered : st.broadcasts.Pairwise (fun b b2 => b.next_offset ≤ b2.offset)
  counted : ∀ i b, st.broadcasts[i]? = some b →
    b.failed_packets = consecutive_failures (st.broadcasts.take (i + 1))
  attempts : st.broadcasts.length + st.measure valid
    ≤ 3 * ((valid + (MAX_SAMPLES_PER_PACKET - 1)) / MAX_SAMPLES_PER_PACKET)

/-- The demo processor after `WriteData` of `[1,2,3,4,5]`. -/
def demo_written (clients : List ClientInfo) : AudioProcessor :=
  { demo_processor clients with ring_buffer_ := some [1, 2, 3, 4, 5, 0, 0, 0], write_pos_ := 5 }

/-- A socket layer with nothing sent yet whose `sendto` calls have the listed
outcomes, and succeed once the list is exhausted. -/
def demo_net (outcomes : List Bool) : Net :=
  { sendto_ok := fun k => outcomes.getD k true, wire := [] }

/-- A registered endpoint. -/
def demo_client : ClientInfo := { addr := { sin_addr := 3232235777, sin_port := 5000 } }

/-- A second registered endpoint. -/
def demo_client2 : ClientInfo := { addr := { sin_addr := 3232235778, sin_port := 5000 } }

/-- A third registered endpoint. -/
def demo_client3 : ClientInfo := { addr := { sin_addr := 3232235779, sin_port := 5001 } }

/-- Outcomes of `sendto` that make three broadcasts in a row fail for the
registry `[demo_client, demo_client2, demo_client3]`: each broadcast loses one
endpoint. -/
def demo_three_failures : List Bool := [false, true, true, false, true, false]

/-- What `SendTo` returns for a non-empty datagram when its `sendto` is the
`k`-th call on the socket layer: false on a closed socket, otherwise the
outcome of that call. -/
def UDPServer.send_ok (self : UDPServer) (net : Net) (k : Nat) : Bool :=
  decide (0 ≤ self.socket_fd_) && net.sendto_ok k

/-- Specification of a broadcast pass over a registry, `ok k` being the
outcome of send number `k` and the first endpoint getting send number `k`:
whether all sends succeed. -/
def fanout_all_ok (ok : Nat → Bool) : Nat → List ClientInfo → Bool
  | _, [] => true
  | k, _ :: rest => ok k && fanout_all_ok ok (k + 1) rest

/-- Specification of a broadcast pass: the addresses whose send fails, in
registry order. -/
def fanout_failed (ok : Nat → Bool) : Nat → List ClientInfo → List sockaddr_in
  | _, [] => []
  | k, c :: rest =>
    if ok k = true then fanout_failed ok (k + 1) rest
    else c.addr :: fanout_failed ok (k + 1) rest

/-- Specification of a broadcast pass: the endpoints whose send succeeds, in
registry order. -/
def fanout_survivors (ok : Nat → Bool) : Nat → List ClientInfo → List ClientInfo
  | _, [] => []
  | k, c :: rest =>
    if ok k = true then c :: fanout_survivors ok (k + 1) rest
    else fanout_survivors ok (k + 1) rest

/-- Specification of a broadcast pass: one datagram for each endpoint, in
registry order, all carrying `frame`. -/
def fanout_wire (ok : Nat → Bool) (frame : List uint8_t) : Nat → List ClientInfo → List Datagram
  | _, [] => []
  | k, c :: rest =>
    { dest := c.addr, bytes := frame, sent := ok k } :: fanout_wire ok frame (k + 1) rest

/-- Specification of the wire format of a DATA packet: type byte 0, three
reserved zero bytes, then the first `len` bytes of the payload. -/
def data_frame (d : List uint8_t) (len : Nat) : List uint8_t :=
  [0, 0, 0, 0] ++ d.take len

/-- A payload of 1920 bytes. -/
def demo_payload : List uint8_t := List.replicate 1920 7

/-- The socket layer after the first broadcast of `demo_payload` to
`[demo_client, demo_client2]` with the first send failing. -/
def demo_net_after : Net :=
  { demo_net [false, true] with
    wire := [{ dest := demo_client.addr, bytes := data_frame demo_payload 1920, sent := false },
             { dest := demo_client2.addr, bytes := data_frame demo_payload 1920, sent := true }] }

/-- Servers reachable from an empty registry by receive steps (one iteration
of the loop of `HandleUDPTask`, `HandleMessage` included) and
`SendToAllClients` calls. -/
inductive RegistryReachable : UDPServer → Prop where
  | empty (self : UDPServer) : self.clients_ = [] → RegistryReachable self
  | receive (self udp : UDPServer) (len : Int) (rx_buffer : List uint8_t)
      (client_addr : sockaddr_in) (calls : List DataCall) :
      RegistryReachable self →
      self.HandleUDPTask_body len rx_buffer client_addr = .ok (udp, calls) →
      RegistryReachable udp
  | broadcast (self udp : UDPServer) (net net1 : Net) (data : Option (List uint8_t))
      (len : Nat) (sent : Bool) :
      RegistryReachable self →
      self.SendToAllClients net data len = .ok (sent, udp, net1) →
      RegistryReachable udp

/-- The registration step of `HandleUDPTask`: the sender is appended when the
scan finds it new. -/
def UDPServer.registered (self : UDPServer) (client_addr : sockaddr_in) : UDPServer :=
  if is_new_client self.clients_ client_addr = true then
    { self with clients_ := self.clients_ ++ [{ addr := client_addr }] }
  else self

/-- A receive buffer of `BUFFER_SIZE` bytes holding the given datagram. -/
def demo_rx (datagram : List uint8_t) : List uint8_t :=
  datagram ++ List.replicate (BUFFER_SIZE - datagram.length) 0

/-- Invariant of the loop of `SendData` on the attempts made for each slice:
a slice already passed has been broadcast at most 3 times, the slice at the
current offset at most `min failed_packets 2` times, a later one not yet. -/
def SliceAttempts (st : SendLoop) : Prop :=
  ∀ o : Nat, st.broadcasts.countP (fun b => decide (b.offset = o))
    ≤ if o = st.samples_sent then min st.failed_packets 2 else 3

/-- Invariant of the loop of `SendData` on the socket layer: the datagrams
logged since `wire0` split into one segment for each broadcast made so far; a
broadcast that returned true has only successful sends in its segment, every
datagram of the segment carries the DATA frame of the slice, and a failed
broadcast left `failed_packets` at 1 or more. -/
def Segmented (wire0 : List Datagram) (st : SendLoop) : Prop :=
  ∃ segs : List (List Datagram),
    segs.length = st.broadcasts.length ∧
    st.net.wire = wire0 ++ segs.flatten ∧
    ∀ (i : Nat) (seg : List Datagram) (b : Broadcast),
      segs[i]? = some seg → st.broadcasts[i]? = some b →
      (b.result = true → ∀ d ∈ seg, d.sent = true) ∧
      (∀ d ∈ seg, d.bytes
        = data_frame (reinterpret_bytes b.send_buffer) (2 * b.send_buffer.length)) ∧
      (b.result = false → 1 ≤ b.failed_packets)

/-! ## Reference client (`scripts/udp_client.cpp`) -/

/-- The datagram `UDPClient::connect` sends to announce itself: the five
characters of `"hello"` (`strlen(hello_msg)` bytes, no terminator). -/
def hello_msg : List uint8_t := [104, 101, 108, 108, 111]

/-- Element `i` of a byte buffer read through an `int16_t*` (the
`reinterpret_cast<int16_t *>(buffer)` of the receive loop): two bytes, low
byte first, as a two's complement number. -/
def int16_at (buffer : List uint8_t) (i : Nat) : Except Fault int16_t :=
  match buffer[2 * i]?, buffer[2 * i + 1]? with
  | some lo, some hi =>
    .ok (if hi < 128 then (lo : Int) + 256 * (hi : Int) else (lo : Int) + 256 * (hi : Int) - 65536)
  | _, _ => .error .out_of_bounds

/-- Size of the receive buffer of `UDPClient::_receive_loop`. -/
def client_buffer_size : Nat := 2048

/-- The part of `UDPClient` the receive loop writes: the bytes written to the
WAV file so far (the 44-byte header of `init_wav_file` included), the
`uint32_t data_size` stored into the header on close, and the two
`size_t` counters read by the statistics thread (64-bit host). -/
structure UDPClient where
  wav_file : List uint8_t
  data_size : Nat
  total_bytes : Nat
  bytes_since_last_update : Nat
  deriving DecidableEq, Repr

/-- One iteration of the `while (running)` loop of `UDPClient::_receive_loop`,
given what `recvfrom` returned (`received_bytes`) and the receive buffer after
the call. The two leading 16-bit words are read only when
`sample_count >= 482` (the `&&` short-circuits); the console output (first
samples, range statistics) is left out. `received_bytes` is positive where it
is halved, so the quotient is the one of the C division. -/
def UDPClient._receive_loop_body (self : UDPClient) (received_bytes : Int)
    (buffer : List uint8_t) : Except Fault UDPClient :=
  if received_bytes > 0 then
    let sample_count : Int := received_bytes / 2
    let leading_zeros : Except Fault Bool :=
      if sample_count ≥ 482 then
        match int16_at buffer 0 with
        | .error e => .error e
        | .ok w0 =>
          if w0 = 0 then
            match int16_at buffer 1 with
            | .error e => .error e
            | .ok w1 => .ok (decide (w1 = 0))
          else .ok false
      else .ok false
    match leading_zeros with
    | .error e => .error e
    | .ok skip =>
      let start_idx : Int := if skip = true then 2 else 0
      let data_size_to_write : Int := (sample_count - start_idx) * 2
      if data_size_to_write > 0 then
        if (2 * start_idx + data_size_to_write).toNat ≤ buffer.length then
          .ok { self with
                wav_file := self.wav_file
                  ++ (buffer.drop (2 * start_idx).toNat).take data_size_to_write.toNat,
                total_bytes := (self.total_bytes + data_size_to_write.toNat) % 2 ^ 64,
                bytes_since_last_update :=
                  (self.bytes_since_last_update + data_size_to_write.toNat) % 2 ^ 64,
                data_size := (self.data_size + data_size_to_write.toNat) % 2 ^ 32 }
        else .error .out_of_bounds
      else .ok self
  else .ok self

/-- The client after `bytes` were written to the WAV file and added to its
counters. -/
def UDPClient.appended (self : UDPClient) (bytes : List uint8_t) : UDPClient :=
  { self with
    wav_file := self.wav_file ++ bytes,
    total_bytes := (self.total_bytes + bytes.length) % 2 ^ 64,
    bytes_since_last_update := (self.bytes_since_last_update + bytes.length) % 2 ^ 64,
    data_size := (self.data_size + bytes.length) % 2 ^ 32 }

/-- A freshly opened recording: only the WAV header has been written. -/
def demo_recording : UDPClient :=
  { wav_file := List.replicate 44 0, data_size := 0, total_bytes := 0,
    bytes_since_last_update := 0 }

/-! ## The calls of one flush -/

/-- The record `bs` of broadcasts is a chain of calls of `SendToAllClients`:
starting from server `udp` and network `net`, each broadcast is the call with
the serialized slice as payload and twice the slice length as `len`, returning
the recorded result, and each call starts from the server and network the call
before it left; the last one leaves `udp2` and `net2`. -/
def CallChain : UDPServer → Net → List Broadcast → UDPServer → Net → Prop
  | udp, net, [], udp2, net2 => udp2 = udp ∧ net2 = net
  | udp, net, b :: bs, udp2, net2 =>
    ∃ (udp1 : UDPServer) (net1 : Net),
      udp.SendToAllClients net (some (reinterpret_bytes b.send_buffer))
        (2 * b.send_buffer.length) = .ok (b.result, udp1, net1) ∧
      CallChain udp1 net1 bs udp2 net2

/-! ## A scenario with two slices -/

def demo_client4 : ClientInfo := { addr := { sin_addr := 3232235780, sin_port := 5002 } }

/-- A processor with a ring of 512 slots holding 481 unsent samples (one full
slice of 480 and one of a single sample) and four registered endpoints. -/
def demo_two_slices : AudioProcessor :=
  { codec_ := some { audio_read_duration_ms_ := 10 },
    udp_server_ := demo_server [demo_client, demo_client2, demo_client3, demo_client4],
    ring_buffer_ := some (List.replicate 512 5),
    ring_buffer_size_ := 512, write_pos_ := 481, read_pos_ := 0, last_send_pos_ := 0 }

/-- Outcomes of `sendto` under which each of the first four broadcasts loses
its first endpoint and reaches the others. -/
def demo_staggered_failures : List Bool :=
  [false, true, true, true, false, true, true, false, true, false]

/-! ## Lemmas and theorems -/

theorem size_t_eq {x : Nat} (h : x < 4294967296) : size_t x = x := by
  unfold size_t; omega

theorem size_sub_eq {a b : Nat} (hb : b ≤ a) (ha : a < 4294967296) : size_sub a b = a - b := by
  unfold size_sub; omega

theorem memcpy_ok {α : Type} (dst : List α) (dstOff : Nat) (src : List α) (srcOff n : Nat)
    (hd : dstOff + n ≤ dst.length) (hs : srcOff + n ≤ src.length) :
    memcpy dst dstOff src srcOff n
      = .ok (dst.take dstOff ++ (src.drop srcOff).take n ++ dst.drop (dstOff + n)) := by
  unfold memcpy; rw [if_pos ⟨hd, hs⟩]

theorem splice_length {α : Type} (dst : List α) (dstOff : Nat) (src : List α) (srcOff n : Nat)
    (hd : dstOff + n ≤ dst.length) (hs : srcOff + n ≤ src.length) :
    (dst.take dstOff ++ (src.drop srcOff).take n ++ dst.drop (dstOff + n)).length = dst.length := by
  simp only [List.length_append, List.length_take, List.length_drop]; omega

theorem splice_getElem? {α : Type} (dst : List α) (dstOff : Nat) (src : List α) (srcOff n : Nat)
    (hd : dstOff + n ≤ dst.length) (hs : srcOff + n ≤ src.length) (j : Nat) :
    (dst.take dstOff ++ (src.drop srcOff).take n ++ dst.drop (dstOff + n))[j]?
      = if dstOff ≤ j ∧ j < dstOff + n then src[srcOff + (j - dstOff)]? else dst[j]? := by
  by_cases h1 : j < dstOff
  · rw [if_neg (by omega), List.append_assoc, List.getElem?_append_left (by simp; omega)]
    rw [List.getElem?_take]; simp [h1]
  · by_cases h2 : j < dstOff + n
    · rw [if_pos ⟨by omega, h2⟩, List.append_assoc, List.getElem?_append_right (by simp; omega)]
      rw [List.getElem?_append_left (by simp; omega)]
      simp only [List.length_take]
      rw [List.getElem?_take, List.getElem?_drop]
      have : min dstOff dst.length = dstOff := by omega
      simp [this]; omega
    · rw [if_neg (by omega), List.getElem?_append_right (by simp; omega)]
      rw [List.getElem?_drop]
      simp only [List.length_append, List.length_take, List.length_drop]
      congr 1; omega

theorem WriteData_ring (s : AudioProcessor) (ring batch : List int16_t) (count : Nat)
    (hN : s.ring_buffer_size_ ≤ 2147483648)
    (hring : s.ring_buffer_ = some ring) (hlen : ring.length = s.ring_buffer_size_)
    (hw : s.write_pos_ < s.ring_buffer_size_)
    (hc : count ≤ s.ring_buffer_size_) (hb : batch.length = count) :
    ∃ ring2 : List int16_t,
      s.WriteData (some batch) count
        = .ok { s with ring_buffer_ := some ring2,
                       write_pos_ := (s.write_pos_ + count) % s.ring_buffer_size_ } ∧
      ring2.length = s.ring_buffer_size_ ∧
      ∀ j, j < s.ring_buffer_size_ →
        ring2[j]? = if (j + s.ring_buffer_size_ - s.write_pos_) % s.ring_buffer_size_ < count
                    then batch[(j + s.ring_buffer_size_ - s.write_pos_) % s.ring_buffer_size_]?
                    else ring[j]? := by
  obtain ⟨codec, udp, rb, N, w, r, l⟩ := s
  simp only at hN hring hlen hw hc hb ⊢
  subst hring
  by_cases h0 : count = 0
  · subst h0
    refine ⟨ring, ?_, hlen, ?_⟩
    · simp [AudioProcessor.WriteData, Nat.mod_eq_of_lt hw]
    · intro j hj; simp
  · have hsum : size_t (w + count) = w + count := size_t_eq (by omega)
    by_cases hfit : w + count ≤ N
    · refine ⟨ring.take w ++ (batch.drop 0).take count ++ ring.drop (w + count), ?_,
        ?_, ?_⟩
      · simp only [AudioProcessor.WriteData, ring_write, h0, if_false, hsum, if_pos hfit]
        rw [memcpy_ok _ _ _ _ _ (by omega) (by omega)]
      · rw [splice_length _ _ _ _ _ (by omega) (by omega)]; exact hlen
      · intro j hj
        rw [splice_getElem? _ _ _ _ _ (by omega) (by omega)]
        by_cases hjw : w ≤ j
        · have e : (j + N - w) % N = j - w := by
            rw [show j + N - w = (j - w) + N by omega, Nat.add_mod_right, Nat.mod_eq_of_lt (by omega)]
          rw [e]
          by_cases hjc : j < w + count
          · rw [if_pos ⟨hjw, hjc⟩, if_pos (by omega)]; simp
          · rw [if_neg (by omega), if_neg (by omega)]
        · have e : (j + N - w) % N = j + N - w := Nat.mod_eq_of_lt (by omega)
          rw [e, if_neg (by omega), if_neg (by omega)]
    · have hfp : size_sub N w = N - w := size_sub_eq (by omega) (by omega)
      have hsp : size_sub count (N - w) = count - (N - w) := size_sub_eq (by omega) (by omega)
      obtain ⟨ring1, hr1⟩ : ∃ r1, r1 = ring.take w ++ (batch.drop 0).take (N - w)
          ++ ring.drop (w + (N - w)) := ⟨_, rfl⟩
      have hl1 : ring1.length = N := by
        rw [hr1, splice_length _ _ _ _ _ (by omega) (by omega)]; exact hlen
      refine ⟨ring1.take 0 ++ (batch.drop (N - w)).take (count - (N - w))
          ++ ring1.drop (0 + (count - (N - w))), ?_, ?_, ?_⟩
      · simp only [AudioProcessor.WriteData, ring_write, h0, if_false, hsum, if_neg hfit, hfp, hsp]
        rw [memcpy_ok _ _ _ _ _ (by omega) (by omega), ← hr1]
        simp only
        rw [memcpy_ok _ _ _ _ _ (by omega) (by omega)]
      · rw [splice_length _ _ _ _ _ (by omega) (by omega)]; exact hl1
      · intro j hj
        rw [splice_getElem? _ _ _ _ _ (by omega) (by omega)]
        rw [hr1]
        rw [splice_getElem? _ _ _ _ _ (by omega) (by omega)]
        by_cases hjw : w ≤ j
        · have e : (j + N - w) % N = j - w := by
            rw [show j + N - w = (j - w) + N by omega, Nat.add_mod_right, Nat.mod_eq_of_lt (by omega)]
          rw [e, if_neg (by omega), if_pos (by omega), if_pos (by omega)]; simp
        · have e : (j + N - w) % N = j + N - w := Nat.mod_eq_of_lt (by omega)
          rw [e]
          by_cases hjc : j < count - (N - w)
          · rw [if_pos (by omega), if_pos (by omega)]; congr 1; omega
          · rw [if_neg (by omega), if_neg (by omega), if_neg (by omega)]

theorem ring_index_back {N w j : Nat} (hw : w < N) (hj : j < N) :
    (w + (j + N - w) % N) % N = j := by
  by_cases h : w ≤ j
  · rw [show j + N - w = (j - w) + N by omega, Nat.add_mod_right,
      Nat.mod_eq_of_lt (show j - w < N by omega),
      show w + (j - w) = j by omega, Nat.mod_eq_of_lt hj]
  · rw [Nat.mod_eq_of_lt (show j + N - w < N by omega), show w + (j + N - w) = j + N by omega,
      Nat.add_mod_right, Nat.mod_eq_of_lt hj]

theorem ring_index_forth {N w i : Nat} (hw : w < N) (hi : i < N) :
    ((w + i) % N + N - w) % N = i := by
  by_cases h : w + i < N
  · rw [Nat.mod_eq_of_lt h, show w + i + N - w = i + N by omega, Nat.add_mod_right,
      Nat.mod_eq_of_lt hi]
  · rw [Nat.mod_eq_sub_mod (show w + i ≥ N by omega),
      Nat.mod_eq_of_lt (show w + i - N < N by omega),
      show w + i - N + N - w = i by omega, Nat.mod_eq_of_lt hi]

theorem WriteData_frame (s t : AudioProcessor) (data : Option (List int16_t)) (samples : Nat)
    (h : s.WriteData data samples = .ok t) :
    t.ring_buffer_size_ = s.ring_buffer_size_ ∧ t.last_send_pos_ = s.last_send_pos_ ∧
    t.udp_server_ = s.udp_server_ ∧
    (t.write_pos_ = s.write_pos_ ∨
      t.write_pos_ = size_t (s.write_pos_ + samples) % s.ring_buffer_size_) := by
  unfold AudioProcessor.WriteData at h
  split at h
  · cases h; simp
  · cases h; simp
  · split at h
    · cases h; simp
    · split at h
      · cases h
      · cases h; simp

theorem update_send_position_frame (s : AudioProcessor) (c n : Nat) :
    (s.update_send_position c n).ring_buffer_size_ = s.ring_buffer_size_ ∧
    (s.update_send_position c n).write_pos_ = s.write_pos_ ∧
    (s.update_send_position c n).ring_buffer_ = s.ring_buffer_ ∧
    (s.update_send_position c n).udp_server_ = s.udp_server_ ∧
    (s.update_send_position c n).last_send_pos_
      = if n > 0 then size_t (c + n) % s.ring_buffer_size_ else s.last_send_pos_ := by
  unfold AudioProcessor.update_send_position
  split <;> simp [*]

theorem SendData_frame (s : AudioProcessor) (fuel : Nat) (net : Net) (f : Flush)
    (h : s.SendData fuel net = .ok f) :
    f.self.ring_buffer_size_ = s.ring_buffer_size_ ∧ f.self.write_pos_ = s.write_pos_ ∧
    f.self.ring_buffer_ = s.ring_buffer_ ∧
    (f.self.last_send_pos_ = s.last_send_pos_ ∨
      ∃ n, f.self.last_send_pos_ = size_t (s.last_send_pos_ + n) % s.ring_buffer_size_) := by
  unfold AudioProcessor.SendData at h
  split at h
  · cases h; simp
  · dsimp only at h
    split at h
    · split at h
      · cases h
      · cases h
        rename_i st _
        have hf := update_send_position_frame { s with udp_server_ := st.udp_server_ }
          s.last_send_pos_ st.samples_sent
        simp only at hf
        obtain ⟨h1, h2, h3, _, h5⟩ := hf
        refine ⟨h1, h2, h3, ?_⟩
        rw [h5]
        split
        · exact Or.inr ⟨_, rfl⟩
        · exact Or.inl rfl
    · cases h; simp

theorem valid_data_samples_eq (s : AudioProcessor) (hN : s.ring_buffer_size_ ≤ 2147483648)
    (hw : s.write_pos_ < s.ring_buffer_size_) (hl : s.last_send_pos_ < s.ring_buffer_size_) :
    s.valid_data_samples =
      if s.write_pos_ ≥ s.last_send_pos_ then s.write_pos_ - s.last_send_pos_
      else s.ring_buffer_size_ - s.last_send_pos_ + s.write_pos_ := by
  unfold AudioProcessor.valid_data_samples
  split
  · exact size_sub_eq (by omega) (by omega)
  · rw [size_sub_eq (by omega) (by omega), size_t_eq (by omega)]

theorem Reachable_cursors (N : Nat) (hN0 : 0 < N) (s : AudioProcessor) (h : Reachable N s) :
    s.ring_buffer_size_ = N ∧ s.write_pos_ < N ∧ s.last_send_pos_ < N := by
  induction h with
  | init udp codec psram hb =>
    unfold AudioProcessor.Initialize AudioProcessor.new
    split
    · simp [hN0]
    · split <;> simp [hN0]
  | write s t data samples _ _ hw ih =>
    obtain ⟨h1, h2, _, h4⟩ := WriteData_frame s t data samples hw
    obtain ⟨i1, i2, i3⟩ := ih
    refine ⟨by omega, ?_, by omega⟩
    rcases h4 with h4 | h4
    · omega
    · rw [h4, i1]; exact Nat.mod_lt _ hN0
  | send s fuel net f _ hs ih =>
    obtain ⟨h1, h2, _, h4⟩ := SendData_frame s fuel net f hs
    obtain ⟨i1, i2, i3⟩ := ih
    refine ⟨by omega, by omega, ?_⟩
    rcases h4 with h4 | ⟨n, h4⟩
    · omega
    · rw [h4, i1]; exact Nat.mod_lt _ hN0
  | registry s udp _ ih => exact ih

/-- C1 (capacity invariant). In every state of a processor of capacity `N`
(`0 < N ≤ 2^31`) reachable from `Initialize` by `WriteData` calls of at most
`N` samples and `SendData` invocations, `write_pos_` and `last_send_pos_` lie
in `[0, N)`, and the unsent count computed at the head of `SendData` lies in
`[0, N]` and equals `(write_pos_ - last_send_pos_) mod N`. -/
theorem capacity_invariant (N : Nat) (hN0 : 0 < N) (hN : N ≤ 2147483648)
    (s : AudioProcessor) (h : Reachable N s) :
    s.write_pos_ < N ∧ s.last_send_pos_ < N ∧ s.valid_data_samples ≤ N ∧
    (s.valid_data_samples : Int) = ((s.write_pos_ : Int) - (s.last_send_pos_ : Int)) % (N : Int) := by
  obtain ⟨h1, h2, h3⟩ := Reachable_cursors N hN0 s h
  have hv := valid_data_samples_eq s (by omega) (by omega) (by omega)
  rw [h1] at hv
  refine ⟨h2, h3, ?_, ?_⟩
  · rw [hv]; split <;> omega
  · rw [hv]
    split
    · rename_i hge
      rw [Int.emod_eq_of_lt (by omega) (by omega)]; omega
    · rename_i hlt
      have e : ((s.write_pos_ : Int) - (s.last_send_pos_ : Int))
          = ((N - s.last_send_pos_ + s.write_pos_ : Nat) : Int) + (-1) * (N : Int) := by
        omega
      rw [e, Int.add_mul_emod_self, Int.emod_eq_of_lt (by omega) (by omega)]

/-- C2 (`WriteData`). With a non-null batch of `count` samples,
`count ≤ N` (in particular `1 ≤ count ≤ N`), on an allocated ring of `N ≤ 2^31` slots with
`write_pos_ = w < N`, the call completes without a bounds fault; afterwards
slot `(w + i) mod N` holds `batch[i]` for every `i < count`, every other slot
is unchanged, `write_pos_ = (w + count) mod N`, and nothing else changes. -/
theorem WriteData_writes_batch (s : AudioProcessor) (ring batch : List int16_t) (count : Nat)
    (hN : s.ring_buffer_size_ ≤ 2147483648)
    (hring : s.ring_buffer_ = some ring) (hlen : ring.length = s.ring_buffer_size_)
    (hw : s.write_pos_ < s.ring_buffer_size_)
    (hc : count ≤ s.ring_buffer_size_) (hb : batch.length = count) :
    ∃ ring2 : List int16_t,
      s.WriteData (some batch) count
        = .ok { s with ring_buffer_ := some ring2,
                       write_pos_ := (s.write_pos_ + count) % s.ring_buffer_size_ } ∧
      ring2.length = s.ring_buffer_size_ ∧
      (∀ i (hi : i < batch.length),
        ring2[(s.write_pos_ + i) % s.ring_buffer_size_]? = some batch[i]) ∧
      (∀ j, j < s.ring_buffer_size_ →
        (∀ i, i < count → j ≠ (s.write_pos_ + i) % s.ring_buffer_size_) →
        ring2[j]? = ring[j]?) := by
  obtain ⟨ring2, h1, h2, h3⟩ := WriteData_ring s ring batch count hN hring hlen hw hc hb
  refine ⟨ring2, h1, h2, ?_, ?_⟩
  · intro i hi
    have hj : (s.write_pos_ + i) % s.ring_buffer_size_ < s.ring_buffer_size_ :=
      Nat.mod_lt _ (by omega)
    rw [h3 _ hj, ring_index_forth hw (by omega), if_pos (by omega)]
    exact List.getElem?_eq_getElem hi
  · intro j hj hne
    rw [h3 j hj, if_neg]
    intro hlt
    exact hne _ hlt (ring_index_back hw hj).symm

theorem mod_of_lt_two_mul {x N : Nat} (h : x < 2 * N) :
    x % N = if x < N then x else x - N := by
  split
  · rename_i h1; exact Nat.mod_eq_of_lt h1
  · rename_i h1
    rw [Nat.mod_eq_sub_mod (show x ≥ N by omega), Nat.mod_eq_of_lt (show x - N < N by omega)]

theorem ring_window_length (ring : List int16_t) (N pos n : Nat) :
    (ring_window ring N pos n).length = n := by
  simp [ring_window]

theorem ring_window_getElem? (ring : List int16_t) (N pos n i : Nat) (hN0 : 0 < N)
    (hlen : ring.length = N) (hi : i < n) :
    (ring_window ring N pos n)[i]? = ring[(pos + i) % N]? := by
  have hlt : (pos + i) % N < ring.length := by rw [hlen]; exact Nat.mod_lt _ hN0
  simp [ring_window, List.getElem?_map, List.getElem?_range hi, List.getElem?_eq_getElem hlt]

theorem read_slice_ok (ring : List int16_t) (N cur off n : Nat)
    (hlen : ring.length = N) (hN : N ≤ 2147483648) (hcur : cur < N) (hoff : off ≤ N)
    (hn : n ≤ N) :
    read_slice ring N cur off n
      = .ok ((cur + off) % N, ring_window ring N ((cur + off) % N) n) := by
  have hN0 : 0 < N := by omega
  have hp : (cur + off) % N < N := Nat.mod_lt _ hN0
  unfold read_slice
  simp only [size_t_eq (show cur + off < 4294967296 by omega)]
  generalize (cur + off) % N = p at hp ⊢
  simp only [size_t_eq (show p + n < 4294967296 by omega)]
  by_cases hfit : p + n ≤ N
  · rw [if_pos hfit, memcpy_ok _ _ _ _ _ (by simp) (by omega)]
    simp only [Except.ok.injEq, Prod.mk.injEq, true_and]
    apply List.ext_getElem?
    intro i
    rw [splice_getElem? _ _ _ _ _ (by simp) (by omega)]
    by_cases hi : i < n
    · rw [if_pos (by omega), ring_window_getElem? _ _ _ _ _ hN0 hlen hi,
        Nat.mod_eq_of_lt (show p + i < N by omega)]
      congr 1
    · rw [if_neg (by omega), List.getElem?_eq_none (by simp; omega),
        List.getElem?_eq_none (by rw [ring_window_length]; omega)]
  · rw [if_neg hfit, size_sub_eq (by omega) (by omega),
      size_sub_eq (show N - p ≤ n by omega) (by omega),
      memcpy_ok _ _ _ _ _ (by simp; omega) (by omega)]
    simp only
    rw [memcpy_ok _ _ _ _ _
      (by rw [splice_length _ _ _ _ _ (by simp; omega) (by omega)]; simp; omega) (by omega)]
    simp only [Except.ok.injEq, Prod.mk.injEq, true_and]
    apply List.ext_getElem?
    intro i
    rw [splice_getElem? _ _ _ _ _
      (by rw [splice_length _ _ _ _ _ (by simp; omega) (by omega)]; simp; omega) (by omega)]
    rw [splice_getElem? _ _ _ _ _ (by simp; omega) (by omega)]
    by_cases hi : i < n
    · rw [ring_window_getElem? _ _ _ _ _ hN0 hlen hi, mod_of_lt_two_mul (show p + i < 2 * N by omega)]
      by_cases hi1 : i < N - p
      · rw [if_neg (by omega), if_pos (by omega), if_pos (by omega)]; congr 1
      · rw [if_pos (by omega), if_neg (by omega)]; congr 1; omega
    · rw [if_neg (by omega), if_neg (by omega), List.getElem?_eq_none (by simp; omega),
        List.getElem?_eq_none (by rw [ring_window_length]; omega)]

theorem WriteData_seq_append (s : AudioProcessor) (bs : List (List int16_t)) (b : List int16_t) :
    WriteData_seq s (bs ++ [b]) =
      match WriteData_seq s bs with
      | .error e => .error e
      | .ok t => t.WriteData (some b) b.length := by
  induction bs generalizing s with
  | nil =>
    simp only [List.nil_append, WriteData_seq]
    cases s.WriteData (some b) b.length <;> rfl
  | cons a bs ih =>
    simp only [List.cons_append, WriteData_seq]
    cases s.WriteData (some a) a.length with
    | error e => rfl
    | ok t => exact ih t

/-- After a run of writes into an allocated ring, the write cursor has advanced
by the total length (mod `N`) and every one of the last `N` samples of the
stream sits in its slot. -/
theorem WriteData_seq_stream (s : AudioProcessor) (ring : List int16_t)
    (hN : s.ring_buffer_size_ ≤ 2147483648) (hring : s.ring_buffer_ = some ring)
    (hlen : ring.length = s.ring_buffer_size_) (hw : s.write_pos_ < s.ring_buffer_size_)
    (batches : List (List int16_t)) (hb : ∀ b ∈ batches, b.length ≤ s.ring_buffer_size_) :
    ∃ ring2 : List int16_t,
      WriteData_seq s batches
        = .ok { s with ring_buffer_ := some ring2,
                       write_pos_ := (s.write_pos_ + batches.flatten.length)
                                       % s.ring_buffer_size_ } ∧
      ring2.length = s.ring_buffer_size_ ∧
      ∀ i, i < batches.flatten.length → batches.flatten.length ≤ i + s.ring_buffer_size_ →
        ring2[(s.write_pos_ + i) % s.ring_buffer_size_]? = batches.flatten[i]? := by
  obtain ⟨codec, udp, rb, N, w, r, l⟩ := s
  simp only at hN hring hlen hw hb ⊢
  subst hring
  have hN0 : 0 < N := by omega
  induction batches using List.reverseRecOn with
  | nil =>
    refine ⟨ring, ?_, hlen, ?_⟩
    · simp only [WriteData_seq, List.flatten_nil, List.length_nil, Nat.add_zero,
        Nat.mod_eq_of_lt hw]
    · intro i hi; simp at hi
  | append_singleton bs b ih =>
    obtain ⟨ring1, h1, hl1, hs1⟩ := ih (fun x hx => hb x (by simp [hx]))
    have hbN : b.length ≤ N := hb b (by simp)
    have hw1 : (w + bs.flatten.length) % N < N := Nat.mod_lt _ hN0
    obtain ⟨ring2, h2, hl2, hs2⟩ := WriteData_ring
      { codec_ := codec, udp_server_ := udp, ring_buffer_ := some ring1, ring_buffer_size_ := N,
        write_pos_ := (w + bs.flatten.length) % N, read_pos_ := r, last_send_pos_ := l }
      ring1 b b.length hN rfl hl1 hw1 hbN rfl
    simp only at h2 hl2 hs2
    refine ⟨ring2, ?_, hl2, ?_⟩
    · rw [WriteData_seq_append, h1]
      simp only
      rw [h2]
      simp only [List.flatten_append, List.flatten_cons, List.flatten_nil, List.append_nil,
        List.length_append, Nat.mod_add_mod, Nat.add_assoc]
    · intro i hi hiN
      simp only [List.flatten_append, List.flatten_cons, List.flatten_nil, List.append_nil,
        List.length_append] at hi hiN ⊢
      have hj : (w + i) % N < N := Nat.mod_lt _ hN0
      rw [hs2 _ hj]
      by_cases hiT : bs.flatten.length ≤ i
      · -- a sample of the last batch
        have e1 : (w + i) % N
            = ((w + bs.flatten.length) % N + (i - bs.flatten.length)) % N := by
          rw [Nat.mod_add_mod]; congr 1; omega
        rw [e1, ring_index_forth hw1 (by omega), if_pos (by omega),
          List.getElem?_append_right hiT]
      · -- an older sample: its slot is not touched by the last batch
        have hd : 0 < bs.flatten.length - i ∧ bs.flatten.length - i ≤ N - b.length := by omega
        have e1 : (w + bs.flatten.length) % N
            = ((w + i) % N + (bs.flatten.length - i)) % N := by
          rw [Nat.mod_add_mod]; congr 1; omega
        have e2 : ((w + i) % N + N - (w + bs.flatten.length) % N) % N ≥ b.length := by
          rw [e1]
          generalize (w + i) % N = p at hj ⊢
          generalize bs.flatten.length - i = d at hd ⊢
          rw [mod_of_lt_two_mul (show p + d < 2 * N by omega)]
          split
          · rw [mod_of_lt_two_mul (by omega)]; split <;> omega
          · rw [mod_of_lt_two_mul (by omega)]; split <;> omega
        rw [if_neg (by omega), List.getElem?_append_left (by omega)]
        exact hs1 i (by omega) (by omega)

theorem valid_after_writes (t : AudioProcessor) (w T : Nat)
    (hN : t.ring_buffer_size_ ≤ 2147483648) (hw : w < t.ring_buffer_size_)
    (hl : t.last_send_pos_ = w) (hwp : t.write_pos_ = (w + T) % t.ring_buffer_size_) :
    t.valid_data_samples = T % t.ring_buffer_size_ := by
  have hN0 : 0 < t.ring_buffer_size_ := by omega
  have hr : T % t.ring_buffer_size_ < t.ring_buffer_size_ := Nat.mod_lt _ hN0
  have hwp2 : t.write_pos_ = (w + T % t.ring_buffer_size_) % t.ring_buffer_size_ := by
    rw [hwp, Nat.add_mod_mod]
  rw [mod_of_lt_two_mul (by omega)] at hwp2
  rw [valid_data_samples_eq t hN (by rw [hwp]; exact Nat.mod_lt _ hN0) (by omega)]
  split at hwp2 <;> split <;> omega

/-- Writes into an empty buffer (send cursor = write cursor): the unsent count
is the total written modulo `N` and the unsent window is the tail of the
stream of that length. -/
theorem writes_from_empty (s : AudioProcessor) (ring : List int16_t)
    (hN : s.ring_buffer_size_ ≤ 2147483648) (hring : s.ring_buffer_ = some ring)
    (hlen : ring.length = s.ring_buffer_size_) (hw : s.write_pos_ < s.ring_buffer_size_)
    (hempty : s.last_send_pos_ = s.write_pos_)
    (batches : List (List int16_t)) (hb : ∀ b ∈ batches, b.length ≤ s.ring_buffer_size_) :
    ∃ t : AudioProcessor,
      WriteData_seq s batches = .ok t ∧
      t.valid_data_samples = batches.flatten.length % s.ring_buffer_size_ ∧
      t.unsent_window = .ok (batches.flatten.drop
        (batches.flatten.length - batches.flatten.length % s.ring_buffer_size_)) := by
  obtain ⟨ring2, h1, hl2, hs2⟩ := WriteData_seq_stream s ring hN hring hlen hw batches hb
  obtain ⟨codec, udp, rb, N, w, r, l⟩ := s
  simp only at hN hring hlen hw hempty hb h1 hl2 hs2 ⊢
  subst hring hempty
  have hv := valid_after_writes
    { codec_ := codec, udp_server_ := udp, ring_buffer_ := some ring2, ring_buffer_size_ := N,
      write_pos_ := (l + batches.flatten.length) % N, read_pos_ := r, last_send_pos_ := l }
    l batches.flatten.length hN hw rfl rfl
  simp only at hv
  refine ⟨_, h1, hv, ?_⟩
  have hN0 : 0 < N := by omega
  obtain ⟨T, hT⟩ : ∃ T, T = batches.flatten.length := ⟨_, rfl⟩
  rw [← hT] at hv hs2 ⊢
  have hr : T % N < N := Nat.mod_lt _ hN0
  unfold AudioProcessor.unsent_window
  simp only [hv]
  rw [read_slice_ok ring2 _ _ 0 _ hl2 hN hw (by omega) (by omega)]
  simp only [Except.ok.injEq, Nat.add_zero, Nat.mod_eq_of_lt hw]
  apply List.ext_getElem?
  intro i
  by_cases hi : i < T % N
  · rw [ring_window_getElem? _ _ _ _ _ hN0 hl2 hi, List.getElem?_drop]
    have hle : T % N ≤ T := Nat.mod_le _ _
    have hdiv : T - T % N = N * (T / N) := by
      have := Nat.mod_add_div T N; omega
    rw [← hs2 (T - T % N + i) (by omega) (by omega)]
    congr 1
    rw [show l + (T - T % N + i) = l + i + N * (T / N) by omega,
      Nat.add_mul_mod_self_left]
  · rw [List.getElem?_eq_none (by rw [ring_window_length]; omega),
      List.getElem?_eq_none (by rw [List.length_drop, ← hT]; have := Nat.mod_le T N; omega)]

/-- C4, as stated, fails: capacity 8, nine samples written (k = 1) into the
empty buffer with no flush; the unsent count is 1, not 8, and the unsent
window is the last sample alone. -/
theorem overwrite_counterexample :
    ∃ t : AudioProcessor,
      WriteData_seq (demo_processor []) [[1, 2, 3, 4, 5, 6, 7, 8], [9]] = .ok t ∧
      t.ring_buffer_size_ = 8 ∧ t.valid_data_samples = 1 ∧
      t.valid_data_samples ≠ t.ring_buffer_size_ ∧ t.unsent_window = .ok [9] :=
  ⟨_, rfl, rfl, rfl, by decide, rfl⟩

/-- C4 (amended). After `N + k` samples (any `k`, in particular `k > 0`) have been written by
`WriteData` calls of at most `N` samples each into an empty buffer with no
intervening flush, the unsent count is `(N + k) mod N = k mod N` and the unsent
window read from the send cursor consists of the most recent `k mod N` samples
written, in order. -/
theorem overwrite_keeps_remainder (s : AudioProcessor) (ring : List int16_t)
    (hN : s.ring_buffer_size_ ≤ 2147483648) (hring : s.ring_buffer_ = some ring)
    (hlen : ring.length = s.ring_buffer_size_) (hw : s.write_pos_ < s.ring_buffer_size_)
    (hempty : s.last_send_pos_ = s.write_pos_)
    (batches : List (List int16_t)) (hb : ∀ b ∈ batches, b.length ≤ s.ring_buffer_size_)
    (k : Nat) (htotal : batches.flatten.length = s.ring_buffer_size_ + k) :
    ∃ t : AudioProcessor,
      WriteData_seq s batches = .ok t ∧
      t.valid_data_samples = k % s.ring_buffer_size_ ∧
      t.unsent_window = .ok (batches.flatten.drop
        (s.ring_buffer_size_ + k - k % s.ring_buffer_size_)) := by
  obtain ⟨t, h1, h2, h3⟩ := writes_from_empty s ring hN hring hlen hw hempty batches hb
  rw [htotal, Nat.add_mod_left] at h2 h3
  exact ⟨t, h1, h2, h3⟩

theorem overwrite_keeps_remainder_witness :
    ∃ t : AudioProcessor,
      WriteData_seq (demo_processor []) [[1, 2, 3, 4, 5, 6, 7, 8], [9, 10, 11]] = .ok t ∧
      t.valid_data_samples = 3 % 8 ∧
      t.unsent_window = .ok (([[1, 2, 3, 4, 5, 6, 7, 8], [9, 10, 11]] : List (List int16_t)).flatten.drop
        (8 + 3 - 3 % 8)) :=
  overwrite_keeps_remainder (demo_processor []) (List.replicate 8 0) (by decide) rfl rfl
    (by decide) rfl [[1, 2, 3, 4, 5, 6, 7, 8], [9, 10, 11]] (by decide) 3 rfl

/-- C5, as stated, fails: capacity 8, one `WriteData` of eight samples into the
empty buffer; eight samples were written, yet the unsent count is 0. -/
theorem unsent_zero_counterexample :
    ∃ t : AudioProcessor,
      (demo_processor []).last_send_pos_ = (demo_processor []).write_pos_ ∧
      WriteData_seq (demo_processor []) [[1, 2, 3, 4, 5, 6, 7, 8]] = .ok t ∧
      t.ring_buffer_ = some [1, 2, 3, 4, 5, 6, 7, 8] ∧
      t.valid_data_samples = 0 ∧
      ([[1, 2, 3, 4, 5, 6, 7, 8]] : List (List int16_t)).flatten.length ≠ 0 :=
  ⟨_, rfl, rfl, rfl, rfl, by decide⟩

/-- C5 (amended). For every run of `WriteData` calls (at most `N` samples
each) made since the send cursor equalled the write cursor, the unsent count
computed by `SendData` is 0 if and only if the number of samples written in the
run is a multiple of `N` (zero included). -/
theorem unsent_zero_iff (s : AudioProcessor) (ring : List int16_t)
    (hN : s.ring_buffer_size_ ≤ 2147483648) (hring : s.ring_buffer_ = some ring)
    (hlen : ring.length = s.ring_buffer_size_) (hw : s.write_pos_ < s.ring_buffer_size_)
    (hempty : s.last_send_pos_ = s.write_pos_)
    (batches : List (List int16_t)) (hb : ∀ b ∈ batches, b.length ≤ s.ring_buffer_size_) :
    ∃ t : AudioProcessor,
      WriteData_seq s batches = .ok t ∧
      (t.valid_data_samples = 0 ↔ batches.flatten.length % s.ring_buffer_size_ = 0) := by
  obtain ⟨t, h1, h2, _⟩ := writes_from_empty s ring hN hring hlen hw hempty batches hb
  exact ⟨t, h1, by rw [h2]⟩

theorem unsent_zero_iff_witness :
    ∃ t : AudioProcessor,
      WriteData_seq (demo_processor []) [[1, 2, 3], [4, 5]] = .ok t ∧
      (t.valid_data_samples = 0 ↔
        ([[1, 2, 3], [4, 5]] : List (List int16_t)).flatten.length % 8 = 0) :=
  unsent_zero_iff (demo_processor []) (List.replicate 8 0) (by decide) rfl rfl
    (by decide) rfl [[1, 2, 3], [4, 5]] (by decide)

/-- C6 (end-to-end scenario, capacity 8). Writing `[1,2,3,4,5]` into a fresh
buffer gives unsent count 5; the slice read at the send cursor for at most 3
samples is `[1,2,3]`, read at position 0, with the send cursor still 0; after
the send-position update by 3 and writing `[6,7,8,9,10]`, the write cursor is
2, the send cursor is 3, the unsent count is 7 and the unsent window is
`[4,5,6,7,8,9,10]`. -/
theorem end_to_end_capacity_8 :
    ∃ s1 s3 : AudioProcessor,
      (demo_processor []).ring_buffer_size_ = 8 ∧
      (demo_processor []).WriteData (some [1, 2, 3, 4, 5]) 5 = .ok s1 ∧
      s1.valid_data_samples = 5 ∧
      s1.ring_buffer_ = some [1, 2, 3, 4, 5, 0, 0, 0] ∧
      read_slice [1, 2, 3, 4, 5, 0, 0, 0] s1.ring_buffer_size_ s1.last_send_pos_ 0
        (min 3 (size_sub s1.valid_data_samples 0)) = .ok (0, [1, 2, 3]) ∧
      s1.last_send_pos_ = 0 ∧
      (s1.update_send_position s1.last_send_pos_ 3).WriteData (some [6, 7, 8, 9, 10]) 5 = .ok s3 ∧
      s3.write_pos_ = 2 ∧ s3.last_send_pos_ = 3 ∧ s3.valid_data_samples = 7 ∧
      s3.unsent_window = .ok [4, 5, 6, 7, 8, 9, 10] :=
  ⟨_, _, rfl, rfl, rfl, rfl, rfl, rfl, rfl, rfl, rfl, rfl, rfl⟩

theorem reinterpret_bytes_length (xs : List int16_t) :
    (reinterpret_bytes xs).length = 2 * xs.length := by
  induction xs with
  | nil => rfl
  | cons x xs ih => simp only [reinterpret_bytes, int16_bytes, List.length_append,
      List.length_cons, List.length_nil, ih]; omega

theorem SendTo_ok (self : UDPServer) (net : Net) (buffer : List uint8_t) (len : Nat)
    (dest : sockaddr_in) (h : len ≤ buffer.length) :
    ∃ r, self.SendTo net (some buffer) len dest = .ok r := by
  unfold UDPServer.SendTo
  simp only
  split
  · exact ⟨_, rfl⟩
  · exact ⟨_, rfl⟩

theorem SendToAllClients_loop_ok (self : UDPServer) (buffer : List uint8_t) (total_len : Nat)
    (h : total_len ≤ buffer.length) (clients : List ClientInfo) :
    ∀ (success : Bool) (failed : List sockaddr_in) (net : Net),
      ∃ r, SendToAllClients_loop self buffer total_len clients success failed net = .ok r := by
  induction clients with
  | nil => intro success failed net; exact ⟨_, rfl⟩
  | cons c rest ih =>
    intro success failed net
    obtain ⟨⟨sent, net1⟩, hr⟩ := SendTo_ok self net buffer total_len c.addr h
    simp only [SendToAllClients_loop, hr]
    split
    · exact ih _ _ _
    · exact ih _ _ _

/-- A broadcast of a non-empty payload that fits a `size_t` never faults. -/
theorem SendToAllClients_ok (self : UDPServer) (net : Net) (d : List uint8_t) (len : Nat)
    (hd : len ≤ d.length) (h0 : 0 < len) (hmax : len + 4 < 4294967296) :
    ∃ sent udp net1, self.SendToAllClients net (some d) len = .ok (sent, udp, net1) := by
  unfold UDPServer.SendToAllClients
  have htl : size_t (sizeof_MessageHeader + len) = 4 + len := by
    unfold sizeof_MessageHeader; exact size_t_eq (by omega)
  simp only [show len ≠ 0 by omega, if_false, htl, List.length_replicate,
    show 0 < 4 + len by omega, if_true]
  unfold sizeof_MessageHeader
  rw [memcpy_ok _ _ _ _ _ (by simp) (by omega)]
  simp only
  obtain ⟨⟨success, failed, net1⟩, hr⟩ := SendToAllClients_loop_ok self
    (((List.replicate (4 + len) 0).set 0 MessageType.DATA.toByte).take 4
      ++ (d.drop 0).take len
      ++ ((List.replicate (4 + len) 0).set 0 MessageType.DATA.toByte).drop (4 + len))
    (4 + len) (by rw [splice_length _ _ _ _ _ (by simp) (by omega)]; simp)
    self.clients_ true [] net
  rw [hr]
  exact ⟨_, _, _, rfl⟩

theorem ring_window_slice (ring : List int16_t) (N cur valid off n : Nat) (hN0 : 0 < N)
    (hlen : ring.length = N) (h : off + n ≤ valid) :
    ring_window ring N ((cur + off) % N) n
      = ((ring_window ring N cur valid).drop off).take n := by
  apply List.ext_getElem?
  intro i
  by_cases hi : i < n
  · rw [ring_window_getElem? _ _ _ _ _ hN0 hlen hi, List.getElem?_take, if_pos hi,
      List.getElem?_drop, ring_window_getElem? _ _ _ _ _ hN0 hlen (by omega),
      Nat.mod_add_mod, Nat.add_assoc]
  · rw [List.getElem?_eq_none (by rw [ring_window_length]; omega),
      List.getElem?_take, if_neg hi]

/-- One iteration of the loop of `SendData` on an allocated ring: the slice is
the next `min 480 (valid - samples_sent)` samples of the unsent window, the
broadcast does not fault, and the locals are advanced as `SendLoop.advance`
says. -/
theorem SendData_body_ok (ring : List int16_t) (N valid cur : Nat) (st : SendLoop)
    (hlen : ring.length = N) (hN : N ≤ 2147483648) (hcur : cur < N) (hvalid : valid ≤ N)
    (hss : st.samples_sent < valid) (hfp : st.failed_packets ≤ st.samples_sent + 2) :
    ∃ sent udp net1,
      st.udp_server_.SendToAllClients st.net
        (some (reinterpret_bytes (((ring_window ring N cur valid).drop st.samples_sent).take
          (min MAX_SAMPLES_PER_PACKET (valid - st.samples_sent)))))
        (2 * min MAX_SAMPLES_PER_PACKET (valid - st.samples_sent)) = .ok (sent, udp, net1) ∧
      SendData_body ring N valid cur st
        = .ok (st.advance ((cur + st.samples_sent) % N)
            (min MAX_SAMPLES_PER_PACKET (valid - st.samples_sent))
            (((ring_window ring N cur valid).drop st.samples_sent).take
              (min MAX_SAMPLES_PER_PACKET (valid - st.samples_sent)))
            sent udp net1) := by
  have hN0 : 0 < N := by omega
  obtain ⟨n, hn⟩ : ∃ n, n = min MAX_SAMPLES_PER_PACKET (valid - st.samples_sent) := ⟨_, rfl⟩
  have hn1 : 1 ≤ n ∧ n ≤ 480 ∧ n ≤ valid - st.samples_sent := by
    rw [hn]; unfold MAX_SAMPLES_PER_PACKET; omega
  rw [← hn]
  obtain ⟨slice, hslice⟩ : ∃ sl, sl = ((ring_window ring N cur valid).drop st.samples_sent).take n :=
    ⟨_, rfl⟩
  have hsl : slice.length = n := by
    rw [hslice, List.length_take, List.length_drop, ring_window_length]; omega
  rw [← hslice]
  obtain ⟨sent, udp, net1, hsend⟩ := SendToAllClients_ok st.udp_server_ st.net
    (reinterpret_bytes slice) (2 * n) (by rw [reinterpret_bytes_length, hsl]) (by omega)
    (by omega)
  refine ⟨sent, udp, net1, hsend, ?_⟩
  unfold SendData_body
  simp only [size_sub_eq (show st.samples_sent ≤ valid by omega) (show valid < 4294967296 by omega),
    ← hn]
  rw [read_slice_ok ring N cur st.samples_sent n hlen hN hcur (by omega) (by omega),
    ring_window_slice ring N cur valid st.samples_sent n hN0 hlen (by omega), ← hslice]
  simp only [size_t_eq (show 2 * n < 4294967296 by omega), show n * 2 = 2 * n by omega, hsend,
    size_t_eq (show st.failed_packets + 1 < 4294967296 by omega),
    size_t_eq (show st.samples_sent + n < 4294967296 by omega)]
  unfold SendLoop.advance
  cases sent with
  | true => simp
  | false =>
    by_cases h3 : MAX_FAILED_PACKETS ≤ st.failed_packets + 1
    · simp [h3]
    · simp [h3]

theorem consecutive_failures_snoc (bs : List Broadcast) (c : Broadcast) :
    consecutive_failures (bs ++ [c])
      = if c.result = true then 0 else consecutive_failures bs + 1 := by
  unfold consecutive_failures
  rw [List.reverse_append, List.reverse_singleton, List.singleton_append, List.takeWhile_cons]
  cases c.result <;> simp

theorem accounted_slices_snoc (bs : List Broadcast) (c : Broadcast) :
    accounted_slices (bs ++ [c])
      = accounted_slices bs ++ (if c.accounted = true then [c.send_buffer] else []) := by
  unfold accounted_slices
  rw [List.filter_append, List.map_append]
  congr 1
  cases h : c.accounted <;> simp [List.filter, h]

/-- The empty record at loop entry satisfies the invariant. -/
theorem LoopInv_init (W : List int16_t) (N cur valid : Nat) (udp : UDPServer) (net : Net) :
    LoopInv W N cur valid
      { samples_sent := 0, failed_packets := 0, total_packets_sent := 0,
        udp_server_ := udp, net := net, broadcasts := [] } where
  sent_le := Nat.zero_le _
  failed_le := by simp
  failed_eq := by simp [consecutive_failures]
  slices := by simp
  accounted := by simp [accounted_slices]
  chain := by simp
  mono := by simp
  ordered := by simp
  counted := by simp
  attempts := by simp [SendLoop.measure]

/-- One iteration preserves the invariant and uses up at least one unit of the
measure. -/
theorem LoopInv_advance (W : List int16_t) (N cur valid : Nat) (st : SendLoop)
    (hW : W.length = valid) (hinv : LoopInv W N cur valid st) (hss : st.samples_sent < valid)
    (sent : Bool) (udp : UDPServer) (net1 : Net) :
    LoopInv W N cur valid
      (st.advance ((cur + st.samples_sent) % N)
        (min MAX_SAMPLES_PER_PACKET (valid - st.samples_sent))
        ((W.drop st.samples_sent).take (min MAX_SAMPLES_PER_PACKET (valid - st.samples_sent)))
        sent udp net1) ∧
    (st.advance ((cur + st.samples_sent) % N)
        (min MAX_SAMPLES_PER_PACKET (valid - st.samples_sent))
        ((W.drop st.samples_sent).take (min MAX_SAMPLES_PER_PACKET (valid - st.samples_sent)))
        sent udp net1).measure valid < st.measure valid := by
  obtain ⟨n, hn⟩ : ∃ n, n = min MAX_SAMPLES_PER_PACKET (valid - st.samples_sent) := ⟨_, rfl⟩
  have hn1 : 1 ≤ n ∧ n ≤ 480 ∧ n ≤ valid - st.samples_sent ∧
      (n = 480 ∨ n = valid - st.samples_sent) := by
    rw [hn]; unfold MAX_SAMPLES_PER_PACKET; omega
  rw [← hn]
  obtain ⟨slice, hslice⟩ : ∃ sl, sl = (W.drop st.samples_sent).take n := ⟨_, rfl⟩
  have hsl : slice.length = n := by
    rw [hslice, List.length_take, List.length_drop, hW]; omega
  rw [← hslice]
  obtain ⟨ss, fp, tp, u0, n0, bs⟩ := st
  simp only at hss hn hn1 hslice ⊢
  obtain ⟨i1, i2, i3, i4, i5, i6, i7, i8, i9, i10⟩ := hinv
  simp only at i1 i2 i3 i4 i5 i6 i7 i8 i9 i10
  -- the record of this iteration
  obtain ⟨c, hc⟩ : ∃ c : Broadcast, c =
      { offset := ss, read_pos := (cur + ss) % N, send_buffer := slice, result := sent,
        failed_packets := if sent = true then 0 else fp + 1 } := ⟨_, rfl⟩
  have hacc : c.accounted = true ↔ (sent = true ∨ MAX_FAILED_PACKETS ≤ fp + 1) := by
    rw [hc]; unfold Broadcast.accounted MAX_FAILED_PACKETS
    cases sent <;> simp
  obtain ⟨ss2, hss2⟩ : ∃ x, x = if sent = true ∨ MAX_FAILED_PACKETS ≤ fp + 1 then ss + n else ss :=
    ⟨_, rfl⟩
  have hnext : c.next_offset = ss2 := by
    unfold Broadcast.next_offset
    rw [hss2]
    by_cases h : sent = true ∨ MAX_FAILED_PACKETS ≤ fp + 1
    · rw [if_pos (hacc.mpr h), if_pos h, hc, hsl]
    · rw [if_neg (fun hh => h (hacc.mp hh)), if_neg h, hc]
  have hss2le : ss ≤ ss2 ∧ ss2 ≤ valid := by rw [hss2]; split <;> omega
  unfold SendLoop.advance
  simp only [← hc, ← hss2]
  refine ⟨⟨hss2le.2, ?_, ?_, ?_, ?_, ?_, ?_, ?_, ?_, ?_⟩, ?_⟩
  · -- failed_le
    rw [hss2]; unfold MAX_FAILED_PACKETS
    cases sent
    · by_cases h3 : 3 ≤ fp + 1
      · simp only [h3, or_true, if_true, Bool.false_eq_true, if_false]; omega
      · simp only [h3, or_false, Bool.false_eq_true, if_false]; omega
    · simp only [true_or, if_true]; omega
  · -- failed_eq
    rw [consecutive_failures_snoc, hc]; simp only
    cases sent <;> simp [i3]
  · -- slices
    intro b hb
    rcases List.mem_append.mp hb with hb | hb
    · exact i4 b hb
    · rw [List.mem_singleton.mp hb, hc]
      exact ⟨hss, rfl, by rw [hslice, hn]⟩
  · -- accounted
    rw [accounted_slices_snoc, List.flatten_append, i5, hss2]
    by_cases h : sent = true ∨ MAX_FAILED_PACKETS ≤ fp + 1
    · rw [if_pos (hacc.mpr h), if_pos h, List.take_add, hc, hslice]; simp
    · rw [if_neg (fun hh => h (hacc.mp hh)), if_neg h]; simp
  · -- chain
    intro i b hb
    by_cases hi : i + 1 < bs.length
    · rw [List.getElem?_append_left (by omega)] at hb
      rw [List.getElem?_append_left hi]
      have := i6 i b hb
      rw [List.getElem?_eq_getElem hi] at this ⊢
      simpa using this
    · by_cases hi2 : i + 1 = bs.length
      · rw [List.getElem?_append_left (by omega)] at hb
        have := i6 i b hb
        rw [List.getElem?_eq_none (by omega)] at this
        rw [List.getElem?_append_right (by omega), hi2]
        simp only [Nat.sub_self, List.getElem?_cons_zero, Option.map_some', Option.getD_some]
        rw [hc]; simpa using this
      · rw [List.getElem?_append_right (by omega)] at hb
        have hi3 : i - bs.length = 0 := by
          by_contra hne
          rw [List.getElem?_eq_none (by simp; omega)] at hb
          cases hb
        rw [hi3] at hb
        simp only [List.getElem?_cons_zero, Option.some.injEq] at hb
        rw [List.getElem?_eq_none (by simp; omega), ← hb]
        simpa using hnext.symm
  · -- mono
    intro b hb
    rcases List.mem_append.mp hb with hb | hb
    · exact Nat.le_trans (i7 b hb) hss2le.1
    · rw [List.mem_singleton.mp hb, hnext]
  · -- ordered
    rw [List.pairwise_append]
    refine ⟨i8, List.pairwise_singleton _ _, ?_⟩
    intro a ha b hb
    rw [List.mem_singleton.mp hb, hc]
    exact i7 a ha
  · -- counted
    intro i b hb
    by_cases hi : i < bs.length
    · rw [List.getElem?_append_left hi] at hb
      rw [List.take_append_of_le_length (by omega)]
      exact i9 i b hb
    · rw [List.getElem?_append_right (by omega)] at hb
      have hi3 : i - bs.length = 0 := by
        by_contra hne
        rw [List.getElem?_eq_none (by simp; omega)] at hb
        cases hb
      rw [hi3] at hb
      simp only [List.getElem?_cons_zero, Option.some.injEq] at hb
      rw [List.take_of_length_le (by simp; omega), consecutive_failures_snoc, ← hb, hc]
      simp only
      cases sent <;> simp [i3]
  · -- attempts
    simp only [List.length_append, List.length_singleton]
    unfold SendLoop.measure MAX_SAMPLES_PER_PACKET at i10 ⊢
    simp only at i10 ⊢
    rw [hss2]
    unfold MAX_FAILED_PACKETS
    cases sent
    · by_cases h3 : 3 ≤ fp + 1
      · simp only [h3, or_true, if_true, Bool.false_eq_true, if_false]; omega
      · simp only [h3, or_false, Bool.false_eq_true, if_false]; omega
    · simp only [true_or, if_true]; omega
  · -- measure
    unfold SendLoop.measure MAX_SAMPLES_PER_PACKET
    simp only
    rw [hss2]
    unfold MAX_FAILED_PACKETS
    cases sent
    · by_cases h3 : 3 ≤ fp + 1
      · simp only [h3, or_true, if_true, Bool.false_eq_true, if_false]; omega
      · simp only [h3, or_false, Bool.false_eq_true, if_false]; omega
    · simp only [true_or, if_true]; omega

/-- The loop of `SendData` on an allocated ring terminates within
`SendLoop.measure` iterations, without a fault, with `samples_sent` equal to
`valid_data_samples`, and it maintains the invariant. -/
theorem SendData_loop_ok (ring : List int16_t) (N valid cur : Nat)
    (hlen : ring.length = N) (hN : N ≤ 2147483648) (hcur : cur < N) (hvalid : valid ≤ N) :
    ∀ (fuel : Nat) (st : SendLoop),
      LoopInv (ring_window ring N cur valid) N cur valid st → st.measure valid ≤ fuel →
      ∃ st2, SendData_loop ring N valid cur fuel st = .ok st2 ∧
        LoopInv (ring_window ring N cur valid) N cur valid st2 ∧ st2.samples_sent = valid := by
  intro fuel
  induction fuel with
  | zero =>
    intro st hinv hm
    by_cases hss : st.samples_sent < valid
    · exfalso
      have h2 := hinv.failed_le
      unfold SendLoop.measure MAX_SAMPLES_PER_PACKET at hm
      omega
    · refine ⟨st, ?_, hinv, ?_⟩
      · rw [SendData_loop, if_neg hss]
      · have := hinv.sent_le; omega
  | succ fuel ih =>
    intro st hinv hm
    by_cases hss : st.samples_sent < valid
    · obtain ⟨sent, udp, net1, _, hbody⟩ := SendData_body_ok ring N valid cur st hlen hN hcur
        hvalid hss hinv.failed_le
      obtain ⟨hinv2, hlt⟩ := LoopInv_advance (ring_window ring N cur valid) N cur valid st
        (ring_window_length _ _ _ _) hinv hss sent udp net1
      obtain ⟨st2, h1, h2, h3⟩ := ih _ hinv2 (by omega)
      refine ⟨st2, ?_, h2, h3⟩
      rw [SendData_loop, if_pos hss]
      simp only [hbody]
      exact h1
    · refine ⟨st, ?_, hinv, ?_⟩
      · rw [SendData_loop, if_neg hss]
      · have := hinv.sent_le; omega

theorem valid_data_samples_lt (s : AudioProcessor) (hN : s.ring_buffer_size_ ≤ 2147483648)
    (hw : s.write_pos_ < s.ring_buffer_size_) (hl : s.last_send_pos_ < s.ring_buffer_size_) :
    s.valid_data_samples < s.ring_buffer_size_ ∧
    (s.last_send_pos_ + s.valid_data_samples) % s.ring_buffer_size_ = s.write_pos_ := by
  rw [valid_data_samples_eq s hN hw hl]
  split
  · refine ⟨by omega, ?_⟩
    rw [show s.last_send_pos_ + (s.write_pos_ - s.last_send_pos_) = s.write_pos_ by omega]
    exact Nat.mod_eq_of_lt hw
  · refine ⟨by omega, ?_⟩
    rw [show s.last_send_pos_ + (s.ring_buffer_size_ - s.last_send_pos_ + s.write_pos_)
      = s.write_pos_ + s.ring_buffer_size_ by omega, Nat.add_mod_right]
    exact Nat.mod_eq_of_lt hw

/-- `SendData` with nothing unsent or an empty registry returns at once. -/
theorem SendData_idle (s : AudioProcessor) (fuel : Nat) (net : Net)
    (h : s.valid_data_samples = 0 ∨ s.udp_server_.HasClients = false) :
    s.SendData fuel net = .ok { self := s, net := net, broadcasts := [] } := by
  unfold AudioProcessor.SendData
  split
  · rfl
  · simp only
    rw [if_neg]
    rintro ⟨h1, h2⟩
    rcases h with h | h
    · omega
    · rw [h] at h2
      cases h2

/-- `SendData` with unsent data and a non-empty registry, on an allocated ring
and with enough fuel: the loop runs to `samples_sent = valid_data_samples`
under the invariant and the send position is advanced by that amount. -/
theorem SendData_run (s : AudioProcessor) (ring : List int16_t) (fuel : Nat) (net : Net)
    (hN : s.ring_buffer_size_ ≤ 2147483648) (hring : s.ring_buffer_ = some ring)
    (hlen : ring.length = s.ring_buffer_size_) (hw : s.write_pos_ < s.ring_buffer_size_)
    (hl : s.last_send_pos_ < s.ring_buffer_size_)
    (hv : 0 < s.valid_data_samples) (hc : s.udp_server_.HasClients = true)
    (hfuel : 3 * ((s.valid_data_samples + (MAX_SAMPLES_PER_PACKET - 1)) / MAX_SAMPLES_PER_PACKET)
      ≤ fuel) :
    ∃ st : SendLoop,
      LoopInv (ring_window ring s.ring_buffer_size_ s.last_send_pos_ s.valid_data_samples)
        s.ring_buffer_size_ s.last_send_pos_ s.valid_data_samples st ∧
      st.samples_sent = s.valid_data_samples ∧
      s.SendData fuel net = .ok
        { self := { s with udp_server_ := st.udp_server_, last_send_pos_ := s.write_pos_ },
          net := st.net, broadcasts := st.broadcasts } := by
  obtain ⟨hvlt, hvw⟩ := valid_data_samples_lt s hN hw hl
  obtain ⟨st, h1, h2, h3⟩ := SendData_loop_ok ring s.ring_buffer_size_ s.valid_data_samples
    s.last_send_pos_ hlen hN hl (by omega) fuel
    { samples_sent := 0, failed_packets := 0, total_packets_sent := 0,
      udp_server_ := s.udp_server_, net := net, broadcasts := [] }
    (LoopInv_init _ _ _ _ _ _)
    (by unfold SendLoop.measure; simp only [Nat.sub_zero]; omega)
  refine ⟨st, h2, h3, ?_⟩
  unfold AudioProcessor.SendData
  simp only [hring, hv, hc, and_self, if_true, gt_iff_lt, h1]
  unfold AudioProcessor.update_send_position
  simp only [h3, hv, if_true, gt_iff_lt,
    size_t_eq (show s.last_send_pos_ + s.valid_data_samples < 4294967296 by omega), hvw]

theorem unsent_window_ok (s : AudioProcessor) (ring : List int16_t)
    (hN : s.ring_buffer_size_ ≤ 2147483648) (hring : s.ring_buffer_ = some ring)
    (hlen : ring.length = s.ring_buffer_size_) (hw : s.write_pos_ < s.ring_buffer_size_)
    (hl : s.last_send_pos_ < s.ring_buffer_size_) :
    s.unsent_window
      = .ok (ring_window ring s.ring_buffer_size_ s.last_send_pos_ s.valid_data_samples) := by
  obtain ⟨hvlt, _⟩ := valid_data_samples_lt s hN hw hl
  unfold AudioProcessor.unsent_window
  simp only [hring]
  rw [read_slice_ok ring _ _ 0 _ hlen hN hl (by omega) (by omega)]
  simp only [Nat.add_zero, Nat.mod_eq_of_lt hl]

/-- C8 (flush is a no-op when there is nothing to do). If the unsent count is
0 or the registry is empty (`HasClients` is false) when `SendData` is invoked,
`SendData` returns without a broadcast and without a `sendto` call, and leaves
the processor (`last_send_pos_`, `write_pos_`, the ring contents, the
registry) as it was. -/
theorem flush_noop (s : AudioProcessor) (fuel : Nat) (net : Net)
    (h : s.valid_data_samples = 0 ∨ s.udp_server_.HasClients = false) :
    ∃ f : Flush, s.SendData fuel net = .ok f ∧ f.broadcasts = [] ∧ f.net.wire = net.wire ∧
      f.self = s ∧ f.self.last_send_pos_ = s.last_send_pos_ ∧
      f.self.write_pos_ = s.write_pos_ ∧ f.self.ring_buffer_ = s.ring_buffer_ ∧
      f.self.udp_server_.clients_ = s.udp_server_.clients_ :=
  ⟨_, SendData_idle s fuel net h, rfl, rfl, rfl, rfl, rfl, rfl, rfl⟩

theorem flush_noop_witness :
    ∃ f : Flush, (demo_written []).SendData 0 (demo_net []) = .ok f ∧ f.broadcasts = [] ∧
      f.net.wire = (demo_net []).wire ∧
      f.self = demo_written [] ∧ f.self.last_send_pos_ = (demo_written []).last_send_pos_ ∧
      f.self.write_pos_ = (demo_written []).write_pos_ ∧
      f.self.ring_buffer_ = (demo_written []).ring_buffer_ ∧
      f.self.udp_server_.clients_ = (demo_written []).udp_server_.clients_ :=
  flush_noop (demo_written []) 0 (demo_net []) (Or.inr rfl)

/-- C7 (slice boundedness). On an allocated ring and with enough fuel,
`SendData` completes without a bounds fault, and every slice it hands to
`SendToAllClients` holds at least 1 and at most 480 samples and no more than
remain unsent at that point (`valid_data_samples - samples_sent`); it is read
at a position below `N`, and each of its samples comes from a ring index in
`[0, N)`. -/
theorem slices_bounded (s : AudioProcessor) (ring : List int16_t) (fuel : Nat) (net : Net)
    (hN : s.ring_buffer_size_ ≤ 2147483648) (hring : s.ring_buffer_ = some ring)
    (hlen : ring.length = s.ring_buffer_size_) (hw : s.write_pos_ < s.ring_buffer_size_)
    (hl : s.last_send_pos_ < s.ring_buffer_size_)
    (hfuel : 3 * ((s.valid_data_samples + (MAX_SAMPLES_PER_PACKET - 1)) / MAX_SAMPLES_PER_PACKET)
      ≤ fuel) :
    ∃ f : Flush, s.SendData fuel net = .ok f ∧
      ∀ b ∈ f.broadcasts,
        1 ≤ b.send_buffer.length ∧ b.send_buffer.length ≤ MAX_SAMPLES_PER_PACKET ∧
        b.send_buffer.length ≤ s.valid_data_samples - b.offset ∧
        b.read_pos < s.ring_buffer_size_ ∧
        read_slice ring s.ring_buffer_size_ s.last_send_pos_ b.offset b.send_buffer.length
          = .ok (b.read_pos, b.send_buffer) ∧
        ∀ i, i < b.send_buffer.length →
          (b.read_pos + i) % s.ring_buffer_size_ < s.ring_buffer_size_ ∧
          b.send_buffer[i]? = ring[(b.read_pos + i) % s.ring_buffer_size_]? := by
  have hN0 : 0 < s.ring_buffer_size_ := by omega
  by_cases hrun : 0 < s.valid_data_samples ∧ s.udp_server_.HasClients = true
  · obtain ⟨st, hinv, _, hsend⟩ := SendData_run s ring fuel net hN hring hlen hw hl hrun.1 hrun.2
      hfuel
    obtain ⟨hvlt, _⟩ := valid_data_samples_lt s hN hw hl
    refine ⟨_, hsend, ?_⟩
    intro b hb
    obtain ⟨hoff, hpos, hbuf⟩ := hinv.slices b hb
    obtain ⟨n, hn⟩ : ∃ n, n = min MAX_SAMPLES_PER_PACKET (s.valid_data_samples - b.offset) :=
      ⟨_, rfl⟩
    have hn1 : 1 ≤ n ∧ n ≤ MAX_SAMPLES_PER_PACKET ∧ n ≤ s.valid_data_samples - b.offset := by
      rw [hn]; unfold MAX_SAMPLES_PER_PACKET; omega
    rw [← hn] at hbuf
    have hbl : b.send_buffer.length = n := by
      rw [hbuf, List.length_take, List.length_drop, ring_window_length]; omega
    have hslice := ring_window_slice ring s.ring_buffer_size_ s.last_send_pos_
      s.valid_data_samples b.offset n hN0 hlen (by omega)
    rw [← hbuf, ← hpos] at hslice
    rw [hbl]
    refine ⟨hn1.1, hn1.2.1, hn1.2.2, by rw [hpos]; exact Nat.mod_lt _ hN0, ?_, ?_⟩
    · rw [read_slice_ok ring _ _ b.offset n hlen hN hl (by omega) (by omega), ← hpos, hslice]
    · intro i hi
      refine ⟨Nat.mod_lt _ hN0, ?_⟩
      rw [← hslice, ring_window_getElem? _ _ _ _ _ hN0 hlen hi]
  · refine ⟨_, SendData_idle s fuel net ?_, ?_⟩
    · by_cases hv : s.valid_data_samples = 0
      · exact Or.inl hv
      · right
        cases hc : s.udp_server_.HasClients
        · rfl
        · exact absurd ⟨by omega, hc⟩ hrun
    · intro b hb; cases hb

theorem slices_bounded_witness :
    ∃ f : Flush, (demo_written [demo_client]).SendData 3 (demo_net [false]) = .ok f ∧
      ∀ b ∈ f.broadcasts,
        1 ≤ b.send_buffer.length ∧ b.send_buffer.length ≤ MAX_SAMPLES_PER_PACKET ∧
        b.send_buffer.length ≤ (demo_written [demo_client]).valid_data_samples - b.offset ∧
        b.read_pos < (demo_written [demo_client]).ring_buffer_size_ ∧
        read_slice [1, 2, 3, 4, 5, 0, 0, 0] (demo_written [demo_client]).ring_buffer_size_
          (demo_written [demo_client]).last_send_pos_ b.offset b.send_buffer.length
          = .ok (b.read_pos, b.send_buffer) ∧
        ∀ i, i < b.send_buffer.length →
          (b.read_pos + i) % (demo_written [demo_client]).ring_buffer_size_
            < (demo_written [demo_client]).ring_buffer_size_ ∧
          b.send_buffer[i]?
            = ([1, 2, 3, 4, 5, 0, 0, 0] : List int16_t)[(b.read_pos + i)
                % (demo_written [demo_client]).ring_buffer_size_]? :=
  slices_bounded (demo_written [demo_client]) [1, 2, 3, 4, 5, 0, 0, 0] 3 (demo_net [false])
    (by decide) rfl rfl (by decide) (by decide) (by decide)

theorem accounted_samples_of_inv (W : List int16_t) (N cur valid : Nat) (st : SendLoop)
    (hW : W.length = valid) (hinv : LoopInv W N cur valid st) :
    accounted_samples st.broadcasts = st.samples_sent := by
  unfold accounted_samples
  rw [hinv.accounted, List.length_take, hW]
  have := hinv.sent_le
  omega

/-- C10 (send-cursor accounting). After a `SendData` invocation that entered
the send loop (unsent data, non-empty registry; allocated ring, enough fuel),
`last_send_pos_ = (old last_send_pos_ + a) mod N`, where `a` is the number of
samples in the slices that were broadcast successfully or skipped; those
slices are the first `a` samples of the unsent window, the samples after them
are the unsent window of the next invocation, and `write_pos_` and the ring
contents are unchanged. -/
theorem send_cursor_accounting (s : AudioProcessor) (ring : List int16_t) (fuel : Nat)
    (net : Net)
    (hN : s.ring_buffer_size_ ≤ 2147483648) (hring : s.ring_buffer_ = some ring)
    (hlen : ring.length = s.ring_buffer_size_) (hw : s.write_pos_ < s.ring_buffer_size_)
    (hl : s.last_send_pos_ < s.ring_buffer_size_)
    (hv : 0 < s.valid_data_samples) (hc : s.udp_server_.HasClients = true)
    (hfuel : 3 * ((s.valid_data_samples + (MAX_SAMPLES_PER_PACKET - 1)) / MAX_SAMPLES_PER_PACKET)
      ≤ fuel) :
    ∃ (f : Flush) (W : List int16_t),
      s.SendData fuel net = .ok f ∧ s.unsent_window = .ok W ∧
      f.self.last_send_pos_
        = (s.last_send_pos_ + accounted_samples f.broadcasts) % s.ring_buffer_size_ ∧
      accounted_samples f.broadcasts ≤ s.valid_data_samples ∧
      (accounted_slices f.broadcasts).flatten = W.take (accounted_samples f.broadcasts) ∧
      f.self.valid_data_samples = s.valid_data_samples - accounted_samples f.broadcasts ∧
      f.self.unsent_window = .ok (W.drop (accounted_samples f.broadcasts)) ∧
      f.self.write_pos_ = s.write_pos_ ∧ f.self.ring_buffer_ = s.ring_buffer_ := by
  obtain ⟨st, hinv, hss, hsend⟩ := SendData_run s ring fuel net hN hring hlen hw hl hv hc hfuel
  obtain ⟨hvlt, hvw⟩ := valid_data_samples_lt s hN hw hl
  have hacc := accounted_samples_of_inv _ _ _ _ st (ring_window_length _ _ _ _) hinv
  obtain ⟨t, ht⟩ : ∃ t : AudioProcessor,
      t = { s with udp_server_ := st.udp_server_, last_send_pos_ := s.write_pos_ } := ⟨_, rfl⟩
  rw [← ht] at hsend
  have ht1 : t.ring_buffer_size_ = s.ring_buffer_size_ := by rw [ht]
  have ht2 : t.write_pos_ = s.write_pos_ := by rw [ht]
  have ht3 : t.last_send_pos_ = s.write_pos_ := by rw [ht]
  have ht4 : t.ring_buffer_ = s.ring_buffer_ := by rw [ht]
  have hv0 : t.valid_data_samples = 0 := by
    rw [valid_data_samples_eq t (by omega) (by omega) (by omega), ht2, ht3]; simp
  refine ⟨{ self := t, net := st.net, broadcasts := st.broadcasts }, _, hsend,
    unsent_window_ok s ring hN hring hlen hw hl, ?_, ?_, ?_, ?_, ?_, ht2, ht4⟩
  all_goals simp only
  · rw [hacc, hss, hvw, ht3]
  · rw [hacc, hss]
  · rw [hacc]; exact hinv.accounted
  · rw [hacc, hss, Nat.sub_self, hv0]
  · rw [unsent_window_ok t ring (by omega) (by rw [ht4, hring]) (by omega) (by omega) (by omega),
      hv0, hacc, hss, List.drop_eq_nil_of_le (by rw [ring_window_length])]
    rfl

theorem send_cursor_accounting_witness :
    ∃ (f : Flush) (W : List int16_t),
      (demo_written [demo_client]).SendData 3 (demo_net [false]) = .ok f ∧
      (demo_written [demo_client]).unsent_window = .ok W ∧
      f.self.last_send_pos_
        = ((demo_written [demo_client]).last_send_pos_ + accounted_samples f.broadcasts)
            % (demo_written [demo_client]).ring_buffer_size_ ∧
      accounted_samples f.broadcasts ≤ (demo_written [demo_client]).valid_data_samples ∧
      (accounted_slices f.broadcasts).flatten = W.take (accounted_samples f.broadcasts) ∧
      f.self.valid_data_samples
        = (demo_written [demo_client]).valid_data_samples - accounted_samples f.broadcasts ∧
      f.self.unsent_window = .ok (W.drop (accounted_samples f.broadcasts)) ∧
      f.self.write_pos_ = (demo_written [demo_client]).write_pos_ ∧
      f.self.ring_buffer_ = (demo_written [demo_client]).ring_buffer_ :=
  send_cursor_accounting (demo_written [demo_client]) [1, 2, 3, 4, 5, 0, 0, 0] 3
    (demo_net [false]) (by decide) rfl rfl (by decide) (by decide) (by decide) rfl (by decide)

/-- C9 (bounded retry, then skip). In a `SendData` invocation (allocated ring,
enough fuel), for every broadcast that fails: `failed_packets` after it is the
number of consecutive failed broadcasts up to and including it; while that
count is below 3 the next broadcast is the same slice (same offset, same ring
position, same samples); once the count has reached 3 the slice is skipped:
every later broadcast starts beyond it, it is one of the accounted slices, and
the send cursor advances by the total length of the accounted slices. -/
theorem retry_then_skip (s : AudioProcessor) (ring : List int16_t) (fuel : Nat) (net : Net)
    (hN : s.ring_buffer_size_ ≤ 2147483648) (hring : s.ring_buffer_ = some ring)
    (hlen : ring.length = s.ring_buffer_size_) (hw : s.write_pos_ < s.ring_buffer_size_)
    (hl : s.last_send_pos_ < s.ring_buffer_size_)
    (hfuel : 3 * ((s.valid_data_samples + (MAX_SAMPLES_PER_PACKET - 1)) / MAX_SAMPLES_PER_PACKET)
      ≤ fuel) :
    ∃ f : Flush, s.SendData fuel net = .ok f ∧
      ∀ i b, f.broadcasts[i]? = some b → b.result = false →
        b.failed_packets = consecutive_failures (f.broadcasts.take (i + 1)) ∧
        (b.failed_packets < MAX_FAILED_PACKETS →
          ∃ b2, f.broadcasts[i + 1]? = some b2 ∧ b2.offset = b.offset ∧
            b2.read_pos = b.read_pos ∧ b2.send_buffer = b.send_buffer) ∧
        (MAX_FAILED_PACKETS ≤ b.failed_packets →
          (∀ j b2, i < j → f.broadcasts[j]? = some b2 →
            b.offset + b.send_buffer.length ≤ b2.offset) ∧
          b.send_buffer ∈ accounted_slices f.broadcasts ∧
          f.self.last_send_pos_
            = (s.last_send_pos_ + accounted_samples f.broadcasts) % s.ring_buffer_size_) := by
  by_cases hrun : 0 < s.valid_data_samples ∧ s.udp_server_.HasClients = true
  · obtain ⟨st, hinv, hss, hsend⟩ := SendData_run s ring fuel net hN hring hlen hw hl hrun.1
      hrun.2 hfuel
    obtain ⟨hvlt, hvw⟩ := valid_data_samples_lt s hN hw hl
    have hacc := accounted_samples_of_inv _ _ _ _ st (ring_window_length _ _ _ _) hinv
    refine ⟨_, hsend, ?_⟩
    simp only
    intro i b hb hres
    have hmem : b ∈ st.broadcasts := List.getElem?_mem hb
    refine ⟨hinv.counted i b hb, ?_, ?_⟩
    · intro hlt
      have hna : b.accounted = false := by
        unfold Broadcast.accounted; rw [hres]; simp; omega
      have hch := hinv.chain i b hb
      have hnext : b.next_offset = b.offset := by
        unfold Broadcast.next_offset; rw [hna]; simp
      rw [hnext] at hch
      cases hnx : st.broadcasts[i + 1]? with
      | none =>
        rw [hnx] at hch
        simp only [Option.map_none', Option.getD_none] at hch
        have := (hinv.slices b hmem).1
        omega
      | some b2 =>
        rw [hnx] at hch
        simp only [Option.map_some', Option.getD_some] at hch
        obtain ⟨_, hp, hbuf⟩ := hinv.slices b hmem
        obtain ⟨_, hp2, hbuf2⟩ := hinv.slices b2 (List.getElem?_mem hnx)
        exact ⟨b2, rfl, hch, by rw [hp, hp2, hch], by rw [hbuf, hbuf2, hch]⟩
    · intro hge
      have hac : b.accounted = true := by
        unfold Broadcast.accounted; simp; right; exact hge
      have hnext : b.next_offset = b.offset + b.send_buffer.length := by
        unfold Broadcast.next_offset; rw [hac]; simp
      refine ⟨?_, ?_, ?_⟩
      · intro j b2 hij hb2
        obtain ⟨hi, hbi⟩ := List.getElem?_eq_some.mp hb
        obtain ⟨hj, hbj⟩ := List.getElem?_eq_some.mp hb2
        have := List.pairwise_iff_getElem.mp hinv.ordered i j hi hj hij
        rw [hbi, hbj, hnext] at this
        exact this
      · unfold accounted_slices
        exact List.mem_map.mpr ⟨b, List.mem_filter.mpr ⟨hmem, hac⟩, rfl⟩
      · rw [hacc, hss, hvw]
  · refine ⟨_, SendData_idle s fuel net ?_, ?_⟩
    · by_cases hv : s.valid_data_samples = 0
      · exact Or.inl hv
      · right
        cases hc : s.udp_server_.HasClients
        · rfl
        · exact absurd ⟨by omega, hc⟩ hrun
    · intro i b hb; simp at hb

theorem ring_index_older {N p d c : Nat} (hp : p < N) (hd0 : 0 < d) (hd : d ≤ N - c) :
    c ≤ (p + N - (p + d) % N) % N := by
  rw [mod_of_lt_two_mul (show p + d < 2 * N by omega)]
  split
  · rw [mod_of_lt_two_mul (by omega)]; split <;> omega
  · rw [mod_of_lt_two_mul (by omega)]; split <;> omega

/-- A write that does not catch up with the send cursor appends the batch to
the unsent window. -/
theorem unsent_window_after_write (s : AudioProcessor) (ring batch : List int16_t)
    (hN : s.ring_buffer_size_ ≤ 2147483648) (hring : s.ring_buffer_ = some ring)
    (hlen : ring.length = s.ring_buffer_size_) (hw : s.write_pos_ < s.ring_buffer_size_)
    (hl : s.last_send_pos_ < s.ring_buffer_size_)
    (hu : s.valid_data_samples + batch.length < s.ring_buffer_size_) :
    ∃ (s1 : AudioProcessor) (ring2 : List int16_t),
      s.WriteData (some batch) batch.length = .ok s1 ∧
      s1.ring_buffer_ = some ring2 ∧ ring2.length = s.ring_buffer_size_ ∧
      s1.ring_buffer_size_ = s.ring_buffer_size_ ∧ s1.write_pos_ < s.ring_buffer_size_ ∧
      s1.last_send_pos_ = s.last_send_pos_ ∧ s1.udp_server_ = s.udp_server_ ∧
      s1.valid_data_samples = s.valid_data_samples + batch.length ∧
      ring_window ring2 s.ring_buffer_size_ s.last_send_pos_
          (s.valid_data_samples + batch.length)
        = ring_window ring s.ring_buffer_size_ s.last_send_pos_ s.valid_data_samples ++ batch := by
  have hN0 : 0 < s.ring_buffer_size_ := by omega
  obtain ⟨hvlt, hvw⟩ := valid_data_samples_lt s hN hw hl
  obtain ⟨ring2, h1, hl2, hs2⟩ := WriteData_ring s ring batch batch.length hN hring hlen hw
    (by omega) rfl
  obtain ⟨u, hu0⟩ : ∃ u, u = s.valid_data_samples := ⟨_, rfl⟩
  rw [← hu0] at hu hvlt hvw ⊢
  obtain ⟨codec, udp, rb, N, w, r, l⟩ := s
  simp only at hN hring hlen hw hl hu hN0 hvlt hvw h1 hl2 hs2 ⊢
  have hw2 : (w + batch.length) % N = (l + u + batch.length) % N := by
    rw [← hvw, Nat.mod_add_mod]
  have hw2lt : (w + batch.length) % N < N := Nat.mod_lt _ hN0
  refine ⟨_, ring2, h1, rfl, hl2, rfl, hw2lt, rfl, rfl, ?_, ?_⟩
  · rw [valid_data_samples_eq _ hN hw2lt hl]
    simp only
    rw [hw2, mod_of_lt_two_mul (show l + u + batch.length < 2 * N by omega)]
    split <;> split <;> omega
  · apply List.ext_getElem?
    intro i
    by_cases hi : i < u + batch.length
    · rw [ring_window_getElem? _ _ _ _ _ hN0 hl2 hi, hs2 _ (Nat.mod_lt _ hN0)]
      by_cases hiu : i < u
      · have hold : batch.length ≤ ((l + i) % N + N - w) % N := by
          have e : w = ((l + i) % N + (u - i)) % N := by
            rw [← hvw, Nat.mod_add_mod]; congr 1; omega
          rw [e]
          exact ring_index_older (Nat.mod_lt _ hN0) (by omega) (by omega)
        rw [if_neg (by omega), List.getElem?_append_left (by rw [ring_window_length]; omega),
          ring_window_getElem? _ _ _ _ _ hN0 hlen hiu]
      · have e : (l + i) % N = (w + (i - u)) % N := by
          rw [← hvw, Nat.mod_add_mod]; congr 1; omega
        rw [e, ring_index_forth hw (by omega), if_pos (by omega),
          List.getElem?_append_right (by rw [ring_window_length]; omega), ring_window_length]
    · rw [List.getElem?_eq_none (by rw [ring_window_length]; omega),
        List.getElem?_eq_none (by rw [List.length_append, ring_window_length]; omega)]

/-- C3 (write/flush round trip, FIFO order). On an allocated ring of `N`
slots holding `u` unsent samples, for a batch of `count` samples with
`u + count < N`: `WriteData(batch)` followed by one `SendData` invocation
(non-empty registry, enough fuel) both complete, and if every broadcast of the
invocation succeeds, the slices handed to `SendToAllClients`, concatenated in
call order, are the `u` previously unsent samples followed by the batch, and
every slice but the last holds exactly 480 samples. -/
theorem write_then_flush_fifo (s : AudioProcessor) (ring batch : List int16_t) (fuel : Nat)
    (net : Net)
    (hN : s.ring_buffer_size_ ≤ 2147483648) (hring : s.ring_buffer_ = some ring)
    (hlen : ring.length = s.ring_buffer_size_) (hw : s.write_pos_ < s.ring_buffer_size_)
    (hl : s.last_send_pos_ < s.ring_buffer_size_)
    (hu : s.valid_data_samples + batch.length < s.ring_buffer_size_)
    (hc : s.udp_server_.HasClients = true)
    (hfuel : 3 * ((s.valid_data_samples + batch.length + (MAX_SAMPLES_PER_PACKET - 1))
      / MAX_SAMPLES_PER_PACKET) ≤ fuel) :
    ∃ (s1 : AudioProcessor) (f : Flush) (W0 : List int16_t),
      s.unsent_window = .ok W0 ∧ W0.length = s.valid_data_samples ∧
      s.WriteData (some batch) batch.length = .ok s1 ∧
      s1.SendData fuel net = .ok f ∧
      ((∀ b ∈ f.broadcasts, b.result = true) →
        (f.broadcasts.map Broadcast.send_buffer).flatten = W0 ++ batch ∧
        ∀ i b, f.broadcasts[i]? = some b → i + 1 < f.broadcasts.length →
          b.send_buffer.length = MAX_SAMPLES_PER_PACKET) := by
  obtain ⟨s1, ring2, hwr, hr2, hl2, hsz, hw1, hl1, hudp, hv1, hwin⟩ :=
    unsent_window_after_write s ring batch hN hring hlen hw hl hu
  by_cases hv : 0 < s1.valid_data_samples
  · obtain ⟨st, hinv, hss, hsend⟩ := SendData_run s1 ring2 fuel net (by omega) hr2
      (by omega) (by omega) (by omega) hv (by rw [hudp]; exact hc) (by rw [hv1]; exact hfuel)
    rw [hsz, hl1, hv1] at hinv
    rw [hv1] at hss
    refine ⟨s1, _, _, unsent_window_ok s ring hN hring hlen hw hl, ring_window_length _ _ _ _,
      hwr, hsend, ?_⟩
    simp only
    intro hall
    constructor
    · have hfil : st.broadcasts.filter Broadcast.accounted = st.broadcasts := by
        rw [List.filter_eq_self]
        intro b hb
        unfold Broadcast.accounted
        rw [hall b hb]; rfl
      have hacc := hinv.accounted
      unfold accounted_slices at hacc
      rw [hfil, hss, List.take_of_length_le (by rw [ring_window_length]), hwin] at hacc
      exact hacc
    · intro i b hb hi
      have hmem : b ∈ st.broadcasts := List.getElem?_mem hb
      have hac : b.accounted = true := by
        unfold Broadcast.accounted; rw [hall b hmem]; rfl
      have hch := hinv.chain i b hb
      rw [List.getElem?_eq_getElem hi] at hch
      simp only [Option.map_some', Option.getD_some] at hch
      unfold Broadcast.next_offset at hch
      rw [if_pos hac] at hch
      have h2 := (hinv.slices _ (List.getElem_mem hi)).1
      obtain ⟨h3, _, hbuf⟩ := hinv.slices b hmem
      have hblen : b.send_buffer.length
          = min MAX_SAMPLES_PER_PACKET (s.valid_data_samples + batch.length - b.offset) := by
        rw [hbuf, List.length_take, List.length_drop, ring_window_length]
        unfold MAX_SAMPLES_PER_PACKET; omega
      rw [hblen] at hch ⊢
      unfold MAX_SAMPLES_PER_PACKET at hch ⊢
      omega
  · have hidle := SendData_idle s1 fuel net (Or.inl (by omega))
    refine ⟨s1, _, _, unsent_window_ok s ring hN hring hlen hw hl, ring_window_length _ _ _ _,
      hwr, hidle, ?_⟩
    simp only
    intro _
    have hb0 : batch = [] := List.eq_nil_of_length_eq_zero (by omega)
    have hw0 : ring_window ring s.ring_buffer_size_ s.last_send_pos_ s.valid_data_samples = [] :=
      List.eq_nil_of_length_eq_zero (by rw [ring_window_length]; omega)
    rw [hb0, hw0]
    exact ⟨rfl, by intro i b hb; simp at hb⟩

theorem write_then_flush_fifo_witness :
    ∃ (s1 : AudioProcessor) (f : Flush) (W0 : List int16_t),
      (demo_written [demo_client]).unsent_window = .ok W0 ∧
      W0.length = (demo_written [demo_client]).valid_data_samples ∧
      (demo_written [demo_client]).WriteData (some [6, 7]) ([6, 7] : List int16_t).length
        = .ok s1 ∧
      s1.SendData 3 (demo_net []) = .ok f ∧
      ((∀ b ∈ f.broadcasts, b.result = true) →
        (f.broadcasts.map Broadcast.send_buffer).flatten = W0 ++ [6, 7] ∧
        ∀ i b, f.broadcasts[i]? = some b → i + 1 < f.broadcasts.length →
          b.send_buffer.length = MAX_SAMPLES_PER_PACKET) :=
  write_then_flush_fifo (demo_written [demo_client]) [1, 2, 3, 4, 5, 0, 0, 0] [6, 7] 3
    (demo_net []) (by decide) rfl rfl (by decide) (by decide) (by decide) rfl (by decide)

theorem retry_then_skip_witness :
    ∃ f : Flush,
      (demo_written [demo_client, demo_client2, demo_client3]).SendData 3
        (demo_net demo_three_failures) = .ok f ∧
      ∀ i b, f.broadcasts[i]? = some b → b.result = false →
        b.failed_packets = consecutive_failures (f.broadcasts.take (i + 1)) ∧
        (b.failed_packets < MAX_FAILED_PACKETS →
          ∃ b2, f.broadcasts[i + 1]? = some b2 ∧ b2.offset = b.offset ∧
            b2.read_pos = b.read_pos ∧ b2.send_buffer = b.send_buffer) ∧
        (MAX_FAILED_PACKETS ≤ b.failed_packets →
          (∀ j b2, i < j → f.broadcasts[j]? = some b2 →
            b.offset + b.send_buffer.length ≤ b2.offset) ∧
          b.send_buffer ∈ accounted_slices f.broadcasts ∧
          f.self.last_send_pos_
            = ((demo_written [demo_client, demo_client2, demo_client3]).last_send_pos_
                + accounted_samples f.broadcasts)
                % (demo_written [demo_client, demo_client2, demo_client3]).ring_buffer_size_) :=
  retry_then_skip (demo_written [demo_client, demo_client2, demo_client3])
    [1, 2, 3, 4, 5, 0, 0, 0] 3 (demo_net demo_three_failures)
    (by decide) rfl rfl (by decide) (by decide) (by decide)

/-- The run behind `retry_then_skip_witness`, evaluated: three broadcasts of
the slice `[1,2,3,4,5]` at offset 0, all failing, with `failed_packets` 1, 2
and 3; the third is skipped, the send cursor ends at 5 and the registry is
empty. -/
theorem three_failures_trace :
    (match (demo_written [demo_client, demo_client2, demo_client3]).SendData 3
        (demo_net demo_three_failures) with
      | .ok f => some (f.broadcasts, f.self.last_send_pos_, f.self.udp_server_.clients_,
          f.net.wire.map Datagram.sent)
      | .error _ => none)
    = some
      ([{ offset := 0, read_pos := 0, send_buffer := [1, 2, 3, 4, 5], result := false,
          failed_packets := 1 },
        { offset := 0, read_pos := 0, send_buffer := [1, 2, 3, 4, 5], result := false,
          failed_packets := 2 },
        { offset := 0, read_pos := 0, send_buffer := [1, 2, 3, 4, 5], result := false,
          failed_packets := 3 }],
       5, [], demo_three_failures) := by
  decide!

/-- The capacity of the header satisfies the range assumed of `N`. -/
theorem ring_buffer_size_in_range :
    0 < ring_buffer_size_ ∧ ring_buffer_size_ ≤ 2147483648 := by
  unfold ring_buffer_size_; omega

theorem WriteData_writes_batch_witness :
    ∃ ring2 : List int16_t,
      (demo_processor []).WriteData (some [1, 2, 3, 4, 5]) 5
        = .ok { demo_processor [] with
                  ring_buffer_ := some ring2,
                  write_pos_ := ((demo_processor []).write_pos_ + 5)
                                  % (demo_processor []).ring_buffer_size_ } ∧
      ring2.length = (demo_processor []).ring_buffer_size_ ∧
      (∀ i (hi : i < ([1, 2, 3, 4, 5] : List int16_t).length),
        ring2[((demo_processor []).write_pos_ + i) % (demo_processor []).ring_buffer_size_]?
          = some ([1, 2, 3, 4, 5] : List int16_t)[i]) ∧
      (∀ j, j < (demo_processor []).ring_buffer_size_ →
        (∀ i, i < 5 → j ≠ ((demo_processor []).write_pos_ + i)
          % (demo_processor []).ring_buffer_size_) →
        ring2[j]? = (List.replicate 8 (0 : int16_t))[j]?) :=
  WriteData_writes_batch (demo_processor []) (List.replicate 8 0) [1, 2, 3, 4, 5] 5
    (by decide) rfl rfl (by decide) (by decide) rfl

theorem capacity_invariant_witness :
    (demo_written []).write_pos_ < 8 ∧ (demo_written []).last_send_pos_ < 8 ∧
    (demo_written []).valid_data_samples ≤ 8 ∧
    ((demo_written []).valid_data_samples : Int)
      = (((demo_written []).write_pos_ : Int) - ((demo_written []).last_send_pos_ : Int))
          % ((8 : Nat) : Int) :=
  capacity_invariant 8 (by decide) (by decide) (demo_written [])
    (Reachable.write (demo_processor []) (demo_written []) (some [1, 2, 3, 4, 5]) 5
      (Reachable.init (demo_server []) (some { audio_read_duration_ms_ := 10 })
        (some (List.replicate 8 0)) (by intro block hb; cases hb; rfl))
      (by decide) rfl)

theorem SendTo_open (self : UDPServer) (net : Net) (buffer : List uint8_t) (len : Nat)
    (dest : sockaddr_in) (hopen : 0 ≤ self.socket_fd_) (h0 : 0 < len)
    (hlen : len ≤ buffer.length) :
    self.SendTo net (some buffer) len dest
      = .ok (net.sendto_ok net.wire.length,
          { net with wire := net.wire ++
              [{ dest := dest, bytes := buffer.take len, sent := net.sendto_ok net.wire.length }] }) := by
  unfold UDPServer.SendTo
  simp only
  rw [if_neg (by omega), if_pos hlen]

theorem SendTo_closed (self : UDPServer) (net : Net) (data : Option (List uint8_t)) (len : Nat)
    (dest : sockaddr_in) (hclosed : self.socket_fd_ < 0) :
    self.SendTo net data len dest = .ok (false, net) := by
  unfold UDPServer.SendTo
  cases data with
  | none => rfl
  | some d => simp only; rw [if_pos (Or.inl hclosed)]

theorem SendToAllClients_loop_open (self : UDPServer) (buffer : List uint8_t) (total_len : Nat)
    (hopen : 0 ≤ self.socket_fd_) (h0 : 0 < total_len) (hlen : total_len ≤ buffer.length)
    (clients : List ClientInfo) :
    ∀ (success : Bool) (failed : List sockaddr_in) (net : Net),
      SendToAllClients_loop self buffer total_len clients success failed net
        = .ok (success && fanout_all_ok net.sendto_ok net.wire.length clients,
            failed ++ fanout_failed net.sendto_ok net.wire.length clients,
            { net with wire := net.wire ++
                fanout_wire net.sendto_ok (buffer.take total_len) net.wire.length clients }) := by
  induction clients with
  | nil =>
    intro success failed net
    simp [SendToAllClients_loop, fanout_all_ok, fanout_failed, fanout_wire]
  | cons c rest ih =>
    intro success failed net
    simp only [SendToAllClients_loop, SendTo_open self net buffer total_len c.addr hopen h0 hlen]
    cases hs : net.sendto_ok net.wire.length with
    | false =>
      simp only [Bool.not_false, if_true, ih]
      simp [fanout_all_ok, fanout_failed, fanout_wire, hs]
    | true =>
      simp only [Bool.not_true, Bool.false_eq_true, if_false, ih]
      simp [fanout_all_ok, fanout_failed, fanout_wire, hs]

theorem SendToAllClients_loop_closed (self : UDPServer) (buffer : List uint8_t) (total_len : Nat)
    (hclosed : self.socket_fd_ < 0) (clients : List ClientInfo) :
    ∀ (success : Bool) (failed : List sockaddr_in) (net : Net),
      SendToAllClients_loop self buffer total_len clients success failed net
        = .ok (success && clients.isEmpty, failed ++ clients.map ClientInfo.addr, net) := by
  induction clients with
  | nil => intro success failed net; simp [SendToAllClients_loop]
  | cons c rest ih =>
    intro success failed net
    simp only [SendToAllClients_loop, SendTo_closed self net _ total_len c.addr hclosed]
    simp [ih]

theorem fanout_closed (ok : Nat → Bool) (hok : ∀ k, ok k = false) (clients : List ClientInfo) :
    ∀ k, fanout_all_ok ok k clients = clients.isEmpty ∧
      fanout_failed ok k clients = clients.map ClientInfo.addr ∧
      fanout_survivors ok k clients = [] := by
  induction clients with
  | nil => intro k; simp [fanout_all_ok, fanout_failed, fanout_survivors]
  | cons c rest ih =>
    intro k
    obtain ⟨_, h2, h3⟩ := ih (k + 1)
    simp [fanout_all_ok, fanout_failed, fanout_survivors, hok k, h2, h3]

theorem data_frame_eq (d : List uint8_t) (len : Nat) :
    ((List.replicate (4 + len) (0 : uint8_t)).set 0 MessageType.DATA.toByte).take 4
        ++ (d.drop 0).take len
        ++ ((List.replicate (4 + len) (0 : uint8_t)).set 0 MessageType.DATA.toByte).drop (4 + len)
      = data_frame d len := by
  have hset : (List.replicate (4 + len) (0 : uint8_t)).set 0 MessageType.DATA.toByte
      = List.replicate (4 + len) 0 := by
    apply List.ext_getElem?
    intro i
    rw [List.getElem?_set]
    split
    · rename_i h
      subst h
      simp [MessageType.toByte, List.getElem?_replicate]
    · rfl
  rw [hset]
  unfold data_frame
  rw [List.drop_zero, List.drop_eq_nil_of_le (by simp), List.append_nil, List.take_replicate]
  simp [List.replicate]

theorem data_frame_length (d : List uint8_t) (len : Nat) (hd : len ≤ d.length) :
    (data_frame d len).length = 4 + len := by
  unfold data_frame
  simp only [List.length_append, List.length_cons, List.length_nil, List.length_take]
  omega

/-- `SendToAllClients` on a non-empty payload, in closed form: the result is
whether every send succeeded, the failed addresses are removed one by one, and
on an open socket one datagram for each registered endpoint goes out, all with
the DATA frame of the payload. -/
theorem SendToAllClients_spec (self : UDPServer) (net : Net) (d : List uint8_t) (len : Nat)
    (hd : len ≤ d.length) (h0 : 0 < len) (hmax : len + 4 < 4294967296) :
    self.SendToAllClients net (some d) len
      = .ok (fanout_all_ok (self.send_ok net) net.wire.length self.clients_,
          (fanout_failed (self.send_ok net) net.wire.length self.clients_).foldl
            UDPServer.RemoveClient self,
          { net with wire := net.wire ++
              (if 0 ≤ self.socket_fd_ then
                fanout_wire (self.send_ok net) (data_frame d len) net.wire.length self.clients_
               else []) }) := by
  unfold UDPServer.SendToAllClients
  have htl : size_t (sizeof_MessageHeader + len) = 4 + len := by
    unfold sizeof_MessageHeader; exact size_t_eq (by omega)
  simp only [show len ≠ 0 by omega, if_false, htl, List.length_replicate,
    show 0 < 4 + len by omega, if_true]
  unfold sizeof_MessageHeader
  rw [memcpy_ok _ _ _ _ _ (by simp) (by omega)]
  simp only
  rw [data_frame_eq d len]
  have hfl := data_frame_length d len hd
  by_cases hopen : 0 ≤ self.socket_fd_
  · rw [SendToAllClients_loop_open self _ _ hopen (by omega) (by omega)]
    have hok : self.send_ok net = net.sendto_ok := by
      funext k; unfold UDPServer.send_ok; simp [hopen]
    simp only [hok, Bool.true_and, List.nil_append, if_pos hopen,
      List.take_of_length_le (show (data_frame d len).length ≤ 4 + len by omega)]
  · rw [SendToAllClients_loop_closed self _ _ (by omega)]
    have hok : ∀ k, self.send_ok net k = false := by
      intro k; unfold UDPServer.send_ok; simp [hopen]
    obtain ⟨h1, h2, _⟩ := fanout_closed (self.send_ok net) hok self.clients_ net.wire.length
    simp only [h1, h2, Bool.true_and, List.nil_append, if_neg hopen, List.append_nil]

theorem same_endpoint_iff (a b : sockaddr_in) :
    (a.sin_addr = b.sin_addr ∧ a.sin_port = b.sin_port) ↔ a = b := by
  cases a; cases b; simp

theorem ClientInfo_addr_inj (c1 c2 : ClientInfo) : c1.addr = c2.addr ↔ c1 = c2 := by
  cases c1; cases c2; simp

theorem fanout_wire_dest (ok : Nat → Bool) (frame : List uint8_t) (clients : List ClientInfo) :
    ∀ k, (fanout_wire ok frame k clients).map Datagram.dest = clients.map ClientInfo.addr := by
  induction clients with
  | nil => intro k; rfl
  | cons c rest ih => intro k; simp [fanout_wire, ih]

theorem fanout_wire_bytes (ok : Nat → Bool) (frame : List uint8_t) (clients : List ClientInfo) :
    ∀ k, ∀ dg ∈ fanout_wire ok frame k clients, dg.bytes = frame := by
  induction clients with
  | nil => intro k dg h; simp [fanout_wire] at h
  | cons c rest ih =>
    intro k dg h
    simp only [fanout_wire, List.mem_cons] at h
    rcases h with h | h
    · rw [h]
    · exact ih _ dg h

theorem fanout_wire_getElem? (ok : Nat → Bool) (frame : List uint8_t)
    (clients : List ClientInfo) :
    ∀ (k i : Nat), (fanout_wire ok frame k clients)[i]?
      = (clients[i]?).map
          (fun c => ({ dest := c.addr, bytes := frame, sent := ok (k + i) } : Datagram)) := by
  induction clients with
  | nil => intro k i; simp [fanout_wire]
  | cons c rest ih =>
    intro k i
    cases i with
    | zero => simp [fanout_wire]
    | succ i =>
      simp only [fanout_wire, List.getElem?_cons_succ, ih]
      congr 1
      funext x
      rw [show k + 1 + i = k + (i + 1) by omega]

theorem fanout_all_ok_iff (ok : Nat → Bool) (clients : List ClientInfo) :
    ∀ k, fanout_all_ok ok k clients = true ↔ ∀ i, i < clients.length → ok (k + i) = true := by
  induction clients with
  | nil => intro k; simp [fanout_all_ok]
  | cons c rest ih =>
    intro k
    simp only [fanout_all_ok, Bool.and_eq_true, ih, List.length_cons]
    constructor
    · rintro ⟨h0, h1⟩ i hi
      cases i with
      | zero => exact h0
      | succ i =>
        have := h1 i (by omega)
        rwa [show k + 1 + i = k + (i + 1) by omega] at this
    · intro h
      refine ⟨h 0 (by omega), ?_⟩
      intro i hi
      have := h (i + 1) (by omega)
      rwa [show k + (i + 1) = k + 1 + i by omega] at this

theorem fanout_survivors_mem (ok : Nat → Bool) (clients : List ClientInfo) (c : ClientInfo) :
    ∀ k, c ∈ fanout_survivors ok k clients ↔
      ∃ i, clients[i]? = some c ∧ ok (k + i) = true := by
  induction clients with
  | nil => intro k; simp [fanout_survivors]
  | cons x rest ih =>
    intro k
    constructor
    · intro h
      by_cases hk : ok k = true
      · simp only [fanout_survivors, hk, if_true, List.mem_cons] at h
        rcases h with h | h
        · exact ⟨0, by simp [h], by simpa using hk⟩
        · obtain ⟨i, h1, h2⟩ := (ih (k + 1)).mp h
          exact ⟨i + 1, by simpa using h1, by rwa [show k + (i + 1) = k + 1 + i by omega]⟩
      · simp only [fanout_survivors, hk, if_false] at h
        obtain ⟨i, h1, h2⟩ := (ih (k + 1)).mp h
        exact ⟨i + 1, by simpa using h1, by rwa [show k + (i + 1) = k + 1 + i by omega]⟩
    · rintro ⟨i, h1, h2⟩
      cases i with
      | zero =>
        simp only [List.getElem?_cons_zero, Option.some.injEq] at h1
        simp only [Nat.add_zero] at h2
        simp [fanout_survivors, h2, h1]
      | succ i =>
        simp only [List.getElem?_cons_succ] at h1
        have hm : c ∈ fanout_survivors ok (k + 1) rest :=
          (ih (k + 1)).mpr ⟨i, h1, by rwa [show k + 1 + i = k + (i + 1) by omega]⟩
        by_cases hk : ok k = true
        · simp [fanout_survivors, hk, hm]
        · simp [fanout_survivors, hk, hm]

theorem fanout_survivors_sublist (ok : Nat → Bool) (clients : List ClientInfo) :
    ∀ k, (fanout_survivors ok k clients).Sublist clients := by
  induction clients with
  | nil => intro k; simp [fanout_survivors]
  | cons x rest ih =>
    intro k
    by_cases hk : ok k = true
    · simp only [fanout_survivors, hk, if_true]
      exact List.Sublist.cons_cons x (ih _)
    · simp only [fanout_survivors, hk, if_false]
      exact List.Sublist.cons x (ih _)

theorem fanout_failed_subset (ok : Nat → Bool) (clients : List ClientInfo) :
    ∀ k, ∀ a ∈ fanout_failed ok k clients, a ∈ clients.map ClientInfo.addr := by
  induction clients with
  | nil => intro k a h; simp [fanout_failed] at h
  | cons x rest ih =>
    intro k a h
    by_cases hk : ok k = true
    · simp only [fanout_failed, hk, if_true] at h
      simp only [List.map_cons, List.mem_cons]
      exact Or.inr (ih _ a h)
    · rw [fanout_failed, if_neg hk] at h
      simp only [List.map_cons, List.mem_cons]
      cases List.mem_cons.mp h with
      | inl h1 => exact Or.inl h1
      | inr h1 => exact Or.inr (ih _ a h1)

theorem RemoveClient_erase_sublist (clients : List ClientInfo) (addr : sockaddr_in) :
    (RemoveClient_erase clients addr).Sublist clients := by
  induction clients with
  | nil => simp [RemoveClient_erase]
  | cons c rest ih =>
    unfold RemoveClient_erase
    split
    · exact List.sublist_cons_self c rest
    · exact List.Sublist.cons_cons c ih

/-- On a duplicate-free registry `RemoveClient` removes every entry of the
address and nothing else. -/
theorem RemoveClient_erase_eq_filter (clients : List ClientInfo) (addr : sockaddr_in)
    (hnd : clients.Nodup) :
    RemoveClient_erase clients addr = clients.filter (fun c => decide (c.addr ≠ addr)) := by
  induction clients with
  | nil => simp [RemoveClient_erase]
  | cons c rest ih =>
    obtain ⟨hc, hrest⟩ := List.nodup_cons.mp hnd
    unfold RemoveClient_erase
    by_cases hsame : c.addr = addr
    · rw [if_pos ((same_endpoint_iff _ _).mpr hsame)]
      rw [List.filter_cons_of_neg (by simp [hsame])]
      symm
      rw [List.filter_eq_self]
      intro x hx
      simp only [ne_eq, decide_not, Bool.not_eq_true', decide_eq_false_iff_not]
      intro hxa
      apply hc
      have : x = c := (ClientInfo_addr_inj x c).mp (by rw [hxa, hsame])
      rw [← this]; exact hx
    · rw [if_neg (fun h => hsame ((same_endpoint_iff _ _).mp h))]
      rw [List.filter_cons_of_pos (by simp [hsame]), ih hrest]

theorem foldl_RemoveClient (failed : List sockaddr_in) :
    ∀ self : UDPServer, failed.foldl UDPServer.RemoveClient self
      = { self with clients_ := failed.foldl RemoveClient_erase self.clients_ } := by
  induction failed with
  | nil => intro self; rfl
  | cons a rest ih => intro self; simp only [List.foldl_cons, ih]; rfl

theorem foldl_RemoveClient_erase_sublist (failed : List sockaddr_in) :
    ∀ clients : List ClientInfo, (failed.foldl RemoveClient_erase clients).Sublist clients := by
  induction failed with
  | nil => intro clients; exact List.Sublist.refl _
  | cons a rest ih =>
    intro clients
    simp only [List.foldl_cons]
    exact (ih _).trans (RemoveClient_erase_sublist clients a)

theorem foldl_RemoveClient_erase_eq_filter (failed : List sockaddr_in) :
    ∀ clients : List ClientInfo, clients.Nodup →
      failed.foldl RemoveClient_erase clients
        = clients.filter (fun c => decide (c.addr ∉ failed)) := by
  induction failed with
  | nil => intro clients _; simp
  | cons a rest ih =>
    intro clients hnd
    simp only [List.foldl_cons]
    rw [RemoveClient_erase_eq_filter clients a hnd, ih _ (hnd.filter _), List.filter_filter]
    apply List.filter_congr
    intro x _
    by_cases h1 : x.addr = a <;> by_cases h2 : x.addr ∈ rest <;> simp [h1, h2]

/-- On a duplicate-free registry, removing the failed addresses one by one
leaves exactly the endpoints whose send succeeded, in registry order. -/
theorem eviction_eq_survivors (ok : Nat → Bool) (clients : List ClientInfo) :
    ∀ k, clients.Nodup →
      (fanout_failed ok k clients).foldl RemoveClient_erase clients
        = fanout_survivors ok k clients := by
  intro k hnd
  rw [foldl_RemoveClient_erase_eq_filter _ _ hnd]
  induction clients generalizing k with
  | nil => simp [fanout_survivors]
  | cons c rest ih =>
    obtain ⟨hc, hrest⟩ := List.nodup_cons.mp hnd
    have hcf : c.addr ∉ fanout_failed ok (k + 1) rest := by
      intro h
      obtain ⟨x, hx, hxa⟩ := List.mem_map.mp (fanout_failed_subset ok rest (k + 1) _ h)
      exact hc ((ClientInfo_addr_inj x c).mp hxa ▸ hx)
    by_cases hk : ok k = true
    · simp only [fanout_failed, fanout_survivors, hk, if_true]
      rw [List.filter_cons_of_pos (by simpa using hcf), ih (k + 1) hrest]
    · simp only [fanout_failed, fanout_survivors, hk, if_false]
      rw [List.filter_cons_of_neg (by simp), ← ih (k + 1) hrest]
      apply List.filter_congr
      intro x hx
      have hne : x.addr ≠ c.addr := by
        intro h
        exact hc ((ClientInfo_addr_inj x c).mp h ▸ hx)
      simp [hne]

theorem demo_payload_length : demo_payload.length = 1920 := by
  unfold demo_payload; exact List.length_replicate _ _

/-- C14 (broadcast framing and fan-out). For every non-empty payload of `len`
bytes, `SendToAllClients` hands to the open socket exactly one datagram for
each endpoint registered at the start of the call, in registry order (on a
closed socket every `SendTo` fails before `sendto` and nothing goes out); every
datagram is the same frame of length `4 + len` whose byte 0 is 0 (DATA), whose
bytes 1..3 are 0 and whose bytes from offset 4 on are the payload. -/
theorem broadcast_framing (self : UDPServer) (net : Net) (d : List uint8_t) (len : Nat)
    (hd : len ≤ d.length) (h0 : 0 < len) (hmax : len + 4 < 4294967296) :
    ∃ (sent : Bool) (udp : UDPServer) (seg : List Datagram),
      self.SendToAllClients net (some d) len
        = .ok (sent, udp, { net with wire := net.wire ++ seg }) ∧
      (0 ≤ self.socket_fd_ → seg.map Datagram.dest = self.clients_.map ClientInfo.addr) ∧
      (self.socket_fd_ < 0 → seg = []) ∧
      ∀ dg ∈ seg,
        dg.bytes = data_frame d len ∧ dg.bytes.length = 4 + len ∧
        dg.bytes[0]? = some MessageType.DATA.toByte ∧ dg.bytes[0]? = some 0 ∧
        dg.bytes[1]? = some 0 ∧ dg.bytes[2]? = some 0 ∧ dg.bytes[3]? = some 0 ∧
        dg.bytes.drop 4 = d.take len := by
  refine ⟨_, _, _, SendToAllClients_spec self net d len hd h0 hmax, ?_, ?_, ?_⟩
  · intro hopen
    rw [if_pos hopen, fanout_wire_dest]
  · intro hclosed
    rw [if_neg (by omega)]
  · intro dg hdg
    have hb : dg.bytes = data_frame d len := by
      by_cases hopen : 0 ≤ self.socket_fd_
      · rw [if_pos hopen] at hdg
        exact fanout_wire_bytes _ _ _ _ dg hdg
      · rw [if_neg hopen] at hdg
        cases hdg
    rw [hb]
    refine ⟨rfl, data_frame_length d len hd, ?_, ?_, ?_, ?_, ?_, ?_⟩ <;>
      simp [data_frame, MessageType.toByte]

theorem broadcast_framing_witness :
    ∃ (sent : Bool) (udp : UDPServer) (seg : List Datagram),
      (demo_server [demo_client, demo_client2]).SendToAllClients (demo_net [false, true])
          (some demo_payload) 1920
        = .ok (sent, udp, { demo_net [false, true] with
                              wire := (demo_net [false, true]).wire ++ seg }) ∧
      (0 ≤ (demo_server [demo_client, demo_client2]).socket_fd_ →
        seg.map Datagram.dest
          = (demo_server [demo_client, demo_client2]).clients_.map ClientInfo.addr) ∧
      ((demo_server [demo_client, demo_client2]).socket_fd_ < 0 → seg = []) ∧
      ∀ dg ∈ seg,
        dg.bytes = data_frame demo_payload 1920 ∧ dg.bytes.length = 4 + 1920 ∧
        dg.bytes[0]? = some MessageType.DATA.toByte ∧ dg.bytes[0]? = some 0 ∧
        dg.bytes[1]? = some 0 ∧ dg.bytes[2]? = some 0 ∧ dg.bytes[3]? = some 0 ∧
        dg.bytes.drop 4 = demo_payload.take 1920 :=
  broadcast_framing (demo_server [demo_client, demo_client2]) (demo_net [false, true])
    demo_payload 1920 (Nat.le_of_eq demo_payload_length.symm) (by decide) (by decide)

/-- C15 (broadcast result). For every non-null, non-empty payload,
`SendToAllClients` returns true if and only if the send to every endpoint
registered at the start of the call succeeded (`send_ok`: on an open socket
the outcome logged for the datagram to that endpoint, on a closed socket
false); for a null or zero-length payload it returns false, makes no `sendto`
call and leaves the server, its registry included, unchanged. -/
theorem broadcast_result (self : UDPServer) (net : Net) (d : List uint8_t) (len : Nat)
    (hd : len ≤ d.length) (h0 : 0 < len) (hmax : len + 4 < 4294967296) :
    (∃ (sent : Bool) (udp : UDPServer) (net1 : Net),
      self.SendToAllClients net (some d) len = .ok (sent, udp, net1) ∧
      (sent = true ↔
        ∀ i, i < self.clients_.length → self.send_ok net (net.wire.length + i) = true) ∧
      (0 ≤ self.socket_fd_ → ∀ i c, self.clients_[i]? = some c →
        net1.wire[net.wire.length + i]?
          = some { dest := c.addr, bytes := data_frame d len,
                   sent := self.send_ok net (net.wire.length + i) }) ∧
      (self.socket_fd_ < 0 → net1.wire = net.wire ∧ ∀ (k : Nat) (c : ClientInfo),
        self.send_ok net k = false ∧
        self.SendTo net (some (data_frame d len)) (4 + len) c.addr = .ok (false, net))) ∧
    (∀ len2, self.SendToAllClients net none len2 = .ok (false, self, net)) ∧
    self.SendToAllClients net (some d) 0 = .ok (false, self, net) := by
  refine ⟨⟨_, _, _, SendToAllClients_spec self net d len hd h0 hmax, ?_, ?_, ?_⟩, ?_, ?_⟩
  · exact fanout_all_ok_iff _ _ _
  · intro hopen i c hc
    simp only [if_pos hopen]
    rw [List.getElem?_append_right (by omega), Nat.add_sub_cancel_left, fanout_wire_getElem?, hc]
    rfl
  · intro hclosed
    simp only [if_neg (show ¬ (0 ≤ self.socket_fd_) by omega), List.append_nil, true_and]
    intro k c
    refine ⟨?_, SendTo_closed self net _ _ _ hclosed⟩
    unfold UDPServer.send_ok
    simp [show ¬ (0 ≤ self.socket_fd_) by omega]
  · intro len2; rfl
  · unfold UDPServer.SendToAllClients; simp

theorem broadcast_result_witness :
    (∃ (sent : Bool) (udp : UDPServer) (net1 : Net),
      (demo_server [demo_client, demo_client2]).SendToAllClients (demo_net [false, true])
          (some demo_payload) 1920 = .ok (sent, udp, net1) ∧
      (sent = true ↔
        ∀ i, i < (demo_server [demo_client, demo_client2]).clients_.length →
          (demo_server [demo_client, demo_client2]).send_ok (demo_net [false, true])
            ((demo_net [false, true]).wire.length + i) = true) ∧
      (0 ≤ (demo_server [demo_client, demo_client2]).socket_fd_ → ∀ i c,
        (demo_server [demo_client, demo_client2]).clients_[i]? = some c →
        net1.wire[(demo_net [false, true]).wire.length + i]?
          = some { dest := c.addr, bytes := data_frame demo_payload 1920,
                   sent := (demo_server [demo_client, demo_client2]).send_ok
                     (demo_net [false, true]) ((demo_net [false, true]).wire.length + i) }) ∧
      ((demo_server [demo_client, demo_client2]).socket_fd_ < 0 →
        net1.wire = (demo_net [false, true]).wire ∧ ∀ (k : Nat) (c : ClientInfo),
        (demo_server [demo_client, demo_client2]).send_ok (demo_net [false, true]) k = false ∧
        (demo_server [demo_client, demo_client2]).SendTo (demo_net [false, true])
          (some (data_frame demo_payload 1920)) (4 + 1920) c.addr
            = .ok (false, demo_net [false, true]))) ∧
    (∀ len2, (demo_server [demo_client, demo_client2]).SendToAllClients (demo_net [false, true])
      none len2 = .ok (false, demo_server [demo_client, demo_client2], demo_net [false, true])) ∧
    (demo_server [demo_client, demo_client2]).SendToAllClients (demo_net [false, true])
      (some demo_payload) 0
        = .ok (false, demo_server [demo_client, demo_client2], demo_net [false, true]) :=
  broadcast_result (demo_server [demo_client, demo_client2]) (demo_net [false, true])
    demo_payload 1920 (Nat.le_of_eq demo_payload_length.symm) (by decide) (by decide)

/-- C16 (failure eviction). For every duplicate-free registry, every non-empty
payload and every assignment of send outcomes, after `SendToAllClients` the
registry is exactly the list of endpoints whose send succeeded, in their
original order: an endpoint is still registered if and only if its send
succeeded. -/
theorem failure_eviction (self : UDPServer) (net : Net) (d : List uint8_t) (len : Nat)
    (hnd : self.clients_.Nodup)
    (hd : len ≤ d.length) (h0 : 0 < len) (hmax : len + 4 < 4294967296) :
    self.SendToAllClients net (some d) len
      = .ok (fanout_all_ok (self.send_ok net) net.wire.length self.clients_,
          { self with
            clients_ := fanout_survivors (self.send_ok net) net.wire.length self.clients_ },
          { net with wire := net.wire ++
              (if 0 ≤ self.socket_fd_ then
                fanout_wire (self.send_ok net) (data_frame d len) net.wire.length self.clients_
               else []) }) ∧
    (∀ i c, self.clients_[i]? = some c →
      (c ∈ fanout_survivors (self.send_ok net) net.wire.length self.clients_
        ↔ self.send_ok net (net.wire.length + i) = true)) ∧
    (fanout_survivors (self.send_ok net) net.wire.length self.clients_).Sublist
      self.clients_ := by
  refine ⟨?_, ?_, fanout_survivors_sublist _ _ _⟩
  · rw [SendToAllClients_spec self net d len hd h0 hmax, foldl_RemoveClient,
      eviction_eq_survivors _ _ _ hnd]
  · intro i c hc
    rw [fanout_survivors_mem]
    constructor
    · rintro ⟨j, hj, hok⟩
      obtain ⟨hi1, hi2⟩ := List.getElem?_eq_some.mp hc
      obtain ⟨hj1, hj2⟩ := List.getElem?_eq_some.mp hj
      have : i = j := (hnd.getElem_inj_iff).mp (by rw [hi2, hj2])
      rw [this]; exact hok
    · intro hok
      exact ⟨i, hc, hok⟩

/-- The scenario of C16: `demo_client` (A) and `demo_client2` (B) registered,
a 1920-byte payload, A's send failing and B's succeeding. Afterwards the
registry is `[B]`, and the next broadcast hands the socket one datagram, for B. -/
theorem failure_eviction_witness :
    ((demo_server [demo_client, demo_client2]).SendToAllClients (demo_net [false, true])
        (some demo_payload) 1920
      = .ok (false, demo_server [demo_client2], demo_net_after) ∧
     ((demo_server [demo_client2]).SendToAllClients demo_net_after (some demo_payload) 1920
      = .ok (true, demo_server [demo_client2],
          { demo_net_after with
            wire := demo_net_after.wire ++
              [{ dest := demo_client2.addr, bytes := data_frame demo_payload 1920,
                 sent := true }] }))) :=
  ⟨(failure_eviction (demo_server [demo_client, demo_client2]) (demo_net [false, true])
      demo_payload 1920 (by decide) (Nat.le_of_eq demo_payload_length.symm) (by decide) (by decide)).1,
   (failure_eviction (demo_server [demo_client2]) demo_net_after
      demo_payload 1920 (by decide) (Nat.le_of_eq demo_payload_length.symm) (by decide) (by decide)).1⟩

/-- The copy of `WriteData` stays inside the ring and the batch for every
count up to the capacity. -/
theorem ring_write_total (ring d : List int16_t) (N w samples : Nat)
    (hlen : ring.length = N) (hN : N ≤ 2147483648) (hw : w < N) (hs : samples ≤ N)
    (hd : samples ≤ d.length) :
    ∃ ring2, ring_write ring N w d samples = .ok ring2 ∧ ring2.length = N := by
  unfold ring_write
  rw [size_t_eq (show w + samples < 4294967296 by omega)]
  by_cases hfit : w + samples ≤ N
  · rw [if_pos hfit, memcpy_ok _ _ _ _ _ (by omega) (by omega)]
    exact ⟨_, rfl, by rw [splice_length _ _ _ _ _ (by omega) (by omega)]; exact hlen⟩
  · rw [if_neg hfit, size_sub_eq (by omega) (by omega)]
    simp only
    rw [size_sub_eq (show N - w ≤ samples by omega) (by omega),
      memcpy_ok _ _ _ _ _ (by omega) (by omega)]
    simp only
    have hl1 : (ring.take w ++ (d.drop 0).take (N - w) ++ ring.drop (w + (N - w))).length = N := by
      rw [splice_length _ _ _ _ _ (by omega) (by omega)]; exact hlen
    rw [memcpy_ok _ _ _ _ _ (by omega) (by omega)]
    exact ⟨_, rfl, by rw [splice_length _ _ _ _ _ (by omega) (by omega)]; exact hl1⟩

/-- C13 (no backpressure on the producer). `WriteData` completes for every
input with `count ≤ N` (null or non-null batch, ring allocated or not), and
for two states that agree on the capacity, `write_pos_` and the ring contents,
whatever their `last_send_pos_` and client registries, `WriteData` of the same
batch yields the same `write_pos_` and ring contents and leaves each state's
`last_send_pos_` and server (registry) unchanged. -/
theorem no_backpressure (s1 s2 : AudioProcessor) (data : Option (List int16_t)) (samples : Nat)
    (hN : s1.ring_buffer_size_ ≤ 2147483648)
    (hsize : s2.ring_buffer_size_ = s1.ring_buffer_size_)
    (hring : s2.ring_buffer_ = s1.ring_buffer_) (hwp : s2.write_pos_ = s1.write_pos_)
    (halloc : ∀ ring, s1.ring_buffer_ = some ring → ring.length = s1.ring_buffer_size_)
    (hw : s1.write_pos_ < s1.ring_buffer_size_)
    (hcount : samples ≤ s1.ring_buffer_size_)
    (hdata : ∀ d, data = some d → samples ≤ d.length) :
    ∃ t1 t2 : AudioProcessor,
      s1.WriteData data samples = .ok t1 ∧ s2.WriteData data samples = .ok t2 ∧
      t1.write_pos_ = t2.write_pos_ ∧ t1.ring_buffer_ = t2.ring_buffer_ ∧
      t1.last_send_pos_ = s1.last_send_pos_ ∧ t1.udp_server_ = s1.udp_server_ ∧
      t2.last_send_pos_ = s2.last_send_pos_ ∧ t2.udp_server_ = s2.udp_server_ := by
  unfold AudioProcessor.WriteData
  rw [hring, hsize, hwp]
  cases data with
  | none => exact ⟨_, _, rfl, rfl, hwp.symm, hring.symm, rfl, rfl, rfl, rfl⟩
  | some d =>
    cases hr : s1.ring_buffer_ with
    | none => exact ⟨_, _, rfl, rfl, hwp.symm, by rw [hring, hr], rfl, rfl, rfl, rfl⟩
    | some ring =>
      simp only
      by_cases h0 : samples = 0
      · simp only [h0, if_true]
        exact ⟨_, _, rfl, rfl, hwp.symm, by rw [hring, hr], rfl, rfl, rfl, rfl⟩
      · obtain ⟨ring2, hw2, _⟩ := ring_write_total ring d s1.ring_buffer_size_ s1.write_pos_
          samples (halloc ring hr) hN hw hcount (hdata d rfl)
        simp only [h0, if_false, hw2]
        exact ⟨_, _, rfl, rfl, rfl, rfl, rfl, rfl, rfl, rfl⟩

theorem no_backpressure_witness :
    ∃ t1 t2 : AudioProcessor,
      (demo_written []).WriteData (some [6, 7, 8, 9, 10]) 5 = .ok t1 ∧
      ({ demo_written [demo_client] with last_send_pos_ := 3 } : AudioProcessor).WriteData
        (some [6, 7, 8, 9, 10]) 5 = .ok t2 ∧
      t1.write_pos_ = t2.write_pos_ ∧ t1.ring_buffer_ = t2.ring_buffer_ ∧
      t1.last_send_pos_ = (demo_written []).last_send_pos_ ∧
      t1.udp_server_ = (demo_written []).udp_server_ ∧
      t2.last_send_pos_
        = ({ demo_written [demo_client] with last_send_pos_ := 3 } : AudioProcessor).last_send_pos_ ∧
      t2.udp_server_
        = ({ demo_written [demo_client] with last_send_pos_ := 3 } : AudioProcessor).udp_server_ :=
  no_backpressure (demo_written [])
    ({ demo_written [demo_client] with last_send_pos_ := 3 } : AudioProcessor)
    (some [6, 7, 8, 9, 10]) 5 (by decide) rfl rfl rfl
    (by intro ring h; cases h; rfl) (by decide) (by decide)
    (by intro d h; cases h; decide)

theorem is_new_client_iff (clients : List ClientInfo) (a : sockaddr_in) :
    is_new_client clients a = true ↔ ({ addr := a } : ClientInfo) ∉ clients := by
  induction clients with
  | nil => simp [is_new_client]
  | cons c rest ih =>
    unfold is_new_client
    by_cases h : c.addr = a
    · rw [if_pos ((same_endpoint_iff _ _).mpr h)]
      have : c = { addr := a } := (ClientInfo_addr_inj _ _).mp h
      simp [this]
    · rw [if_neg (fun hh => h ((same_endpoint_iff _ _).mp hh)), ih]
      have : ({ addr := a } : ClientInfo) ≠ c := by
        intro hh; apply h; rw [← hh]
      simp [this]

theorem registered_clients (self : UDPServer) (a : sockaddr_in) :
    (self.registered a).clients_
      = if ({ addr := a } : ClientInfo) ∈ self.clients_ then self.clients_
        else self.clients_ ++ [{ addr := a }] := by
  unfold UDPServer.registered
  by_cases h : ({ addr := a } : ClientInfo) ∈ self.clients_
  · rw [if_neg (by rw [is_new_client_iff]; exact fun hh => hh h), if_pos h]
  · rw [if_pos ((is_new_client_iff _ _).mpr h), if_neg h]

theorem registered_mem (self : UDPServer) (a : sockaddr_in) :
    ({ addr := a } : ClientInfo) ∈ (self.registered a).clients_ := by
  rw [registered_clients]
  split
  · assumption
  · simp

theorem registered_nodup (self : UDPServer) (a : sockaddr_in) (hnd : self.clients_.Nodup) :
    (self.registered a).clients_.Nodup := by
  rw [registered_clients]
  split
  · exact hnd
  · rename_i h
    rw [List.nodup_append]
    refine ⟨hnd, List.nodup_singleton _, ?_⟩
    intro x hx hx2
    rw [List.mem_singleton] at hx2
    exact h (hx2 ▸ hx)

theorem HandleUDPTask_body_eq (self : UDPServer) (len : Nat) (rx : List uint8_t)
    (a : sockaddr_in) :
    self.HandleUDPTask_body (len : Int) rx a = (self.registered a).HandleMessage rx len a := by
  unfold UDPServer.HandleUDPTask_body UDPServer.registered
  rw [if_neg (by omega)]
  simp only [Int.toNat_ofNat]

/-- `HandleMessage` by cases on the length and the type byte: the registry
changes only on a DISCONNECT with a full header, which removes the sender; the
callback is invoked only for DATA with a non-empty payload. -/
theorem HandleMessage_cases (self : UDPServer) (data : List uint8_t) (len : Nat)
    (a : sockaddr_in) (hlen : len ≤ data.length) :
    ∃ calls : List DataCall,
      self.HandleMessage data len a
        = .ok ((if 4 ≤ len ∧ data[0]? = some 1 then self.RemoveClient a else self), calls) ∧
      (len < 4 → calls = []) ∧ (data[0]? ≠ some 0 → calls = []) := by
  unfold UDPServer.HandleMessage sizeof_MessageHeader
  by_cases h4 : len < 4
  · rw [if_pos h4, if_neg (by omega)]
    exact ⟨[], rfl, fun _ => rfl, fun _ => rfl⟩
  · rw [if_neg h4]
    cases hd : data[0]? with
    | none =>
      rw [List.getElem?_eq_none_iff] at hd
      omega
    | some ty =>
      have h4le : 4 ≤ len := by omega
      by_cases h1 : ty = 1
      · refine ⟨[], ?_, fun _ => rfl, fun _ => rfl⟩
        simp [MessageType.toByte, h1, h4le]
      · by_cases h0 : ty = 0
        · by_cases hcb : size_sub len 4 > 0 ∧ self.data_callback_ = true
          · refine ⟨[{ payload := (data.drop 4).take (size_sub len 4),
                       payload_len := size_sub len 4, client_addr := a }], ?_,
              fun h => absurd h h4, fun h => absurd (by rw [h0]) h⟩
            simp only [MessageType.toByte, h0]
            simp [hcb]
          · refine ⟨[], ?_, fun _ => rfl, fun _ => rfl⟩
            simp only [MessageType.toByte, h0]
            simp [hcb]
        · refine ⟨[], ?_, fun _ => rfl, fun _ => rfl⟩
          simp only [MessageType.toByte]
          rw [if_neg h1, if_neg h0, if_neg (by simp [h1])]

theorem HandleUDPTask_body_nodup (self udp : UDPServer) (len : Int) (rx : List uint8_t)
    (a : sockaddr_in) (calls : List DataCall) (hnd : self.clients_.Nodup)
    (h : self.HandleUDPTask_body len rx a = .ok (udp, calls)) : udp.clients_.Nodup := by
  unfold UDPServer.HandleUDPTask_body at h
  split at h
  · cases h; exact hnd
  · have hreg := registered_nodup self a hnd
    unfold UDPServer.registered at hreg
    simp only at h
    generalize (if is_new_client self.clients_ a = true then
      ({ self with clients_ := self.clients_ ++ [{ addr := a }] } : UDPServer) else self) = s1
      at h hreg
    unfold UDPServer.HandleMessage at h
    split at h
    · cases h; exact hreg
    · split at h
      · cases h
      · simp only at h
        split at h
        · cases h
          exact (RemoveClient_erase_sublist _ _).nodup hreg
        · split at h
          · split at h <;> (cases h; exact hreg)
          · cases h; exact hreg

theorem SendToAllClients_nodup (self udp : UDPServer) (net net1 : Net)
    (data : Option (List uint8_t)) (len : Nat) (sent : Bool) (hnd : self.clients_.Nodup)
    (h : self.SendToAllClients net data len = .ok (sent, udp, net1)) : udp.clients_.Nodup := by
  unfold UDPServer.SendToAllClients at h
  split at h
  · cases h; exact hnd
  · split at h
    · cases h; exact hnd
    · simp only at h
      split at h
      · split at h
        · cases h
        · split at h
          · cases h
          · cases h
            rw [foldl_RemoveClient]
            exact (foldl_RemoveClient_erase_sublist _ _).nodup hnd
      · cases h

theorem RegistryReachable_nodup (udp : UDPServer) (h : RegistryReachable udp) :
    udp.clients_.Nodup := by
  induction h with
  | empty self h0 => rw [h0]; exact List.nodup_nil
  | receive self udp len rx a calls _ hstep ih =>
    exact HandleUDPTask_body_nodup self udp len rx a calls ih hstep
  | broadcast self udp net net1 data len sent _ hstep ih =>
    exact SendToAllClients_nodup self udp net net1 data len sent ih hstep

theorem demo_rx_length (datagram : List uint8_t) (h : datagram.length ≤ BUFFER_SIZE) :
    (demo_rx datagram).length = BUFFER_SIZE := by
  unfold demo_rx
  rw [List.length_append, List.length_replicate]
  omega

theorem demo_rx_head (b : uint8_t) (rest : List uint8_t) :
    (demo_rx (b :: rest))[0]? = some b := by
  unfold demo_rx
  rw [List.cons_append, List.getElem?_cons_zero]

/-- The receive step in closed form: the sender is registered if new, then a
DISCONNECT with a full header removes it; nothing else touches the registry. -/
theorem HandleUDPTask_body_cases (self : UDPServer) (len : Nat) (rx : List uint8_t)
    (a : sockaddr_in) (hlen : len ≤ rx.length) :
    ∃ calls : List DataCall,
      self.HandleUDPTask_body (len : Int) rx a
        = .ok ((if 4 ≤ len ∧ rx[0]? = some 1 then (self.registered a).RemoveClient a
                else self.registered a), calls) ∧
      (len < 4 → calls = []) ∧ (rx[0]? ≠ some 0 → calls = []) := by
  rw [HandleUDPTask_body_eq]
  exact HandleMessage_cases (self.registered a) rx len a hlen

/-- C17 (registry uniqueness). In every server state reachable from the empty
registry by receive steps and `SendToAllClients` calls, no two registry
entries have the same (address, port) pair; and after two DATA datagrams from
the same (address, port) the registry holds exactly one entry for it. -/
theorem registry_unique (udp : UDPServer) (h : RegistryReachable udp) :
    udp.clients_.Nodup ∧
    ∀ (E : sockaddr_in) (rx1 rx2 : List uint8_t) (len1 len2 : Nat),
      4 ≤ len1 → len1 ≤ rx1.length → rx1[0]? = some MessageType.DATA.toByte →
      4 ≤ len2 → len2 ≤ rx2.length → rx2[0]? = some MessageType.DATA.toByte →
      ∃ (udp1 udp2 : UDPServer) (calls1 calls2 : List DataCall),
        udp.HandleUDPTask_body (len1 : Int) rx1 E = .ok (udp1, calls1) ∧
        udp1.HandleUDPTask_body (len2 : Int) rx2 E = .ok (udp2, calls2) ∧
        udp2.clients_.count { addr := E } = 1 ∧
        (udp2.clients_.filter (fun c => decide (c.addr = E))).length = 1 := by
  have hnd := RegistryReachable_nodup udp h
  refine ⟨hnd, ?_⟩
  intro E rx1 rx2 len1 len2 h4a hla hta h4b hlb htb
  have hne : ¬ ((some MessageType.DATA.toByte : Option uint8_t) = some 1) := by
    simp [MessageType.toByte]
  obtain ⟨calls1, hs1, _⟩ := HandleUDPTask_body_cases udp len1 rx1 E hla
  rw [hta, if_neg (fun hh => hne hh.2)] at hs1
  obtain ⟨calls2, hs2, _⟩ := HandleUDPTask_body_cases (udp.registered E) len2 rx2 E hlb
  rw [htb, if_neg (fun hh => hne hh.2)] at hs2
  refine ⟨_, _, calls1, calls2, hs1, hs2, ?_⟩
  have hnd2 : ((udp.registered E).registered E).clients_.Nodup :=
    registered_nodup _ E (registered_nodup udp E hnd)
  have hmem : ({ addr := E } : ClientInfo) ∈ ((udp.registered E).registered E).clients_ :=
    registered_mem _ E
  have hcount := List.count_eq_one_of_mem hnd2 hmem
  refine ⟨hcount, ?_⟩
  rw [← hcount, List.count, List.countP_eq_length_filter]
  congr 1
  apply List.filter_congr
  intro x _
  by_cases hx : x.addr = E
  · have : x = { addr := E } := (ClientInfo_addr_inj _ _).mp hx
    simp [this]
  · have : x ≠ { addr := E } := fun hh => hx (by rw [hh])
    simp [hx, this]

theorem registry_unique_witness :
    (demo_server []).clients_.Nodup ∧
    ∀ (E : sockaddr_in) (rx1 rx2 : List uint8_t) (len1 len2 : Nat),
      4 ≤ len1 → len1 ≤ rx1.length → rx1[0]? = some MessageType.DATA.toByte →
      4 ≤ len2 → len2 ≤ rx2.length → rx2[0]? = some MessageType.DATA.toByte →
      ∃ (udp1 udp2 : UDPServer) (calls1 calls2 : List DataCall),
        (demo_server []).HandleUDPTask_body (len1 : Int) rx1 E = .ok (udp1, calls1) ∧
        udp1.HandleUDPTask_body (len2 : Int) rx2 E = .ok (udp2, calls2) ∧
        udp2.clients_.count { addr := E } = 1 ∧
        (udp2.clients_.filter (fun c => decide (c.addr = E))).length = 1 :=
  registry_unique (demo_server []) (RegistryReachable.empty _ rfl)

/-- C18 (disconnect removes). For every duplicate-free registry and every
endpoint `E`, after the receive step for a datagram from `E` of at least 4
bytes whose type byte is 1 (DISCONNECT), `E` is not in the registry, whether
or not it was registered before, no callback is invoked, and the registry is
the old one without `E`: every other endpoint is registered afterwards if and
only if it was before. -/
theorem disconnect_removes (self : UDPServer) (E : sockaddr_in) (rx : List uint8_t)
    (len : Nat) (hnd : self.clients_.Nodup) (h4 : 4 ≤ len) (hlen : len ≤ rx.length)
    (hty : rx[0]? = some MessageType.DISCONNECT.toByte) :
    ∃ udp : UDPServer,
      self.HandleUDPTask_body (len : Int) rx E = .ok (udp, []) ∧
      ({ addr := E } : ClientInfo) ∉ udp.clients_ ∧
      udp.clients_ = self.clients_.filter (fun c => decide (c.addr ≠ E)) ∧
      ∀ c : ClientInfo, c.addr ≠ E → (c ∈ udp.clients_ ↔ c ∈ self.clients_) := by
  obtain ⟨calls, hs, _, hc⟩ := HandleUDPTask_body_cases self len rx E hlen
  have hty1 : rx[0]? = some 1 := hty
  rw [if_pos ⟨h4, hty1⟩] at hs
  have hcalls : calls = [] := hc (by rw [hty1]; simp)
  rw [hcalls] at hs
  have hclients : ((self.registered E).RemoveClient E).clients_
      = self.clients_.filter (fun c => decide (c.addr ≠ E)) := by
    unfold UDPServer.RemoveClient
    simp only
    rw [RemoveClient_erase_eq_filter _ _ (registered_nodup self E hnd), registered_clients]
    split
    · rfl
    · rw [List.filter_append]; simp
  refine ⟨_, hs, ?_, hclients, ?_⟩
  · rw [hclients, List.mem_filter]; simp
  · intro c hc2
    rw [hclients, List.mem_filter]; simp [hc2]

theorem disconnect_removes_witness :
    ∃ udp : UDPServer,
      (demo_server [demo_client, demo_client2]).HandleUDPTask_body ((4 : Nat) : Int)
        (demo_rx [1, 0, 0, 0]) demo_client.addr = .ok (udp, []) ∧
      ({ addr := demo_client.addr } : ClientInfo) ∉ udp.clients_ ∧
      udp.clients_ = (demo_server [demo_client, demo_client2]).clients_.filter
        (fun c => decide (c.addr ≠ demo_client.addr)) ∧
      ∀ c : ClientInfo, c.addr ≠ demo_client.addr →
        (c ∈ udp.clients_ ↔ c ∈ (demo_server [demo_client, demo_client2]).clients_) :=
  disconnect_removes (demo_server [demo_client, demo_client2]) demo_client.addr
    (demo_rx [1, 0, 0, 0]) 4 (by decide) (by decide)
    (by rw [demo_rx_length _ (by decide)]; decide) (demo_rx_head 1 [0, 0, 0])

/-- C19, as stated, fails: a 4-byte DISCONNECT datagram from an endpoint that
is not in the (empty) registry; once it has been processed the endpoint is
still not in the registry. -/
theorem implicit_join_counterexample :
    is_new_client (demo_server []).clients_ demo_client.addr = true ∧
    (demo_server []).HandleUDPTask_body 4 (demo_rx [1, 0, 0, 0]) demo_client.addr
      = .ok (demo_server [], []) ∧
    demo_client ∉ (demo_server []).clients_ := by
  refine ⟨rfl, ?_, by decide⟩
  obtain ⟨calls, hs, _, hc⟩ := HandleUDPTask_body_cases (demo_server []) 4
    (demo_rx [1, 0, 0, 0]) demo_client.addr (by rw [demo_rx_length _ (by decide)]; decide)
  rw [demo_rx_head, hc (by rw [demo_rx_head]; decide), if_pos ⟨by decide, rfl⟩] at hs
  exact hs

/-- C19 (amended). For every inbound datagram, of any length and any type
other than a DISCONNECT with a full header (at least 4 bytes, type byte 1),
received from an (address, port) that is not in the registry, that endpoint
is in the registry once the datagram has been processed: it is appended to
the registry. -/
theorem implicit_join (self : UDPServer) (E : sockaddr_in) (rx : List uint8_t) (len : Nat)
    (hnew : ({ addr := E } : ClientInfo) ∉ self.clients_) (hlen : len ≤ rx.length)
    (hnd : ¬ (4 ≤ len ∧ rx[0]? = some MessageType.DISCONNECT.toByte)) :
    ∃ (udp : UDPServer) (calls : List DataCall),
      self.HandleUDPTask_body (len : Int) rx E = .ok (udp, calls) ∧
      ({ addr := E } : ClientInfo) ∈ udp.clients_ ∧
      udp.clients_ = self.clients_ ++ [{ addr := E }] := by
  obtain ⟨calls, hs, _⟩ := HandleUDPTask_body_cases self len rx E hlen
  have hnd1 : ¬ (4 ≤ len ∧ rx[0]? = some 1) := hnd
  rw [if_neg hnd1] at hs
  refine ⟨_, calls, hs, registered_mem self E, ?_⟩
  rw [registered_clients, if_neg hnew]

theorem implicit_join_witness :
    ∃ (udp : UDPServer) (calls : List DataCall),
      (demo_server [demo_client2]).HandleUDPTask_body ((5 : Nat) : Int)
        (demo_rx [104, 101, 108, 108, 111]) demo_client.addr = .ok (udp, calls) ∧
      ({ addr := demo_client.addr } : ClientInfo) ∈ udp.clients_ ∧
      udp.clients_ = (demo_server [demo_client2]).clients_ ++ [{ addr := demo_client.addr }] :=
  implicit_join (demo_server [demo_client2]) demo_client.addr
    (demo_rx [104, 101, 108, 108, 111]) 5 (by decide)
    (by rw [demo_rx_length _ (by decide)]; decide)
    (by rw [demo_rx_head]; intro h; exact absurd h.2 (by decide))

/-- C20, as stated, fails: a 2-byte datagram from an endpoint that is not in
the (empty) registry; processing it registers the sender, so the registry
after processing is not the registry before. -/
theorem short_datagram_counterexample :
    (demo_server []).HandleUDPTask_body 2 (demo_rx [0, 0]) demo_client.addr
      = .ok (demo_server [demo_client], []) ∧
    (demo_server [demo_client]).clients_ ≠ (demo_server []).clients_ := by
  refine ⟨?_, by decide⟩
  obtain ⟨calls, hs, hc, _⟩ := HandleUDPTask_body_cases (demo_server []) 2
    (demo_rx [0, 0]) demo_client.addr (by rw [demo_rx_length _ (by decide)]; decide)
  rw [hc (by decide), if_neg (by decide)] at hs
  exact hs

/-- C20 (amended). Processing an inbound datagram shorter than the 4-byte
header invokes no data callback and removes no endpoint; `HandleMessage`
leaves the server as it is; the registry after the receive step is the
registry before when the sender was already registered, and the registry
before with the sender appended otherwise. -/
theorem short_datagram_discarded (self : UDPServer) (E : sockaddr_in) (rx : List uint8_t)
    (len : Nat) (hshort : len < 4) :
    self.HandleMessage rx len E = .ok (self, []) ∧
    ∃ udp : UDPServer,
      self.HandleUDPTask_body (len : Int) rx E = .ok (udp, []) ∧
      (∀ c ∈ self.clients_, c ∈ udp.clients_) ∧
      (({ addr := E } : ClientInfo) ∈ self.clients_ → udp.clients_ = self.clients_) ∧
      (({ addr := E } : ClientInfo) ∉ self.clients_ →
        udp.clients_ = self.clients_ ++ [{ addr := E }]) := by
  have hm : ∀ s : UDPServer, s.HandleMessage rx len E = .ok (s, []) := by
    intro s
    unfold UDPServer.HandleMessage sizeof_MessageHeader
    rw [if_pos hshort]
  refine ⟨hm self, self.registered E, ?_, ?_, ?_, ?_⟩
  · rw [HandleUDPTask_body_eq]; exact hm _
  · intro c hc
    rw [registered_clients]
    split
    · exact hc
    · exact List.mem_append_left _ hc
  · intro h; rw [registered_clients, if_pos h]
  · intro h; rw [registered_clients, if_neg h]

theorem short_datagram_discarded_witness :
    (demo_server [demo_client]).HandleMessage (demo_rx [0, 0]) 2 demo_client2.addr
      = .ok (demo_server [demo_client], []) ∧
    ∃ udp : UDPServer,
      (demo_server [demo_client]).HandleUDPTask_body ((2 : Nat) : Int) (demo_rx [0, 0])
        demo_client2.addr = .ok (udp, []) ∧
      (∀ c ∈ (demo_server [demo_client]).clients_, c ∈ udp.clients_) ∧
      (({ addr := demo_client2.addr } : ClientInfo) ∈ (demo_server [demo_client]).clients_ →
        udp.clients_ = (demo_server [demo_client]).clients_) ∧
      (({ addr := demo_client2.addr } : ClientInfo) ∉ (demo_server [demo_client]).clients_ →
        udp.clients_ = (demo_server [demo_client]).clients_ ++ [{ addr := demo_client2.addr }]) :=
  short_datagram_discarded (demo_server [demo_client]) demo_client2.addr (demo_rx [0, 0]) 2
    (by decide)

/-- The loop of `SendData` maintains, next to `LoopInv`, every property `P`
that one iteration preserves. -/
theorem SendData_loop_with (ring : List int16_t) (N valid cur : Nat)
    (hlen : ring.length = N) (hN : N ≤ 2147483648) (hcur : cur < N) (hvalid : valid ≤ N)
    (P : SendLoop → Prop)
    (hstep : ∀ (st : SendLoop) (sent : Bool) (udp : UDPServer) (net1 : Net),
      LoopInv (ring_window ring N cur valid) N cur valid st → P st →
      st.samples_sent < valid →
      st.udp_server_.SendToAllClients st.net
        (some (reinterpret_bytes (((ring_window ring N cur valid).drop st.samples_sent).take
          (min MAX_SAMPLES_PER_PACKET (valid - st.samples_sent)))))
        (2 * min MAX_SAMPLES_PER_PACKET (valid - st.samples_sent)) = .ok (sent, udp, net1) →
      P (st.advance ((cur + st.samples_sent) % N)
          (min MAX_SAMPLES_PER_PACKET (valid - st.samples_sent))
          (((ring_window ring N cur valid).drop st.samples_sent).take
            (min MAX_SAMPLES_PER_PACKET (valid - st.samples_sent)))
          sent udp net1)) :
    ∀ (fuel : Nat) (st : SendLoop),
      LoopInv (ring_window ring N cur valid) N cur valid st → P st →
      st.measure valid ≤ fuel →
      ∃ st2, SendData_loop ring N valid cur fuel st = .ok st2 ∧
        LoopInv (ring_window ring N cur valid) N cur valid st2 ∧ P st2 ∧
        st2.samples_sent = valid := by
  intro fuel
  induction fuel with
  | zero =>
    intro st hinv hP hm
    by_cases hss : st.samples_sent < valid
    · exfalso
      have h2 := hinv.failed_le
      unfold SendLoop.measure MAX_SAMPLES_PER_PACKET at hm
      omega
    · refine ⟨st, ?_, hinv, hP, ?_⟩
      · rw [SendData_loop, if_neg hss]
      · have := hinv.sent_le; omega
  | succ fuel ih =>
    intro st hinv hP hm
    by_cases hss : st.samples_sent < valid
    · obtain ⟨sent, udp, net1, hsend, hbody⟩ := SendData_body_ok ring N valid cur st hlen hN
        hcur hvalid hss hinv.failed_le
      obtain ⟨hinv2, hlt⟩ := LoopInv_advance (ring_window ring N cur valid) N cur valid st
        (ring_window_length _ _ _ _) hinv hss sent udp net1
      obtain ⟨st2, h1, h2, h3, h4⟩ := ih _ hinv2 (hstep st sent udp net1 hinv hP hss hsend)
        (by omega)
      refine ⟨st2, ?_, h2, h3, h4⟩
      rw [SendData_loop, if_pos hss]
      simp only [hbody]
      exact h1
    · refine ⟨st, ?_, hinv, hP, ?_⟩
      · rw [SendData_loop, if_neg hss]
      · have := hinv.sent_le; omega

/-- `SendData_run` with an additional loop invariant `P`. -/
theorem SendData_run_with (s : AudioProcessor) (ring : List int16_t) (fuel : Nat) (net : Net)
    (hN : s.ring_buffer_size_ ≤ 2147483648) (hring : s.ring_buffer_ = some ring)
    (hlen : ring.length = s.ring_buffer_size_) (hw : s.write_pos_ < s.ring_buffer_size_)
    (hl : s.last_send_pos_ < s.ring_buffer_size_)
    (hv : 0 < s.valid_data_samples) (hc : s.udp_server_.HasClients = true)
    (hfuel : 3 * ((s.valid_data_samples + (MAX_SAMPLES_PER_PACKET - 1)) / MAX_SAMPLES_PER_PACKET)
      ≤ fuel)
    (P : SendLoop → Prop)
    (hP0 : P { samples_sent := 0, failed_packets := 0, total_packets_sent := 0,
               udp_server_ := s.udp_server_, net := net, broadcasts := [] })
    (hstep : ∀ (st : SendLoop) (sent : Bool) (udp : UDPServer) (net1 : Net),
      LoopInv (ring_window ring s.ring_buffer_size_ s.last_send_pos_ s.valid_data_samples)
        s.ring_buffer_size_ s.last_send_pos_ s.valid_data_samples st → P st →
      st.samples_sent < s.valid_data_samples →
      st.udp_server_.SendToAllClients st.net
        (some (reinterpret_bytes
          (((ring_window ring s.ring_buffer_size_ s.last_send_pos_ s.valid_data_samples).drop
            st.samples_sent).take
              (min MAX_SAMPLES_PER_PACKET (s.valid_data_samples - st.samples_sent)))))
        (2 * min MAX_SAMPLES_PER_PACKET (s.valid_data_samples - st.samples_sent))
          = .ok (sent, udp, net1) →
      P (st.advance ((s.last_send_pos_ + st.samples_sent) % s.ring_buffer_size_)
          (min MAX_SAMPLES_PER_PACKET (s.valid_data_samples - st.samples_sent))
          (((ring_window ring s.ring_buffer_size_ s.last_send_pos_ s.valid_data_samples).drop
            st.samples_sent).take
              (min MAX_SAMPLES_PER_PACKET (s.valid_data_samples - st.samples_sent)))
          sent udp net1)) :
    ∃ st : SendLoop,
      LoopInv (ring_window ring s.ring_buffer_size_ s.last_send_pos_ s.valid_data_samples)
        s.ring_buffer_size_ s.last_send_pos_ s.valid_data_samples st ∧
      P st ∧ st.samples_sent = s.valid_data_samples ∧
      s.SendData fuel net = .ok
        { self := { s with udp_server_ := st.udp_server_, last_send_pos_ := s.write_pos_ },
          net := st.net, broadcasts := st.broadcasts } := by
  obtain ⟨hvlt, hvw⟩ := valid_data_samples_lt s hN hw hl
  obtain ⟨st, h1, h2, hP, h3⟩ := SendData_loop_with ring s.ring_buffer_size_
    s.valid_data_samples s.last_send_pos_ hlen hN hl (by omega) P hstep fuel
    { samples_sent := 0, failed_packets := 0, total_packets_sent := 0,
      udp_server_ := s.udp_server_, net := net, broadcasts := [] }
    (LoopInv_init _ _ _ _ _ _) hP0
    (by unfold SendLoop.measure; simp only [Nat.sub_zero]; omega)
  refine ⟨st, h2, hP, h3, ?_⟩
  unfold AudioProcessor.SendData
  simp only [hring, hv, hc, and_self, if_true, gt_iff_lt, h1]
  unfold AudioProcessor.update_send_position
  simp only [h3, hv, if_true, gt_iff_lt,
    size_t_eq (show s.last_send_pos_ + s.valid_data_samples < 4294967296 by omega), hvw]

theorem Broadcast_offset_le_next (b : Broadcast) : b.offset ≤ b.next_offset := by
  unfold Broadcast.next_offset; split <;> omega

/-- One iteration preserves the bound on the attempts for each slice. -/
theorem SliceAttempts_advance (W : List int16_t) (N cur valid : Nat) (st : SendLoop)
    (hinv : LoopInv W N cur valid st) (hP : SliceAttempts st) (hss : st.samples_sent < valid)
    (rp : Nat) (slice : List int16_t) (sent : Bool) (udp : UDPServer) (net1 : Net) :
    SliceAttempts (st.advance rp (min MAX_SAMPLES_PER_PACKET (valid - st.samples_sent)) slice
      sent udp net1) := by
  obtain ⟨n, hn⟩ : ∃ n, n = min MAX_SAMPLES_PER_PACKET (valid - st.samples_sent) := ⟨_, rfl⟩
  have hn1 : 1 ≤ n := by rw [hn]; unfold MAX_SAMPLES_PER_PACKET; omega
  rw [← hn]
  have hpast : ∀ o, st.samples_sent < o →
      st.broadcasts.countP (fun b => decide (b.offset = o)) = 0 := by
    intro o ho
    rw [List.countP_eq_zero]
    intro b hb
    have h1 := hinv.mono b hb
    have h2 := Broadcast_offset_le_next b
    simp only [decide_eq_true_eq]
    omega
  intro o
  have hPo := hP o
  unfold SendLoop.advance MAX_FAILED_PACKETS
  simp only [List.countP_append, List.countP_cons, List.countP_nil, Nat.zero_add,
    decide_eq_true_eq]
  cases sent
  · by_cases h3 : 3 ≤ st.failed_packets + 1
    · simp only [h3, or_true, if_true, Bool.false_eq_true, if_false]
      by_cases ho : o = st.samples_sent + n
      · rw [if_pos ho, hpast o (by omega), if_neg (by omega)]; omega
      · rw [if_neg ho]
        by_cases ho2 : o = st.samples_sent
        · rw [if_pos ho2] at hPo; rw [if_pos ho2.symm]; omega
        · rw [if_neg ho2] at hPo; rw [if_neg (fun h => ho2 h.symm)]; omega
    · simp only [h3, or_false, Bool.false_eq_true, if_false]
      by_cases ho2 : o = st.samples_sent
      · rw [if_pos ho2] at hPo; rw [if_pos ho2, if_pos ho2.symm]; omega
      · rw [if_neg ho2] at hPo; rw [if_neg ho2, if_neg (fun h => ho2 h.symm)]; omega
  · simp only [true_or, if_true]
    by_cases ho : o = st.samples_sent + n
    · rw [if_pos ho, hpast o (by omega), if_neg (by omega)]; omega
    · rw [if_neg ho]
      by_cases ho2 : o = st.samples_sent
      · rw [if_pos ho2] at hPo; rw [if_pos ho2.symm]; omega
      · rw [if_neg ho2] at hPo; rw [if_neg (fun h => ho2 h.symm)]; omega

/-- C12 (the flush loop never retries indefinitely). On an allocated ring,
for every unsent count and every stream of `sendto` outcomes, the loop of
`SendData` terminates within `3 * ceil(unsent / 480)` iterations (that much
fuel gives a result), making at most 3 broadcast attempts for any one slice
(offset) and at most `3 * ceil(unsent / 480)` broadcast attempts in total. -/
theorem flush_terminates (s : AudioProcessor) (ring : List int16_t) (fuel : Nat) (net : Net)
    (hN : s.ring_buffer_size_ ≤ 2147483648) (hring : s.ring_buffer_ = some ring)
    (hlen : ring.length = s.ring_buffer_size_) (hw : s.write_pos_ < s.ring_buffer_size_)
    (hl : s.last_send_pos_ < s.ring_buffer_size_)
    (hfuel : 3 * ((s.valid_data_samples + (MAX_SAMPLES_PER_PACKET - 1)) / MAX_SAMPLES_PER_PACKET)
      ≤ fuel) :
    ∃ f : Flush, s.SendData fuel net = .ok f ∧
      f.broadcasts.length
        ≤ 3 * ((s.valid_data_samples + (MAX_SAMPLES_PER_PACKET - 1)) / MAX_SAMPLES_PER_PACKET) ∧
      ∀ o : Nat, f.broadcasts.countP (fun b => decide (b.offset = o)) ≤ 3 := by
  by_cases hrun : 0 < s.valid_data_samples ∧ s.udp_server_.HasClients = true
  · obtain ⟨st, hinv, hP, _, hsend⟩ := SendData_run_with s ring fuel net hN hring hlen hw hl
      hrun.1 hrun.2 hfuel SliceAttempts
      (by intro o; simp)
      (fun st sent udp net1 hinv hP hss _ =>
        SliceAttempts_advance _ _ _ _ st hinv hP hss _ _ sent udp net1)
    refine ⟨_, hsend, ?_, ?_⟩
    · have := hinv.attempts
      simp only
      omega
    · intro o
      have := hP o
      simp only
      split at this <;> omega
  · refine ⟨_, SendData_idle s fuel net ?_, ?_, ?_⟩
    · by_cases hv : s.valid_data_samples = 0
      · exact Or.inl hv
      · right
        cases hc : s.udp_server_.HasClients
        · rfl
        · exact absurd ⟨by omega, hc⟩ hrun
    · simp
    · intro o; simp

theorem flush_terminates_witness :
    ∃ f : Flush,
      (demo_written [demo_client, demo_client2, demo_client3]).SendData 3
        (demo_net demo_three_failures) = .ok f ∧
      f.broadcasts.length
        ≤ 3 * (((demo_written [demo_client, demo_client2, demo_client3]).valid_data_samples
            + (MAX_SAMPLES_PER_PACKET - 1)) / MAX_SAMPLES_PER_PACKET) ∧
      ∀ o : Nat, f.broadcasts.countP (fun b => decide (b.offset = o)) ≤ 3 :=
  flush_terminates (demo_written [demo_client, demo_client2, demo_client3])
    [1, 2, 3, 4, 5, 0, 0, 0] 3 (demo_net demo_three_failures)
    (by decide) rfl rfl (by decide) (by decide) (by decide)

theorem fanout_wire_all_sent (ok : Nat → Bool) (frame : List uint8_t)
    (clients : List ClientInfo) :
    ∀ k, fanout_all_ok ok k clients = true →
      ∀ d ∈ fanout_wire ok frame k clients, d.sent = true := by
  induction clients with
  | nil => intro k _ d hd; simp [fanout_wire] at hd
  | cons c rest ih =>
    intro k hall d hd
    simp only [fanout_all_ok, Bool.and_eq_true] at hall
    simp only [fanout_wire, List.mem_cons] at hd
    cases hd with
    | inl h => rw [h]; exact hall.1
    | inr h => exact ih _ hall.2 d h

/-- One iteration extends the segmentation of the datagram log by the
datagrams of its broadcast. -/
theorem Segmented_advance (wire0 : List Datagram) (st : SendLoop) (hP : Segmented wire0 st)
    (rp n : Nat) (slice : List int16_t) (hsl : slice.length = n) (hn1 : 1 ≤ n)
    (hn2 : n ≤ MAX_SAMPLES_PER_PACKET) (sent : Bool) (udp : UDPServer) (net1 : Net)
    (hsend : st.udp_server_.SendToAllClients st.net (some (reinterpret_bytes slice)) (2 * n)
      = .ok (sent, udp, net1)) :
    Segmented wire0 (st.advance rp n slice sent udp net1) := by
  unfold MAX_SAMPLES_PER_PACKET at hn2
  rw [SendToAllClients_spec st.udp_server_ st.net (reinterpret_bytes slice) (2 * n)
    (by rw [reinterpret_bytes_length, hsl]) (by omega) (by omega)] at hsend
  simp only [Except.ok.injEq, Prod.mk.injEq] at hsend
  obtain ⟨hsent, _, hnet⟩ := hsend
  obtain ⟨segs, hlen, hwire, hsegs⟩ := hP
  obtain ⟨seg, hseg⟩ : ∃ seg : List Datagram, seg =
      (if 0 ≤ st.udp_server_.socket_fd_ then
        fanout_wire (st.udp_server_.send_ok st.net)
          (data_frame (reinterpret_bytes slice) (2 * n)) st.net.wire.length
          st.udp_server_.clients_
       else []) := ⟨_, rfl⟩
  rw [← hseg] at hnet
  have hall : sent = true → ∀ d ∈ seg, d.sent = true := by
    intro hs d hd
    rw [hseg] at hd
    split at hd
    · exact fanout_wire_all_sent _ _ _ _ (by rw [hsent]; exact hs) d hd
    · cases hd
  have hbytes : ∀ d ∈ seg, d.bytes = data_frame (reinterpret_bytes slice) (2 * n) := by
    intro d hd
    rw [hseg] at hd
    split at hd
    · exact fanout_wire_bytes _ _ _ _ d hd
    · cases hd
  refine ⟨segs ++ [seg], ?_, ?_, ?_⟩
  · simp [SendLoop.advance, hlen]
  · simp only [SendLoop.advance, ← hnet, hwire, List.flatten_append, List.flatten_cons,
      List.flatten_nil, List.append_nil, List.append_assoc]
  · intro i sg b hsg hb
    simp only [SendLoop.advance] at hb
    by_cases hi : i < segs.length
    · rw [List.getElem?_append_left hi] at hsg
      rw [List.getElem?_append_left (by omega)] at hb
      exact hsegs i sg b hsg hb
    · rw [List.getElem?_append_right (by omega)] at hsg
      rw [List.getElem?_append_right (by omega)] at hb
      have hi3 : i - segs.length = 0 := by
        by_contra hne
        rw [List.getElem?_eq_none (by simp; omega)] at hsg
        cases hsg
      rw [hi3] at hsg
      rw [← hlen, hi3] at hb
      simp only [List.getElem?_cons_zero, Option.some.injEq] at hsg hb
      rw [← hsg, ← hb]
      simp only
      refine ⟨hall, by rw [hsl]; exact hbytes, ?_⟩
      intro hs
      rw [hs]
      simp

/-- What becomes of a failed broadcast in a completed loop of `SendData`:
`failed_packets` counts the consecutive failures; below 3 the next broadcast
is the same slice, from 3 on the slice is accounted and every later broadcast
starts beyond it. -/
theorem failed_broadcast_fate (W : List int16_t) (N cur valid : Nat) (st : SendLoop)
    (hinv : LoopInv W N cur valid st) (hss : st.samples_sent = valid)
    (i : Nat) (b : Broadcast) (hb : st.broadcasts[i]? = some b) (hres : b.result = false) :
    b.failed_packets = consecutive_failures (st.broadcasts.take (i + 1)) ∧
    (b.failed_packets < MAX_FAILED_PACKETS →
      ∃ b2, st.broadcasts[i + 1]? = some b2 ∧ b2.offset = b.offset ∧
        b2.read_pos = b.read_pos ∧ b2.send_buffer = b.send_buffer) ∧
    (MAX_FAILED_PACKETS ≤ b.failed_packets →
      (∀ j b2, i < j → st.broadcasts[j]? = some b2 →
        b.offset + b.send_buffer.length ≤ b2.offset) ∧
      b.send_buffer ∈ accounted_slices st.broadcasts) := by
  have hmem : b ∈ st.broadcasts := List.getElem?_mem hb
  refine ⟨hinv.counted i b hb, ?_, ?_⟩
  · intro hlt
    have hna : b.accounted = false := by
      unfold Broadcast.accounted; rw [hres]; simp; omega
    have hch := hinv.chain i b hb
    have hnext : b.next_offset = b.offset := by
      unfold Broadcast.next_offset; rw [hna]; simp
    rw [hnext] at hch
    cases hnx : st.broadcasts[i + 1]? with
    | none =>
      rw [hnx] at hch
      simp only [Option.map_none', Option.getD_none] at hch
      have := (hinv.slices b hmem).1
      omega
    | some b2 =>
      rw [hnx] at hch
      simp only [Option.map_some', Option.getD_some] at hch
      obtain ⟨_, hp, hbuf⟩ := hinv.slices b hmem
      obtain ⟨_, hp2, hbuf2⟩ := hinv.slices b2 (List.getElem?_mem hnx)
      exact ⟨b2, rfl, hch, by rw [hp, hp2, hch], by rw [hbuf, hbuf2, hch]⟩
  · intro hge
    have hac : b.accounted = true := by
      unfold Broadcast.accounted; simp; right; exact hge
    have hnext : b.next_offset = b.offset + b.send_buffer.length := by
      unfold Broadcast.next_offset; rw [hac]; simp
    refine ⟨?_, ?_⟩
    · intro j b2 hij hb2
      obtain ⟨hi, hbi⟩ := List.getElem?_eq_some.mp hb
      obtain ⟨hj, hbj⟩ := List.getElem?_eq_some.mp hb2
      have := List.pairwise_iff_getElem.mp hinv.ordered i j hi hj hij
      rw [hbi, hbj, hnext] at this
      exact this
    · unfold accounted_slices
      exact List.mem_map.mpr ⟨b, List.mem_filter.mpr ⟨hmem, hac⟩, rfl⟩

/-- C11, as stated, fails: two endpoints registered, the send to the first
fails and the send to the second succeeds. The broadcast is recorded as failed
with `failed_packets = 1`, and the same slice is broadcast again (to the
surviving endpoint, which receives it twice). -/
theorem partial_success_counterexample :
    (match (demo_written [demo_client, demo_client2]).SendData 3 (demo_net [false, true]) with
      | .ok f => some (f.broadcasts, f.net.wire.map (fun d => (d.dest, d.sent)))
      | .error _ => none)
    = some
      ([{ offset := 0, read_pos := 0, send_buffer := [1, 2, 3, 4, 5], result := false,
          failed_packets := 1 },
        { offset := 0, read_pos := 0, send_buffer := [1, 2, 3, 4, 5], result := true,
          failed_packets := 0 }],
       [(demo_client.addr, false), (demo_client2.addr, true), (demo_client2.addr, true)]) := by
  decide!

/-- C11 (amended). When a broadcast of a slice fails for some registered
endpoint, whether or not it succeeds for another, `SendToAllClients` returns
false and `SendData` treats the slice as a failed packet: the failure counter
is incremented (it is the number of consecutive failed broadcasts, at least
1), and the slice is broadcast again while the counter is below 3 and skipped
once it has reached 3. -/
theorem partial_success_is_failure (s : AudioProcessor) (ring : List int16_t) (fuel : Nat)
    (net : Net)
    (hN : s.ring_buffer_size_ ≤ 2147483648) (hring : s.ring_buffer_ = some ring)
    (hlen : ring.length = s.ring_buffer_size_) (hw : s.write_pos_ < s.ring_buffer_size_)
    (hl : s.last_send_pos_ < s.ring_buffer_size_)
    (hfuel : 3 * ((s.valid_data_samples + (MAX_SAMPLES_PER_PACKET - 1)) / MAX_SAMPLES_PER_PACKET)
      ≤ fuel) :
    ∃ (f : Flush) (segs : List (List Datagram)),
      s.SendData fuel net = .ok f ∧
      segs.length = f.broadcasts.length ∧ f.net.wire = net.wire ++ segs.flatten ∧
      ∀ (i : Nat) (seg : List Datagram) (b : Broadcast),
        segs[i]? = some seg → f.broadcasts[i]? = some b →
        (∀ d ∈ seg, d.bytes
          = data_frame (reinterpret_bytes b.send_buffer) (2 * b.send_buffer.length)) ∧
        ((∃ d ∈ seg, d.sent = false) →
          b.result = false ∧ 1 ≤ b.failed_packets ∧
          b.failed_packets = consecutive_failures (f.broadcasts.take (i + 1)) ∧
          (b.failed_packets < MAX_FAILED_PACKETS →
            ∃ b2, f.broadcasts[i + 1]? = some b2 ∧ b2.offset = b.offset ∧
              b2.read_pos = b.read_pos ∧ b2.send_buffer = b.send_buffer) ∧
          (MAX_FAILED_PACKETS ≤ b.failed_packets →
            (∀ j b2, i < j → f.broadcasts[j]? = some b2 →
              b.offset + b.send_buffer.length ≤ b2.offset) ∧
            b.send_buffer ∈ accounted_slices f.broadcasts)) := by
  by_cases hrun : 0 < s.valid_data_samples ∧ s.udp_server_.HasClients = true
  · obtain ⟨st, hinv, hP, hss, hsend⟩ := SendData_run_with s ring fuel net hN hring hlen hw hl
      hrun.1 hrun.2 hfuel (Segmented net.wire)
      ⟨[], rfl, by simp, by intro i seg b h; simp at h⟩
      (fun st sent udp net1 hinv hP hss hsend =>
        Segmented_advance net.wire st hP _ _ _
          (by
            rw [List.length_take, List.length_drop, ring_window_length]
            unfold MAX_SAMPLES_PER_PACKET; omega)
          (by unfold MAX_SAMPLES_PER_PACKET; omega)
          (by unfold MAX_SAMPLES_PER_PACKET; omega) sent udp net1 hsend)
    obtain ⟨segs, hl1, hl2, hsegs⟩ := hP
    refine ⟨_, segs, hsend, hl1, hl2, ?_⟩
    simp only
    intro i seg b hseg hb
    obtain ⟨h1, h2, h3⟩ := hsegs i seg b hseg hb
    refine ⟨h2, ?_⟩
    rintro ⟨d, hd, hdf⟩
    have hres : b.result = false := by
      cases hr : b.result with
      | false => rfl
      | true => rw [h1 hr d hd] at hdf; cases hdf
    obtain ⟨f1, f2, f3⟩ := failed_broadcast_fate _ _ _ _ st hinv hss i b hb hres
    exact ⟨hres, h3 hres, f1, f2, f3⟩
  · refine ⟨_, [], SendData_idle s fuel net ?_, rfl, by simp, ?_⟩
    · by_cases hv : s.valid_data_samples = 0
      · exact Or.inl hv
      · right
        cases hc : s.udp_server_.HasClients
        · rfl
        · exact absurd ⟨by omega, hc⟩ hrun
    · intro i seg b h; simp at h

theorem partial_success_is_failure_witness :
    ∃ (f : Flush) (segs : List (List Datagram)),
      (demo_written [demo_client, demo_client2]).SendData 3 (demo_net [false, true]) = .ok f ∧
      segs.length = f.broadcasts.length ∧
      f.net.wire = (demo_net [false, true]).wire ++ segs.flatten ∧
      ∀ (i : Nat) (seg : List Datagram) (b : Broadcast),
        segs[i]? = some seg → f.broadcasts[i]? = some b →
        (∀ d ∈ seg, d.bytes
          = data_frame (reinterpret_bytes b.send_buffer) (2 * b.send_buffer.length)) ∧
        ((∃ d ∈ seg, d.sent = false) →
          b.result = false ∧ 1 ≤ b.failed_packets ∧
          b.failed_packets = consecutive_failures (f.broadcasts.take (i + 1)) ∧
          (b.failed_packets < MAX_FAILED_PACKETS →
            ∃ b2, f.broadcasts[i + 1]? = some b2 ∧ b2.offset = b.offset ∧
              b2.read_pos = b.read_pos ∧ b2.send_buffer = b.send_buffer) ∧
          (MAX_FAILED_PACKETS ≤ b.failed_packets →
            (∀ j b2, i < j → f.broadcasts[j]? = some b2 →
              b.offset + b.send_buffer.length ≤ b2.offset) ∧
            b.send_buffer ∈ accounted_slices f.broadcasts)) :=
  partial_success_is_failure (demo_written [demo_client, demo_client2])
    [1, 2, 3, 4, 5, 0, 0, 0] 3 (demo_net [false, true])
    (by decide) rfl rfl (by decide) (by decide) (by decide)

/-- C22 (a flush always drains). For every `SendData` invocation that finds
unsent data and a non-empty registry (allocated ring, enough fuel), whatever
the `sendto` outcomes, the loop exits with `samples_sent` equal to
`valid_data_samples`: the update of the send position takes the
`samples_sent > 0` branch (never "No data sent") with
`samples_sent < valid_data_samples` false (never "Only sent ... out of ..."),
`last_send_pos_` becomes the `write_pos_` read at the start, and no sample
is left pending: the unsent count afterwards is 0 and the unsent window empty. -/
theorem flush_always_drains (s : AudioProcessor) (ring : List int16_t) (fuel : Nat)
    (net : Net)
    (hN : s.ring_buffer_size_ ≤ 2147483648) (hring : s.ring_buffer_ = some ring)
    (hlen : ring.length = s.ring_buffer_size_) (hw : s.write_pos_ < s.ring_buffer_size_)
    (hl : s.last_send_pos_ < s.ring_buffer_size_)
    (hv : 0 < s.valid_data_samples) (hc : s.udp_server_.HasClients = true)
    (hfuel : 3 * ((s.valid_data_samples + (MAX_SAMPLES_PER_PACKET - 1)) / MAX_SAMPLES_PER_PACKET)
      ≤ fuel) :
    ∃ (st : SendLoop) (f : Flush),
      SendData_loop ring s.ring_buffer_size_ s.valid_data_samples s.last_send_pos_ fuel
        { samples_sent := 0, failed_packets := 0, total_packets_sent := 0,
          udp_server_ := s.udp_server_, net := net, broadcasts := [] } = .ok st ∧
      st.samples_sent = s.valid_data_samples ∧
      0 < st.samples_sent ∧ ¬ (st.samples_sent < s.valid_data_samples) ∧
      s.SendData fuel net = .ok f ∧
      f.broadcasts = st.broadcasts ∧
      f.self.last_send_pos_ = s.write_pos_ ∧ f.self.write_pos_ = s.write_pos_ ∧
      f.self.valid_data_samples = 0 ∧ f.self.unsent_window = .ok [] ∧
      accounted_samples f.broadcasts = s.valid_data_samples := by
  obtain ⟨hvlt, hvw⟩ := valid_data_samples_lt s hN hw hl
  obtain ⟨st, h1, h2, h3⟩ := SendData_loop_ok ring s.ring_buffer_size_ s.valid_data_samples
    s.last_send_pos_ hlen hN hl (by omega) fuel
    { samples_sent := 0, failed_packets := 0, total_packets_sent := 0,
      udp_server_ := s.udp_server_, net := net, broadcasts := [] }
    (LoopInv_init _ _ _ _ _ _)
    (by unfold SendLoop.measure; simp only [Nat.sub_zero]; omega)
  obtain ⟨t, ht⟩ : ∃ t : AudioProcessor,
      t = { s with udp_server_ := st.udp_server_, last_send_pos_ := s.write_pos_ } := ⟨_, rfl⟩
  have hsend : s.SendData fuel net
      = .ok { self := t, net := st.net, broadcasts := st.broadcasts } := by
    rw [ht]
    unfold AudioProcessor.SendData
    simp only [hring, hv, hc, and_self, if_true, gt_iff_lt, h1]
    unfold AudioProcessor.update_send_position
    simp only [h3, hv, if_true, gt_iff_lt,
      size_t_eq (show s.last_send_pos_ + s.valid_data_samples < 4294967296 by omega), hvw]
  have ht1 : t.ring_buffer_size_ = s.ring_buffer_size_ := by rw [ht]
  have ht2 : t.write_pos_ = s.write_pos_ := by rw [ht]
  have ht3 : t.last_send_pos_ = s.write_pos_ := by rw [ht]
  have ht4 : t.ring_buffer_ = s.ring_buffer_ := by rw [ht]
  have hv0 : t.valid_data_samples = 0 := by
    rw [valid_data_samples_eq t (by omega) (by omega) (by omega), ht2, ht3]; simp
  refine ⟨st, _, h1, h3, by omega, by omega, hsend, rfl, ht3, ht2, hv0, ?_, ?_⟩
  · simp only
    rw [unsent_window_ok t ring (by omega) (by rw [ht4, hring]) (by omega) (by omega) (by omega),
      hv0]
    rfl
  · simp only
    rw [accounted_samples_of_inv _ _ _ _ st (ring_window_length _ _ _ _) h2, h3]

theorem flush_always_drains_witness :
    ∃ (st : SendLoop) (f : Flush),
      SendData_loop [1, 2, 3, 4, 5, 0, 0, 0]
        (demo_written [demo_client, demo_client2, demo_client3]).ring_buffer_size_
        (demo_written [demo_client, demo_client2, demo_client3]).valid_data_samples
        (demo_written [demo_client, demo_client2, demo_client3]).last_send_pos_ 3
        { samples_sent := 0, failed_packets := 0, total_packets_sent := 0,
          udp_server_ := (demo_written [demo_client, demo_client2, demo_client3]).udp_server_,
          net := demo_net demo_three_failures, broadcasts := [] } = .ok st ∧
      st.samples_sent = (demo_written [demo_client, demo_client2, demo_client3]).valid_data_samples ∧
      0 < st.samples_sent ∧
      ¬ (st.samples_sent
          < (demo_written [demo_client, demo_client2, demo_client3]).valid_data_samples) ∧
      (demo_written [demo_client, demo_client2, demo_client3]).SendData 3
        (demo_net demo_three_failures) = .ok f ∧
      f.broadcasts = st.broadcasts ∧
      f.self.last_send_pos_
        = (demo_written [demo_client, demo_client2, demo_client3]).write_pos_ ∧
      f.self.write_pos_ = (demo_written [demo_client, demo_client2, demo_client3]).write_pos_ ∧
      f.self.valid_data_samples = 0 ∧ f.self.unsent_window = .ok [] ∧
      accounted_samples f.broadcasts
        = (demo_written [demo_client, demo_client2, demo_client3]).valid_data_samples :=
  flush_always_drains (demo_written [demo_client, demo_client2, demo_client3])
    [1, 2, 3, 4, 5, 0, 0, 0] 3 (demo_net demo_three_failures)
    (by decide) rfl rfl (by decide) (by decide) (by decide) rfl (by decide)

/-- C26 (exact registration rule). For every duplicate-free registry and every
received datagram of length `len ≥ 0` (within the receive buffer) from endpoint
`E`, one pass of the receive step leaves `E` in the registry if and only if
it is not the case that `len ≥ 4` and the type byte is 1 (DISCONNECT). In
particular a datagram shorter than the header registers its sender, and so
does one with a type byte other than 0 and 1, such as the reference client's
5-byte `"hello"`; every other endpoint's registration is unchanged and the
registry stays duplicate-free. -/
theorem registration_rule (self : UDPServer) (E : sockaddr_in) (rx : List uint8_t)
    (len : Nat) (hnd : self.clients_.Nodup) (hlen : len ≤ rx.length) :
    ∃ (udp : UDPServer) (calls : List DataCall),
      self.HandleUDPTask_body (len : Int) rx E = .ok (udp, calls) ∧
      (({ addr := E } : ClientInfo) ∈ udp.clients_
        ↔ ¬ (4 ≤ len ∧ rx[0]? = some MessageType.DISCONNECT.toByte)) ∧
      (len < 4 → ({ addr := E } : ClientInfo) ∈ udp.clients_) ∧
      (rx[0]? ≠ some MessageType.DATA.toByte → rx[0]? ≠ some MessageType.DISCONNECT.toByte →
        ({ addr := E } : ClientInfo) ∈ udp.clients_ ∧ calls = []) ∧
      (len = hello_msg.length → rx.take len = hello_msg →
        ({ addr := E } : ClientInfo) ∈ udp.clients_ ∧ calls = []) ∧
      (∀ c : ClientInfo, c.addr ≠ E → (c ∈ udp.clients_ ↔ c ∈ self.clients_)) ∧
      udp.clients_.Nodup := by
  obtain ⟨calls, hs, _, hc0⟩ := HandleUDPTask_body_cases self len rx E hlen
  have hother : ∀ c : ClientInfo, c.addr ≠ E →
      (c ∈ (self.registered E).clients_ ↔ c ∈ self.clients_) := by
    intro c hc
    rw [registered_clients]
    split
    · exact Iff.rfl
    · rw [List.mem_append, List.mem_singleton]
      constructor
      · intro h
        cases h with
        | inl h => exact h
        | inr h => exact absurd (by rw [h]) hc
      · intro h; exact Or.inl h
  have hreg := registered_nodup self E hnd
  by_cases hd : 4 ≤ len ∧ rx[0]? = some 1
  · rw [if_pos hd] at hs
    have hfil : ((self.registered E).RemoveClient E).clients_
        = (self.registered E).clients_.filter (fun c => decide (c.addr ≠ E)) := by
      unfold UDPServer.RemoveClient
      exact RemoveClient_erase_eq_filter _ _ hreg
    have hnot : ({ addr := E } : ClientInfo) ∉ ((self.registered E).RemoveClient E).clients_ := by
      rw [hfil, List.mem_filter]
      intro h
      simp at h
    have hty : rx[0]? = some MessageType.DISCONNECT.toByte := hd.2
    refine ⟨_, calls, hs, ?_, ?_, ?_, ?_, ?_, ?_⟩
    · constructor
      · intro h; exact absurd h hnot
      · intro h; exact absurd ⟨hd.1, hty⟩ h
    · intro h; omega
    · intro _ h; exact absurd hty h
    · intro h5 htake
      exfalso
      have h0 : (rx.take len)[0]? = rx[0]? := by
        rw [List.getElem?_take]; simp; omega
      rw [htake, hd.2] at h0
      exact absurd h0 (by decide)
    · intro c hc
      rw [hfil, List.mem_filter, hother c hc]
      simp [hc]
    · rw [hfil]; exact hreg.filter _
  · rw [if_neg hd] at hs
    have hin := registered_mem self E
    refine ⟨_, calls, hs, ?_, ?_, ?_, ?_, hother, hreg⟩
    · constructor
      · intro _; exact hd
      · intro _; exact hin
    · intro _; exact hin
    · intro h0 _; exact ⟨hin, hc0 h0⟩
    · intro h5 htake
      refine ⟨hin, hc0 ?_⟩
      have h0 : (rx.take len)[0]? = rx[0]? := by
        have : 0 < len := by rw [h5]; decide
        rw [List.getElem?_take]; simp; omega
      rw [htake] at h0
      rw [← h0]; decide

theorem registration_rule_witness :
    ∃ (udp : UDPServer) (calls : List DataCall),
      (demo_server [demo_client, demo_client2]).HandleUDPTask_body ((5 : Nat) : Int)
        (demo_rx hello_msg) demo_client3.addr = .ok (udp, calls) ∧
      (({ addr := demo_client3.addr } : ClientInfo) ∈ udp.clients_
        ↔ ¬ (4 ≤ 5 ∧ (demo_rx hello_msg)[0]? = some MessageType.DISCONNECT.toByte)) ∧
      (5 < 4 → ({ addr := demo_client3.addr } : ClientInfo) ∈ udp.clients_) ∧
      ((demo_rx hello_msg)[0]? ≠ some MessageType.DATA.toByte →
        (demo_rx hello_msg)[0]? ≠ some MessageType.DISCONNECT.toByte →
        ({ addr := demo_client3.addr } : ClientInfo) ∈ udp.clients_ ∧ calls = []) ∧
      (5 = hello_msg.length → (demo_rx hello_msg).take 5 = hello_msg →
        ({ addr := demo_client3.addr } : ClientInfo) ∈ udp.clients_ ∧ calls = []) ∧
      (∀ c : ClientInfo, c.addr ≠ demo_client3.addr →
        (c ∈ udp.clients_ ↔ c ∈ (demo_server [demo_client, demo_client2]).clients_)) ∧
      udp.clients_.Nodup :=
  registration_rule (demo_server [demo_client, demo_client2]) demo_client3.addr
    (demo_rx hello_msg) 5 (by decide) (by rw [demo_rx_length _ (by decide)]; decide)

/-- The counter recorded with the first broadcast of an invocation. -/
theorem failed_packets_first (W : List int16_t) (N cur valid : Nat) (st : SendLoop)
    (hinv : LoopInv W N cur valid st) (b : Broadcast) (hb : st.broadcasts[0]? = some b) :
    b.failed_packets = if b.result = true then 0 else 1 := by
  have h := hinv.counted 0 b hb
  rw [List.take_succ, hb] at h
  simp only [List.take_zero, Option.toList_some] at h
  rw [consecutive_failures_snoc] at h
  rw [h]
  split
  · rfl
  · rfl

/-- The counter recorded with a broadcast, from the one recorded with the
broadcast before it: 0 after a success, one more after a failure. -/
theorem failed_packets_succ (W : List int16_t) (N cur valid : Nat) (st : SendLoop)
    (hinv : LoopInv W N cur valid st) (i : Nat) (b b2 : Broadcast)
    (hb : st.broadcasts[i]? = some b) (hb2 : st.broadcasts[i + 1]? = some b2) :
    b2.failed_packets = if b2.result = true then 0 else b.failed_packets + 1 := by
  have h := hinv.counted (i + 1) b2 hb2
  rw [List.take_succ, hb2] at h
  simp only [Option.toList_some] at h
  rw [consecutive_failures_snoc, ← hinv.counted i b hb] at h
  exact h

/-- Over a run of failed broadcasts the counter grows by one per broadcast. -/
theorem failed_packets_streak (W : List int16_t) (N cur valid : Nat) (st : SendLoop)
    (hinv : LoopInv W N cur valid st) (i : Nat) (b : Broadcast)
    (hb : st.broadcasts[i]? = some b) :
    ∀ (d : Nat) (bj : Broadcast), st.broadcasts[i + d]? = some bj →
      (∀ k bk, i < k → k ≤ i + d → st.broadcasts[k]? = some bk → bk.result = false) →
      bj.failed_packets = b.failed_packets + d := by
  intro d
  induction d with
  | zero =>
    intro bj hbj _
    rw [Nat.add_zero, hb] at hbj
    rw [← Option.some.inj hbj]; rfl
  | succ d ih =>
    intro bj hbj hall
    obtain ⟨hlt, _⟩ := List.getElem?_eq_some.mp hbj
    have hprev : st.broadcasts[i + d]? = some (st.broadcasts[i + d]) :=
      List.getElem?_eq_getElem (by omega)
    have h1 := ih _ hprev (fun k bk h1 h2 h3 => hall k bk h1 (by omega) h3)
    have h2 := failed_packets_succ W N cur valid st hinv (i + d) _ bj hprev hbj
    rw [hall (i + d + 1) bj (by omega) (by omega) hbj] at h2
    simp only [Bool.false_eq_true, if_false] at h2
    omega

/-- Every slice handed to a broadcast holds at least one sample. -/
theorem Broadcast_slice_pos (W : List int16_t) (N cur valid : Nat) (st : SendLoop)
    (hW : W.length = valid) (hinv : LoopInv W N cur valid st) (b : Broadcast)
    (hb : b ∈ st.broadcasts) :
    b.send_buffer.length = min MAX_SAMPLES_PER_PACKET (valid - b.offset) ∧
    0 < b.send_buffer.length := by
  obtain ⟨h1, _, h3⟩ := hinv.slices b hb
  have : b.send_buffer.length = min MAX_SAMPLES_PER_PACKET (valid - b.offset) := by
    rw [h3, List.length_take, List.length_drop, hW]
    omega
  refine ⟨this, ?_⟩
  rw [this]
  unfold MAX_SAMPLES_PER_PACKET
  omega

/-- Offsets never decrease along the record of broadcasts. -/
theorem Broadcast_offset_mono (W : List int16_t) (N cur valid : Nat) (st : SendLoop)
    (hinv : LoopInv W N cur valid st) (m j : Nat) (bm bj : Broadcast) (hmj : m ≤ j)
    (hbm : st.broadcasts[m]? = some bm) (hbj : st.broadcasts[j]? = some bj) :
    bm.offset ≤ bj.offset := by
  by_cases h : m = j
  · subst h
    rw [hbm] at hbj
    rw [Option.some.inj hbj]
  · obtain ⟨hm, hm2⟩ := List.getElem?_eq_some.mp hbm
    obtain ⟨hj, hj2⟩ := List.getElem?_eq_some.mp hbj
    have := List.pairwise_iff_getElem.mp hinv.ordered m j hm hj (by omega)
    rw [hm2, hj2] at this
    have := Broadcast_offset_le_next bm
    omega

/-- C25 (the failure counter is not reset by a skip). In every `SendData`
invocation the counter recorded with a broadcast is 0 exactly when that
broadcast succeeded, and after a failed broadcast it is one more than the
counter of the broadcast before, whether or not that one made the loop skip
its slice. Hence once a broadcast has brought the counter to 3 (its slice is
skipped), every broadcast that follows before the next success fails with a
counter of at least 3: its slice is skipped at once, it is the only broadcast
made for that slice (no retry), and the slice is accounted for as sent. -/
theorem skip_keeps_counter (s : AudioProcessor) (ring : List int16_t) (fuel : Nat) (net : Net)
    (hN : s.ring_buffer_size_ ≤ 2147483648) (hring : s.ring_buffer_ = some ring)
    (hlen : ring.length = s.ring_buffer_size_) (hw : s.write_pos_ < s.ring_buffer_size_)
    (hl : s.last_send_pos_ < s.ring_buffer_size_)
    (hfuel : 3 * ((s.valid_data_samples + (MAX_SAMPLES_PER_PACKET - 1)) / MAX_SAMPLES_PER_PACKET)
      ≤ fuel) :
    ∃ f : Flush, s.SendData fuel net = .ok f ∧
      (∀ (i : Nat) (b : Broadcast), f.broadcasts[i]? = some b →
        (b.failed_packets = 0 ↔ b.result = true)) ∧
      (∀ (i : Nat) (b b2 : Broadcast), f.broadcasts[i]? = some b →
        f.broadcasts[i + 1]? = some b2 →
        b2.result = false → b2.failed_packets = b.failed_packets + 1) ∧
      (∀ (i j : Nat) (b bj : Broadcast), i < j → f.broadcasts[i]? = some b →
        MAX_FAILED_PACKETS ≤ b.failed_packets →
        f.broadcasts[j]? = some bj →
        (∀ (k : Nat) (bk : Broadcast), i < k → k ≤ j → f.broadcasts[k]? = some bk →
          bk.result = false) →
        bj.failed_packets = b.failed_packets + (j - i) ∧
        MAX_FAILED_PACKETS ≤ bj.failed_packets ∧
        bj.accounted = true ∧
        (∀ (m : Nat) (bm : Broadcast), m ≠ j → f.broadcasts[m]? = some bm →
          bm.offset ≠ bj.offset) ∧
        (∀ (m : Nat) (bm : Broadcast), j < m → f.broadcasts[m]? = some bm →
          bj.offset + bj.send_buffer.length ≤ bm.offset) ∧
        bj.send_buffer ∈ accounted_slices f.broadcasts) := by
  by_cases hrun : 0 < s.valid_data_samples ∧ s.udp_server_.HasClients = true
  · obtain ⟨st, hinv, hss, hsend⟩ := SendData_run s ring fuel net hN hring hlen hw hl hrun.1
      hrun.2 hfuel
    have hW := ring_window_length ring s.ring_buffer_size_ s.last_send_pos_ s.valid_data_samples
    refine ⟨_, hsend, ?_, ?_, ?_⟩
    · simp only
      intro i b hb
      cases i with
      | zero =>
        have h := failed_packets_first _ _ _ _ st hinv b hb
        rw [h]
        cases b.result <;> simp
      | succ i =>
        obtain ⟨hlt, _⟩ := List.getElem?_eq_some.mp hb
        have hprev : st.broadcasts[i]? = some (st.broadcasts[i]) :=
          List.getElem?_eq_getElem (by omega)
        have h := failed_packets_succ _ _ _ _ st hinv i _ b hprev hb
        rw [h]
        cases b.result <;> simp
    · simp only
      intro i b b2 hb hb2 hres
      have h := failed_packets_succ _ _ _ _ st hinv i b b2 hb hb2
      rw [hres] at h
      simpa using h
    · simp only
      intro i j b bj hij hb hge hbj hall
      have hstreak := failed_packets_streak _ _ _ _ st hinv i b hb
      have hfp : bj.failed_packets = b.failed_packets + (j - i) :=
        hstreak (j - i) bj (by rw [show i + (j - i) = j by omega]; exact hbj)
          (fun k bk h1 h2 h3 => hall k bk h1 (by omega) h3)
      have hres : bj.result = false := hall j bj hij (Nat.le_refl _) hbj
      obtain ⟨_, _, hskip⟩ := failed_broadcast_fate _ _ _ _ st hinv hss j bj hbj hres
      obtain ⟨hafter, hmemacc⟩ := hskip (by omega)
      have hac : bj.accounted = true := by
        unfold Broadcast.accounted; simp; right; omega
      obtain ⟨hjlt, _⟩ := List.getElem?_eq_some.mp hbj
      have hprev : st.broadcasts[j - 1]? = some (st.broadcasts[j - 1]) :=
        List.getElem?_eq_getElem (by omega)
      obtain ⟨bp, hbp⟩ : ∃ bp, bp = st.broadcasts[j - 1] := ⟨_, rfl⟩
      rw [← hbp] at hprev
      have hfpp : bp.failed_packets = b.failed_packets + (j - 1 - i) :=
        hstreak (j - 1 - i) bp (by rw [show i + (j - 1 - i) = j - 1 by omega]; exact hprev)
          (fun k bk h1 h2 h3 => hall k bk h1 (by omega) h3)
      have hpac : bp.accounted = true := by
        unfold Broadcast.accounted; simp; right; omega
      have hpnext : bp.next_offset = bp.offset + bp.send_buffer.length := by
        unfold Broadcast.next_offset; rw [hpac]; simp
      have hppos := (Broadcast_slice_pos _ _ _ _ st hW hinv bp (List.getElem?_mem hprev)).2
      have hjpos := (Broadcast_slice_pos _ _ _ _ st hW hinv bj (List.getElem?_mem hbj)).2
      have hpj : bp.offset + bp.send_buffer.length ≤ bj.offset := by
        have hch := hinv.chain (j - 1) bp hprev
        rw [show j - 1 + 1 = j by omega, hbj] at hch
        simp only [Option.map_some', Option.getD_some] at hch
        omega
      refine ⟨hfp, by omega, hac, ?_, hafter, hmemacc⟩
      intro m bm hmj hbm
      by_cases hlt : m < j
      · have := Broadcast_offset_mono _ _ _ _ st hinv m (j - 1) bm bp (by omega) hbm hprev
        omega
      · have := hafter m bm (by omega) hbm
        omega
  · refine ⟨_, SendData_idle s fuel net ?_, ?_, ?_, ?_⟩
    · by_cases hv : s.valid_data_samples = 0
      · exact Or.inl hv
      · right
        cases hc : s.udp_server_.HasClients
        · rfl
        · exact absurd ⟨by omega, hc⟩ hrun
    · intro i b hb; simp at hb
    · intro i b b2 hb; simp at hb
    · intro i j b bj _ hb; simp at hb

theorem skip_keeps_counter_witness :
    ∃ f : Flush, demo_two_slices.SendData 6 (demo_net demo_staggered_failures) = .ok f ∧
      (∀ (i : Nat) (b : Broadcast), f.broadcasts[i]? = some b →
        (b.failed_packets = 0 ↔ b.result = true)) ∧
      (∀ (i : Nat) (b b2 : Broadcast), f.broadcasts[i]? = some b →
        f.broadcasts[i + 1]? = some b2 →
        b2.result = false → b2.failed_packets = b.failed_packets + 1) ∧
      (∀ (i j : Nat) (b bj : Broadcast), i < j → f.broadcasts[i]? = some b →
        MAX_FAILED_PACKETS ≤ b.failed_packets →
        f.broadcasts[j]? = some bj →
        (∀ (k : Nat) (bk : Broadcast), i < k → k ≤ j → f.broadcasts[k]? = some bk →
          bk.result = false) →
        bj.failed_packets = b.failed_packets + (j - i) ∧
        MAX_FAILED_PACKETS ≤ bj.failed_packets ∧
        bj.accounted = true ∧
        (∀ (m : Nat) (bm : Broadcast), m ≠ j → f.broadcasts[m]? = some bm →
          bm.offset ≠ bj.offset) ∧
        (∀ (m : Nat) (bm : Broadcast), j < m → f.broadcasts[m]? = some bm →
          bj.offset + bj.send_buffer.length ≤ bm.offset) ∧
        bj.send_buffer ∈ accounted_slices f.broadcasts) :=
  skip_keeps_counter demo_two_slices (List.replicate 512 5) 6
    (demo_net demo_staggered_failures) (by decide) rfl (List.length_replicate _ _)
    (by decide) (by decide) (by decide)

/-- The scenario of two slices under staggered failures: the first slice is
skipped after three failed broadcasts, and the second, whose first broadcast
fails with the counter at 4, is skipped at once. -/
theorem skip_then_skip_trace :
    (match demo_two_slices.SendData 6 (demo_net demo_staggered_failures) with
      | .ok f => some (f.broadcasts.map (fun b =>
          (b.offset, b.send_buffer.length, b.result, b.failed_packets)),
          f.self.last_send_pos_, f.self.udp_server_.clients_)
      | .error _ => none)
    = some ([(0, 480, false, 1), (0, 480, false, 2), (0, 480, false, 3), (480, 1, false, 4)],
        481, []) := by
  decide!

theorem CallChain_snoc (bs : List Broadcast) (c : Broadcast) :
    ∀ (udp : UDPServer) (net : Net) (udp1 : UDPServer) (net1 : Net) (udp2 : UDPServer)
      (net2 : Net), CallChain udp net bs udp1 net1 →
      udp1.SendToAllClients net1 (some (reinterpret_bytes c.send_buffer))
        (2 * c.send_buffer.length) = .ok (c.result, udp2, net2) →
      CallChain udp net (bs ++ [c]) udp2 net2 := by
  induction bs with
  | nil =>
    intro udp net udp1 net1 udp2 net2 h hc
    obtain ⟨h1, h2⟩ := h
    subst h1 h2
    exact ⟨udp2, net2, hc, rfl, rfl⟩
  | cons b rest ih =>
    intro udp net udp1 net1 udp2 net2 h hc
    obtain ⟨u, n, hb, hrest⟩ := h
    exact ⟨u, n, hb, ih u n udp1 net1 udp2 net2 hrest hc⟩

/-- A `SendData` invocation that finds unsent data and a registered endpoint
completes, and its record of broadcasts is the chain of the calls of
`SendToAllClients` it made. -/
theorem SendData_calls (s : AudioProcessor) (ring : List int16_t) (fuel : Nat) (net : Net)
    (hN : s.ring_buffer_size_ ≤ 2147483648) (hring : s.ring_buffer_ = some ring)
    (hlen : ring.length = s.ring_buffer_size_) (hw : s.write_pos_ < s.ring_buffer_size_)
    (hl : s.last_send_pos_ < s.ring_buffer_size_)
    (hv : 0 < s.valid_data_samples) (hc : s.udp_server_.HasClients = true)
    (hfuel : 3 * ((s.valid_data_samples + (MAX_SAMPLES_PER_PACKET - 1)) / MAX_SAMPLES_PER_PACKET)
      ≤ fuel) :
    ∃ st : SendLoop,
      LoopInv (ring_window ring s.ring_buffer_size_ s.last_send_pos_ s.valid_data_samples)
        s.ring_buffer_size_ s.last_send_pos_ s.valid_data_samples st ∧
      (CallChain s.udp_server_ net st.broadcasts st.udp_server_ st.net ∧
        ∀ b, st.broadcasts.head? = some b → b.offset = 0) ∧
      st.samples_sent = s.valid_data_samples ∧
      s.SendData fuel net = .ok
        { self := { s with udp_server_ := st.udp_server_, last_send_pos_ := s.write_pos_ },
          net := st.net, broadcasts := st.broadcasts } := by
  obtain ⟨hvlt, _⟩ := valid_data_samples_lt s hN hw hl
  refine SendData_run_with s ring fuel net hN hring hlen hw hl hv hc hfuel
    (fun st => CallChain s.udp_server_ net st.broadcasts st.udp_server_ st.net ∧
      ∀ b, st.broadcasts.head? = some b → b.offset = 0)
    ⟨⟨rfl, rfl⟩, by intro b hb; simp at hb⟩ ?_
  intro st sent udp net1 hinv hP hss hsend
  obtain ⟨hP, hfirst⟩ := hP
  unfold SendLoop.advance
  simp only
  refine ⟨?_, ?_⟩
  rotate_left
  · intro b hb
    cases hbs : st.broadcasts with
    | nil =>
      rw [hbs] at hb
      simp only [List.nil_append, List.head?_cons, Option.some.injEq] at hb
      rw [← hb]
      simp only
      have hacc := accounted_samples_of_inv _ _ _ _ st (ring_window_length _ _ _ _) hinv
      rw [hbs] at hacc
      exact hacc.symm
    | cons b0 rest =>
      rw [hbs] at hb hfirst
      simp only [List.cons_append, List.head?_cons, Option.some.injEq] at hb
      rw [← hb]
      exact hfirst b0 rfl
  refine CallChain_snoc _ _ _ _ _ _ _ _ hP ?_
  simp only
  have hsl : (((ring_window ring s.ring_buffer_size_ s.last_send_pos_
      s.valid_data_samples).drop st.samples_sent).take
        (min MAX_SAMPLES_PER_PACKET (s.valid_data_samples - st.samples_sent))).length
      = min MAX_SAMPLES_PER_PACKET (s.valid_data_samples - st.samples_sent) := by
    rw [List.length_take, List.length_drop, ring_window_length]; omega
  rw [hsl]
  exact hsend

/-- The two bytes of sample `j` in the serialized slice: low byte, then high byte. -/
theorem reinterpret_bytes_getElem? (xs : List int16_t) :
    ∀ (j : Nat) (x : int16_t), xs[j]? = some x →
      (reinterpret_bytes xs)[2 * j]? = some (Int.emod x 256).toNat ∧
      (reinterpret_bytes xs)[2 * j + 1]? = some (Int.emod (Int.ediv x 256) 256).toNat := by
  induction xs with
  | nil => intro j x h; simp at h
  | cons y rest ih =>
    intro j x h
    cases j with
    | zero =>
      simp only [List.getElem?_cons_zero, Option.some.injEq] at h
      subst h
      simp [reinterpret_bytes, int16_bytes]
    | succ j =>
      simp only [List.getElem?_cons_succ] at h
      obtain ⟨h1, h2⟩ := ih j x h
      have e1 : 2 * (j + 1) = 2 * j + 1 + 1 := by omega
      have e2 : 2 * (j + 1) + 1 = 2 * j + 1 + 1 + 1 := by omega
      simp only [reinterpret_bytes, int16_bytes, List.cons_append, List.nil_append]
      rw [e2, e1]
      simp only [List.getElem?_cons_succ]
      exact ⟨h1, h2⟩

/-- The low and high byte of a 16-bit two's complement number determine it. -/
theorem int16_decode (x : Int) (hlo : -32768 ≤ x) (hhi : x ≤ 32767) :
    (if ((x / 256) % 256).toNat < 128 then ((x % 256).toNat : Int) + 256 * (((x / 256) % 256).toNat : Int)
      else ((x % 256).toNat : Int) + 256 * (((x / 256) % 256).toNat : Int) - 65536) = x := by
  have e1 : ((x % 256).toNat : Int) = x % 256 :=
    Int.toNat_of_nonneg (Int.emod_nonneg _ (by decide))
  have e2 : (((x / 256) % 256).toNat : Int) = (x / 256) % 256 :=
    Int.toNat_of_nonneg (Int.emod_nonneg _ (by decide))
  have e3 : ((x / 256) % 256).toNat < 128 ↔ (x / 256) % 256 < 128 := by
    rw [← e2]; omega
  rw [e1, e2]
  by_cases hc : (x / 256) % 256 < 128
  · rw [if_pos (e3.mpr hc)]
    omega
  · rw [if_neg (fun h => hc (e3.mp h))]
    omega

/-- Reading the serialized slice back through an `int16_t*` gives the samples. -/
theorem int16_at_reinterpret_bytes (xs : List int16_t) (j : Nat) (x : int16_t)
    (h : xs[j]? = some x) (hlo : -32768 ≤ x) (hhi : x ≤ 32767) :
    int16_at (reinterpret_bytes xs) j = .ok x := by
  obtain ⟨h1, h2⟩ := reinterpret_bytes_getElem? xs j x h
  unfold int16_at
  rw [h1, h2]
  exact congrArg Except.ok (int16_decode x hlo hhi)

theorem data_frame_full (d : List uint8_t) : data_frame d d.length = [0, 0, 0, 0] ++ d := by
  unfold data_frame
  rw [List.take_of_length_le (Nat.le_refl _)]

/-- C21, as amended (maximum DATA payload). In every `SendData` invocation
the record of broadcasts is the chain of calls of `SendToAllClients` made, each
with payload `reinterpret_bytes send_buffer` and `len` twice the number of
samples of the slice. That payload is the raw native-order image of the
samples: two bytes per sample, low byte first, and reading it back through an
`int16_t*` returns every sample in the 16-bit range. A slice holds between 1
and 480 samples, so the payload is at most 960 bytes, exactly 960 for a
slice of 480, and the DATA datagram built from it is the 4 zero header bytes
followed by the payload: 4 + 960 bytes for a full slice. -/
theorem payload_serialization (s : AudioProcessor) (ring : List int16_t) (fuel : Nat)
    (net : Net)
    (hN : s.ring_buffer_size_ ≤ 2147483648) (hring : s.ring_buffer_ = some ring)
    (hlen : ring.length = s.ring_buffer_size_) (hw : s.write_pos_ < s.ring_buffer_size_)
    (hl : s.last_send_pos_ < s.ring_buffer_size_)
    (hfuel : 3 * ((s.valid_data_samples + (MAX_SAMPLES_PER_PACKET - 1)) / MAX_SAMPLES_PER_PACKET)
      ≤ fuel) :
    ∃ f : Flush, s.SendData fuel net = .ok f ∧
      CallChain s.udp_server_ net f.broadcasts f.self.udp_server_ f.net ∧
      ∀ b ∈ f.broadcasts,
        (reinterpret_bytes b.send_buffer).length = 2 * b.send_buffer.length ∧
        0 < b.send_buffer.length ∧ b.send_buffer.length ≤ MAX_SAMPLES_PER_PACKET ∧
        (reinterpret_bytes b.send_buffer).length ≤ 960 ∧
        (b.send_buffer.length = MAX_SAMPLES_PER_PACKET →
          (reinterpret_bytes b.send_buffer).length = 960 ∧
          (data_frame (reinterpret_bytes b.send_buffer) (2 * b.send_buffer.length)).length
            = 4 + 960) ∧
        data_frame (reinterpret_bytes b.send_buffer) (2 * b.send_buffer.length)
          = [0, 0, 0, 0] ++ reinterpret_bytes b.send_buffer ∧
        (data_frame (reinterpret_bytes b.send_buffer) (2 * b.send_buffer.length)).length
          = sizeof_MessageHeader + 2 * b.send_buffer.length ∧
        (∀ (j : Nat) (x : int16_t), b.send_buffer[j]? = some x →
          (reinterpret_bytes b.send_buffer)[2 * j]? = some (Int.emod x 256).toNat ∧
          (reinterpret_bytes b.send_buffer)[2 * j + 1]?
            = some (Int.emod (Int.ediv x 256) 256).toNat) ∧
        (∀ (j : Nat) (x : int16_t), b.send_buffer[j]? = some x → -32768 ≤ x → x ≤ 32767 →
          int16_at (reinterpret_bytes b.send_buffer) j = .ok x) := by
  by_cases hrun : 0 < s.valid_data_samples ∧ s.udp_server_.HasClients = true
  · obtain ⟨st, hinv, ⟨hchain, _⟩, hss, hsend⟩ := SendData_calls s ring fuel net hN hring hlen hw hl
      hrun.1 hrun.2 hfuel
    have hW := ring_window_length ring s.ring_buffer_size_ s.last_send_pos_ s.valid_data_samples
    refine ⟨_, hsend, hchain, ?_⟩
    simp only
    intro b hb
    obtain ⟨hbl, hpos⟩ := Broadcast_slice_pos _ _ _ _ st hW hinv b hb
    have hle : b.send_buffer.length ≤ MAX_SAMPLES_PER_PACKET := by
      rw [hbl]; exact Nat.min_le_left _ _
    have hrl := reinterpret_bytes_length b.send_buffer
    have hfr : data_frame (reinterpret_bytes b.send_buffer) (2 * b.send_buffer.length)
        = [0, 0, 0, 0] ++ reinterpret_bytes b.send_buffer := by
      rw [← hrl]; exact data_frame_full _
    have hfl : (data_frame (reinterpret_bytes b.send_buffer) (2 * b.send_buffer.length)).length
        = 4 + 2 * b.send_buffer.length :=
      data_frame_length _ _ (by rw [hrl])
    unfold MAX_SAMPLES_PER_PACKET at hle ⊢
    refine ⟨hrl, hpos, hle, by omega, ?_, hfr, hfl, reinterpret_bytes_getElem? _,
      fun j x h h1 h2 => int16_at_reinterpret_bytes _ j x h h1 h2⟩
    intro h480
    exact ⟨by rw [hrl, h480], by rw [hfl, h480]⟩
  · have hidle : s.SendData fuel net = .ok { self := s, net := net, broadcasts := [] } := by
      refine SendData_idle s fuel net ?_
      by_cases hv : s.valid_data_samples = 0
      · exact Or.inl hv
      · right
        cases hc : s.udp_server_.HasClients
        · rfl
        · exact absurd ⟨by omega, hc⟩ hrun
    refine ⟨_, hidle, ⟨rfl, rfl⟩, ?_⟩
    intro b hb
    simp at hb

theorem payload_serialization_witness :
    ∃ f : Flush, demo_two_slices.SendData 6 (demo_net []) = .ok f ∧
      CallChain demo_two_slices.udp_server_ (demo_net []) f.broadcasts f.self.udp_server_
        f.net ∧
      ∀ b ∈ f.broadcasts,
        (reinterpret_bytes b.send_buffer).length = 2 * b.send_buffer.length ∧
        0 < b.send_buffer.length ∧ b.send_buffer.length ≤ MAX_SAMPLES_PER_PACKET ∧
        (reinterpret_bytes b.send_buffer).length ≤ 960 ∧
        (b.send_buffer.length = MAX_SAMPLES_PER_PACKET →
          (reinterpret_bytes b.send_buffer).length = 960 ∧
          (data_frame (reinterpret_bytes b.send_buffer) (2 * b.send_buffer.length)).length
            = 4 + 960) ∧
        data_frame (reinterpret_bytes b.send_buffer) (2 * b.send_buffer.length)
          = [0, 0, 0, 0] ++ reinterpret_bytes b.send_buffer ∧
        (data_frame (reinterpret_bytes b.send_buffer) (2 * b.send_buffer.length)).length
          = sizeof_MessageHeader + 2 * b.send_buffer.length ∧
        (∀ (j : Nat) (x : int16_t), b.send_buffer[j]? = some x →
          (reinterpret_bytes b.send_buffer)[2 * j]? = some (Int.emod x 256).toNat ∧
          (reinterpret_bytes b.send_buffer)[2 * j + 1]?
            = some (Int.emod (Int.ediv x 256) 256).toNat) ∧
        (∀ (j : Nat) (x : int16_t), b.send_buffer[j]? = some x → -32768 ≤ x → x ≤ 32767 →
          int16_at (reinterpret_bytes b.send_buffer) j = .ok x) :=
  payload_serialization demo_two_slices (List.replicate 512 5) 6 (demo_net [])
    (by decide) rfl (List.length_replicate _ _) (by decide) (by decide) (by decide)

/-- C21 as stated fails: a flush of 481 unsent samples to one reachable
endpoint hands over a full slice of 480 samples as a payload of 960 bytes, not
1920, in a datagram of 4 + 960 bytes, and the remaining sample as a payload of
2 bytes in a datagram of 6. -/
theorem max_payload_counterexample :
    (match ({ demo_two_slices with udp_server_ := demo_server [demo_client] }).SendData 6
        (demo_net []) with
      | .ok f => some (f.broadcasts.map (fun b => (b.send_buffer.length,
            (reinterpret_bytes b.send_buffer).length,
            decide ((reinterpret_bytes b.send_buffer).length = 1920), b.result)),
          f.net.wire.map (fun d => (d.bytes.length, d.sent)))
      | .error _ => none)
    = some ([(480, 960, false, true), (1, 2, false, true)],
        [(964, true), (6, true)]) := by
  decide!

/-- A broadcast over an empty registry of a non-empty payload reports success
and changes neither the server nor the network. -/
theorem SendToAllClients_no_clients (self : UDPServer) (net : Net) (d : List uint8_t)
    (len : Nat) (hreg : self.clients_ = []) (hd : len ≤ d.length) (h0 : 0 < len)
    (hmax : len + 4 < 4294967296) :
    self.SendToAllClients net (some d) len = .ok (true, self, net) := by
  rw [SendToAllClients_spec self net d len hd h0 hmax, hreg]
  simp only [fanout_all_ok, fanout_failed, fanout_wire, List.foldl_nil, ite_self,
    List.append_nil]

/-- Once the registry is empty every further broadcast of the chain succeeds
and nothing changes any more. -/
theorem CallChain_no_clients (bs : List Broadcast) :
    ∀ (udp : UDPServer) (net : Net) (udp2 : UDPServer) (net2 : Net),
      udp.clients_ = [] →
      (∀ b ∈ bs, 0 < b.send_buffer.length ∧ b.send_buffer.length ≤ MAX_SAMPLES_PER_PACKET) →
      CallChain udp net bs udp2 net2 →
      udp2 = udp ∧ net2 = net ∧ ∀ b ∈ bs, b.result = true := by
  induction bs with
  | nil =>
    intro udp net udp2 net2 _ _ h
    exact ⟨h.1, h.2, by intro b hb; simp at hb⟩
  | cons b rest ih =>
    intro udp net udp2 net2 hreg hlen h
    obtain ⟨u, n, hcall, hrest⟩ := h
    obtain ⟨hb0, hb1⟩ := hlen b (List.mem_cons_self _ _)
    unfold MAX_SAMPLES_PER_PACKET at hb1
    rw [SendToAllClients_no_clients udp net _ _ hreg
      (by rw [reinterpret_bytes_length]) (by omega) (by omega)] at hcall
    simp only [Except.ok.injEq, Prod.mk.injEq] at hcall
    obtain ⟨hr, hu, hn⟩ := hcall
    subst hu hn
    obtain ⟨h1, h2, h3⟩ := ih udp net udp2 net2 hreg
      (fun b2 hb2 => hlen b2 (List.mem_cons_of_mem _ hb2)) hrest
    refine ⟨h1, h2, ?_⟩
    intro b2 hb2
    cases List.mem_cons.mp hb2 with
    | inl h => rw [h]; exact hr.symm
    | inr h => exact h3 b2 h

/-- The counter recorded with a broadcast is 0 exactly when it succeeded. -/
theorem failed_packets_zero_iff (W : List int16_t) (N cur valid : Nat) (st : SendLoop)
    (hinv : LoopInv W N cur valid st) (i : Nat) (b : Broadcast)
    (hb : st.broadcasts[i]? = some b) : b.failed_packets = 0 ↔ b.result = true := by
  cases i with
  | zero =>
    rw [failed_packets_first _ _ _ _ st hinv b hb]
    cases b.result <;> simp
  | succ i =>
    obtain ⟨hlt, _⟩ := List.getElem?_eq_some.mp hb
    have hprev : st.broadcasts[i]? = some (st.broadcasts[i]) :=
      List.getElem?_eq_getElem (by omega)
    rw [failed_packets_succ _ _ _ _ st hinv i _ b hprev hb]
    cases b.result <;> simp

/-- C23 (a broadcast to nobody counts as sent). `SendToAllClients` on an empty
registry with a non-empty payload returns true and sends nothing. Hence a
`SendData` invocation that finds unsent data and exactly one registered
endpoint `c` whose first send fails (socket closed or `sendto` error) goes as
follows: the first broadcast fails with the counter at 1 and evicts `c`; the
same slice is broadcast again and this and every later broadcast succeeds, so
every slice is counted as sent and `last_send_pos_` becomes `write_pos_`; the
only datagram handed to `sendto` is the failed one, so no endpoint was sent
any sample; and exactly one failure was counted. -/
theorem sole_endpoint_lost (s : AudioProcessor) (ring : List int16_t) (fuel : Nat)
    (net : Net) (c : ClientInfo)
    (hN : s.ring_buffer_size_ ≤ 2147483648) (hring : s.ring_buffer_ = some ring)
    (hlen : ring.length = s.ring_buffer_size_) (hw : s.write_pos_ < s.ring_buffer_size_)
    (hl : s.last_send_pos_ < s.ring_buffer_size_)
    (hv : 0 < s.valid_data_samples) (hreg : s.udp_server_.clients_ = [c])
    (hfail : s.udp_server_.send_ok net net.wire.length = false)
    (hfuel : 3 * ((s.valid_data_samples + (MAX_SAMPLES_PER_PACKET - 1)) / MAX_SAMPLES_PER_PACKET)
      ≤ fuel) :
    (∀ (udp : UDPServer) (net0 : Net) (d : List uint8_t) (len : Nat),
      udp.clients_ = [] → 0 < len → len ≤ d.length → len + 4 < 4294967296 →
      udp.SendToAllClients net0 (some d) len = .ok (true, udp, net0)) ∧
    ∃ (f : Flush) (b0 b1 : Broadcast) (rest : List Broadcast),
      s.SendData fuel net = .ok f ∧
      f.broadcasts = b0 :: b1 :: rest ∧
      b0.offset = 0 ∧ b0.result = false ∧ b0.failed_packets = 1 ∧
      b1.offset = 0 ∧ b1.send_buffer = b0.send_buffer ∧
      (∀ b ∈ b1 :: rest, b.result = true ∧ b.failed_packets = 0) ∧
      (f.broadcasts.filter (fun b => !b.result)).length = 1 ∧
      f.self.udp_server_.clients_ = [] ∧
      f.self.last_send_pos_ = s.write_pos_ ∧
      accounted_samples f.broadcasts = s.valid_data_samples ∧
      f.net.wire = net.wire ++
        (if 0 ≤ s.udp_server_.socket_fd_ then
          [{ dest := c.addr,
             bytes := data_frame (reinterpret_bytes b0.send_buffer) (2 * b0.send_buffer.length),
             sent := false }]
         else []) ∧
      (∀ d ∈ f.net.wire.drop net.wire.length, d.sent = false) := by
  refine ⟨fun udp net0 d len h1 h2 h3 h4 => SendToAllClients_no_clients udp net0 d len h1 h3 h2 h4,
    ?_⟩
  have hc : s.udp_server_.HasClients = true := by
    unfold UDPServer.HasClients; rw [hreg]; rfl
  obtain ⟨st, hinv, ⟨hchain, hfirst⟩, hss, hsend⟩ := SendData_calls s ring fuel net hN hring hlen
    hw hl hv hc hfuel
  have hW := ring_window_length ring s.ring_buffer_size_ s.last_send_pos_ s.valid_data_samples
  have hacc := accounted_samples_of_inv _ _ _ _ st hW hinv
  have hsz : ∀ b ∈ st.broadcasts,
      0 < b.send_buffer.length ∧ b.send_buffer.length ≤ MAX_SAMPLES_PER_PACKET := by
    intro b hb
    obtain ⟨h1, h2⟩ := Broadcast_slice_pos _ _ _ _ st hW hinv b hb
    exact ⟨h2, by rw [h1]; exact Nat.min_le_left _ _⟩
  cases hbs : st.broadcasts with
  | nil =>
    rw [hbs] at hacc
    have : accounted_samples [] = 0 := rfl
    omega
  | cons b0 rest0 =>
    rw [hbs] at hchain hfirst
    obtain ⟨u, n, hcall, hrest⟩ := hchain
    obtain ⟨hb0, hb1⟩ := hsz b0 (by rw [hbs]; exact List.mem_cons_self _ _)
    unfold MAX_SAMPLES_PER_PACKET at hb1
    rw [SendToAllClients_spec _ _ _ _ (by rw [reinterpret_bytes_length]) (by omega) (by omega),
      hreg] at hcall
    simp only [fanout_all_ok, fanout_failed, fanout_wire, hfail, Bool.false_and,
      Bool.false_eq_true, if_false, List.foldl_cons, List.foldl_nil, Except.ok.injEq,
      Prod.mk.injEq] at hcall
    obtain ⟨hr, hu, hn⟩ := hcall
    have hu0 : u.clients_ = [] := by
      rw [← hu]
      unfold UDPServer.RemoveClient
      simp only [hreg, RemoveClient_erase, and_self, if_true]
    obtain ⟨hst_u, hst_n, hall⟩ := CallChain_no_clients rest0 u n st.udp_server_ st.net hu0
      (fun b hb => hsz b (by rw [hbs]; exact List.mem_cons_of_mem _ hb)) hrest
    have hget0 : st.broadcasts[0]? = some b0 := by rw [hbs, List.getElem?_cons_zero]
    have hfp0 : b0.failed_packets = 1 := by
      rw [failed_packets_first _ _ _ _ st hinv b0 hget0, ← hr]; rfl
    obtain ⟨_, hretry, _⟩ := failed_broadcast_fate _ _ _ _ st hinv hss 0 b0 hget0 hr.symm
    obtain ⟨b1, hb1get, hb1o, _, hb1s⟩ := hretry (by rw [hfp0]; decide)
    cases hrest0 : rest0 with
    | nil => rw [hbs, hrest0] at hb1get; simp at hb1get
    | cons b1x rest =>
      rw [hbs, hrest0] at hb1get
      simp only [Nat.zero_add, List.getElem?_cons_succ, List.getElem?_cons_zero,
        Option.some.injEq] at hb1get
      subst hb1get
      rw [hrest0] at hall hbs
      refine ⟨_, b0, b1x, rest, hsend, hbs, hfirst b0 rfl, hr.symm, hfp0,
        by rw [hb1o]; exact hfirst b0 rfl, hb1s, ?_, ?_, ?_, rfl, ?_, ?_, ?_⟩
      · intro b hb
        refine ⟨hall b hb, ?_⟩
        obtain ⟨i, hi⟩ := List.getElem?_of_mem hb
        have hgi : st.broadcasts[i + 1]? = some b := by
          rw [hbs]; simpa using hi
        exact (failed_packets_zero_iff _ _ _ _ st hinv (i + 1) b hgi).mpr (hall b hb)
      · simp only
        rw [hbs, List.filter_cons, ← hr]
        simp only [Bool.not_false, if_true, List.length_cons]
        rw [List.filter_eq_nil_iff.mpr (by
          intro b hb; rw [hall b hb]; simp)]
        rfl
      · simp only
        rw [hst_u]; exact hu0
      · simp only
        rw [hacc, hss]
      · simp only
        rw [hst_n, ← hn]
      · simp only
        rw [hst_n, ← hn]
        simp only [List.drop_left]
        intro d hd
        split at hd
        · rw [List.mem_singleton] at hd
          rw [hd]
        · simp at hd

theorem sole_endpoint_lost_witness :
    (∀ (udp : UDPServer) (net0 : Net) (d : List uint8_t) (len : Nat),
      udp.clients_ = [] → 0 < len → len ≤ d.length → len + 4 < 4294967296 →
      udp.SendToAllClients net0 (some d) len = .ok (true, udp, net0)) ∧
    ∃ (f : Flush) (b0 b1 : Broadcast) (rest : List Broadcast),
      (demo_written [demo_client]).SendData 3 (demo_net [false]) = .ok f ∧
      f.broadcasts = b0 :: b1 :: rest ∧
      b0.offset = 0 ∧ b0.result = false ∧ b0.failed_packets = 1 ∧
      b1.offset = 0 ∧ b1.send_buffer = b0.send_buffer ∧
      (∀ b ∈ b1 :: rest, b.result = true ∧ b.failed_packets = 0) ∧
      (f.broadcasts.filter (fun b => !b.result)).length = 1 ∧
      f.self.udp_server_.clients_ = [] ∧
      f.self.last_send_pos_ = (demo_written [demo_client]).write_pos_ ∧
      accounted_samples f.broadcasts = (demo_written [demo_client]).valid_data_samples ∧
      f.net.wire = (demo_net [false]).wire ++
        (if 0 ≤ (demo_written [demo_client]).udp_server_.socket_fd_ then
          [{ dest := demo_client.addr,
             bytes := data_frame (reinterpret_bytes b0.send_buffer) (2 * b0.send_buffer.length),
             sent := false }]
         else []) ∧
      (∀ d ∈ f.net.wire.drop (demo_net [false]).wire.length, d.sent = false) :=
  sole_endpoint_lost (demo_written [demo_client]) [1, 2, 3, 4, 5, 0, 0, 0] 3 (demo_net [false])
    demo_client (by decide) rfl rfl (by decide) (by decide) (by decide) rfl (by decide)
    (by decide)

/-- The scenario evaluated: one endpoint, its first send fails. -/
theorem sole_endpoint_lost_trace :
    (match (demo_written [demo_client]).SendData 3 (demo_net [false]) with
      | .ok f => some (f.broadcasts, f.self.last_send_pos_, f.self.udp_server_.clients_,
          f.net.wire.map Datagram.sent)
      | .error _ => none)
    = some
      ([{ offset := 0, read_pos := 0, send_buffer := [1, 2, 3, 4, 5], result := false,
          failed_packets := 1 },
        { offset := 0, read_pos := 0, send_buffer := [1, 2, 3, 4, 5], result := true,
          failed_packets := 0 }],
       5, [], [false]) := by
  decide!

/-- The scenario evaluated: the send to the first of two endpoints fails, the
second is sent the same 14-byte frame twice. -/
theorem duplicate_delivery_trace :
    (match (demo_written [demo_client, demo_client2]).SendData 3 (demo_net [false, true]) with
      | .ok f => some (f.net.wire, f.broadcasts.map Broadcast.result)
      | .error _ => none)
    = some
      ([{ dest := demo_client.addr, bytes := [0, 0, 0, 0, 1, 0, 2, 0, 3, 0, 4, 0, 5, 0],
          sent := false },
        { dest := demo_client2.addr, bytes := [0, 0, 0, 0, 1, 0, 2, 0, 3, 0, 4, 0, 5, 0],
          sent := true },
        { dest := demo_client2.addr, bytes := [0, 0, 0, 0, 1, 0, 2, 0, 3, 0, 4, 0, 5, 0],
          sent := true }],
       [false, true]) := by
  decide!

/-- A datagram of fewer than 482 16-bit words is written to the WAV file whole
(up to its last complete word), whatever it starts with. -/
theorem receive_loop_body_short (client : UDPClient) (n : Nat) (buffer : List uint8_t)
    (h2 : 2 ≤ n) (hshort : n / 2 < 482) (hle : n ≤ buffer.length) :
    client._receive_loop_body (n : Int) buffer
      = .ok (client.appended (buffer.take (2 * (n / 2)))) := by
  unfold UDPClient._receive_loop_body
  have h1 : (n : Int) > 0 := by omega
  have h3 : ¬ ((n : Int) / 2 ≥ 482) := by omega
  have h4 : ((n : Int) / 2 - 0) * 2 > 0 := by omega
  have h5 : (((n : Int) / 2 - 0) * 2).toNat = 2 * (n / 2) := by omega
  simp only [h1, h3, if_true, if_false, Bool.false_eq_true, h4, Int.mul_zero, Int.zero_add,
    h5, Int.toNat_zero, List.drop_zero]
  rw [if_pos (by omega)]
  unfold UDPClient.appended
  have h6 : (buffer.take (2 * (n / 2))).length = 2 * (n / 2) := by
    rw [List.length_take]; omega
  rw [h6]

/-- A datagram of at least 482 16-bit words that starts with four zero bytes
is written to the WAV file without them. -/
theorem receive_loop_body_long (client : UDPClient) (n : Nat) (buffer : List uint8_t)
    (hlong : 482 ≤ n / 2) (hle : n ≤ buffer.length) (hz : buffer.take 4 = [0, 0, 0, 0]) :
    client._receive_loop_body (n : Int) buffer
      = .ok (client.appended ((buffer.drop 4).take (2 * (n / 2) - 4))) := by
  have hb : ∀ i, i < 4 → buffer[i]? = some 0 := by
    intro i hi
    have : (buffer.take 4)[i]? = buffer[i]? := by
      rw [List.getElem?_take]; simp [hi]
    rw [← this, hz]
    have h4 : i = 0 ∨ i = 1 ∨ i = 2 ∨ i = 3 := by omega
    rcases h4 with h | h | h | h <;> subst h <;> rfl
  have w0 : int16_at buffer 0 = .ok 0 := by
    unfold int16_at
    rw [hb 0 (by decide), hb 1 (by decide)]
    rfl
  have w1 : int16_at buffer 1 = .ok 0 := by
    unfold int16_at
    rw [hb 2 (by decide), hb 3 (by decide)]
    rfl
  unfold UDPClient._receive_loop_body
  have h1 : (n : Int) > 0 := by omega
  have h3 : (n : Int) / 2 ≥ 482 := by omega
  have h4 : ((n : Int) / 2 - 2) * 2 > 0 := by omega
  have h5 : (((n : Int) / 2 - 2) * 2).toNat = 2 * (n / 2) - 4 := by omega
  have h7 : (2 * 2 + ((n : Int) / 2 - 2) * 2).toNat = 2 * (n / 2) := by omega
  simp only [h1, h3, if_true, w0, w1, decide_True, h4, h5, h7]
  rw [if_pos (by omega)]
  unfold UDPClient.appended
  have h6 : ((buffer.drop 4).take (2 * (n / 2) - 4)).length = 2 * (n / 2) - 4 := by
    rw [List.length_take, List.length_drop]; omega
  rw [h6]
  rfl

/-- C27 (the reference client strips the header of full datagrams only). For
every DATA datagram `SendToAllClients` builds from a payload of `k ≥ 1` 16-bit
samples (it is the 4 zero header bytes followed by the payload, `4 + 2k`
bytes, within the client's 2048-byte buffer), one pass of the client's receive
loop on that datagram completes and appends to the WAV file: the payload
exactly when `k ≥ 480` (the datagram then holds at least 482 words and its
first two words are 0), and the whole datagram, `2k + 4` bytes, when
`k < 480`: the header as two zero samples followed by the payload. -/
theorem client_header_stripping (self : UDPServer) (net : Net) (xs : List int16_t)
    (client : UDPClient) (hk : 0 < xs.length)
    (hmax : sizeof_MessageHeader + 2 * xs.length ≤ client_buffer_size) :
    ∃ (sent : Bool) (udp : UDPServer) (seg : List Datagram),
      self.SendToAllClients net (some (reinterpret_bytes xs)) (2 * xs.length)
        = .ok (sent, udp, { net with wire := net.wire ++ seg }) ∧
      (0 ≤ self.socket_fd_ → seg.map Datagram.dest = self.clients_.map ClientInfo.addr) ∧
      ∀ dg ∈ seg,
        dg.bytes = [0, 0, 0, 0] ++ reinterpret_bytes xs ∧
        dg.bytes.length = sizeof_MessageHeader + 2 * xs.length ∧
        ∀ buffer : List uint8_t, buffer.length = client_buffer_size →
          buffer.take dg.bytes.length = dg.bytes →
          ∃ appended : List uint8_t,
            client._receive_loop_body (dg.bytes.length : Int) buffer
              = .ok (client.appended appended) ∧
            (client.appended appended).wav_file = client.wav_file ++ appended ∧
            (480 ≤ xs.length → 482 ≤ dg.bytes.length / 2 ∧ appended = reinterpret_bytes xs) ∧
            (xs.length < 480 → dg.bytes.length / 2 < 482 ∧ appended = dg.bytes ∧
              appended = reinterpret_bytes (0 :: 0 :: xs) ∧
              appended.length = 2 * xs.length + 4) := by
  unfold sizeof_MessageHeader client_buffer_size at *
  have hrl := reinterpret_bytes_length xs
  rw [SendToAllClients_spec self net _ _ (by rw [hrl]) (by omega) (by omega)]
  have hfr : data_frame (reinterpret_bytes xs) (2 * xs.length)
      = [0, 0, 0, 0] ++ reinterpret_bytes xs := by
    rw [← hrl]; exact data_frame_full _
  have hfl : ([0, 0, 0, 0] ++ reinterpret_bytes xs).length = 4 + 2 * xs.length := by
    rw [List.length_append, hrl]; rfl
  refine ⟨_, _, _, rfl, ?_, ?_⟩
  · intro hopen
    rw [if_pos hopen, fanout_wire_dest]
  · intro dg hdg
    have hbytes : dg.bytes = [0, 0, 0, 0] ++ reinterpret_bytes xs := by
      split at hdg
      · rw [fanout_wire_bytes _ _ _ _ dg hdg, hfr]
      · simp at hdg
    refine ⟨hbytes, by rw [hbytes, hfl], ?_⟩
    intro buffer hbl htake
    rw [hbytes, hfl] at htake ⊢
    have hdiv : (4 + 2 * xs.length) / 2 = 2 + xs.length := by omega
    by_cases h480 : 480 ≤ xs.length
    · have hz : buffer.take 4 = [0, 0, 0, 0] := by
        have : buffer.take 4 = (buffer.take (4 + 2 * xs.length)).take 4 := by
          rw [List.take_take]; congr 1; omega
        rw [this, htake]
        rfl
      have hpay : (buffer.drop 4).take (2 * ((4 + 2 * xs.length) / 2) - 4)
          = reinterpret_bytes xs := by
        rw [hdiv, show 2 * (2 + xs.length) - 4 = 2 * xs.length by omega]
        have : (buffer.drop 4).take (2 * xs.length)
            = (buffer.take (4 + 2 * xs.length)).drop 4 := by
          rw [List.drop_take]; congr 1; omega
        rw [this, htake]
        rfl
      refine ⟨reinterpret_bytes xs, ?_, rfl, fun _ => ⟨by omega, rfl⟩, fun h => by omega⟩
      rw [receive_loop_body_long client _ buffer (by omega) (by omega) hz, hpay]
    · have hall : buffer.take (2 * ((4 + 2 * xs.length) / 2))
          = [0, 0, 0, 0] ++ reinterpret_bytes xs := by
        rw [hdiv, show 2 * (2 + xs.length) = 4 + 2 * xs.length by omega, htake]
      refine ⟨[0, 0, 0, 0] ++ reinterpret_bytes xs, ?_, rfl, fun h => absurd h h480,
        fun _ => ⟨by omega, rfl, ?_, by rw [hfl]; omega⟩⟩
      · rw [receive_loop_body_short client _ buffer (by omega) (by omega) (by omega), hall]
      · rfl

theorem client_header_stripping_witness :
    ∃ (sent : Bool) (udp : UDPServer) (seg : List Datagram),
      (demo_server [demo_client]).SendToAllClients (demo_net [])
          (some (reinterpret_bytes [1, 2, 3])) (2 * ([1, 2, 3] : List int16_t).length)
        = .ok (sent, udp, { demo_net [] with wire := (demo_net []).wire ++ seg }) ∧
      (0 ≤ (demo_server [demo_client]).socket_fd_ →
        seg.map Datagram.dest = (demo_server [demo_client]).clients_.map ClientInfo.addr) ∧
      ∀ dg ∈ seg,
        dg.bytes = [0, 0, 0, 0] ++ reinterpret_bytes [1, 2, 3] ∧
        dg.bytes.length = sizeof_MessageHeader + 2 * ([1, 2, 3] : List int16_t).length ∧
        ∀ buffer : List uint8_t, buffer.length = client_buffer_size →
          buffer.take dg.bytes.length = dg.bytes →
          ∃ appended : List uint8_t,
            demo_recording._receive_loop_body (dg.bytes.length : Int) buffer
              = .ok (demo_recording.appended appended) ∧
            (demo_recording.appended appended).wav_file = demo_recording.wav_file ++ appended ∧
            (480 ≤ ([1, 2, 3] : List int16_t).length →
              482 ≤ dg.bytes.length / 2 ∧ appended = reinterpret_bytes [1, 2, 3]) ∧
            (([1, 2, 3] : List int16_t).length < 480 →
              dg.bytes.length / 2 < 482 ∧ appended = dg.bytes ∧
              appended = reinterpret_bytes (0 :: 0 :: [1, 2, 3]) ∧
              appended.length = 2 * ([1, 2, 3] : List int16_t).length + 4) :=
  client_header_stripping (demo_server [demo_client]) (demo_net []) [1, 2, 3] demo_recording
    (by decide) (by decide)

/-- A short datagram evaluated: the client writes the header of a 3-sample
DATA datagram into the recording, as two zero samples before the payload. -/
theorem short_datagram_keeps_header :
    (match demo_recording._receive_loop_body 10
        ([0, 0, 0, 0, 1, 0, 2, 0, 3, 0] ++ List.replicate 2038 9) with
      | .ok c => some (c.wav_file.drop 44, c.data_size)
      | .error _ => none)
    = some ([0, 0, 0, 0, 1, 0, 2, 0, 3, 0], 10) := by
  decide!

/-- A full datagram evaluated: of the 964 bytes of a 480-sample DATA datagram
the client writes the 960 payload bytes. -/
theorem full_datagram_loses_header :
    (match demo_recording._receive_loop_body 964
        ([0, 0, 0, 0] ++ List.replicate 960 7 ++ List.replicate 1084 9) with
      | .ok c => some (c.wav_file.drop 44 == List.replicate 960 7, c.data_size)
      | .error _ => none)
    = some (true, 960) := by
  decide!

end AudioStream
